import Mathlib

/-!
# lapackpp adapters: a shallow embedding of the invocation protocol

Every adapter of the repository (`src/src/*.cc`) is a thin wrapper around one
native Fortran kernel:

* `check for overflow`: every 64-bit dimension is compared with the largest
  `lapack_int`;
* the dimensions are cast to `lapack_int`;
* index arrays are copied to native width when `LAPACK_ILP64` is not defined;
* the kernel is called (twice when a workspace size is queried);
* `if (info_ < 0) throw Error();` and `return info_;`.

Machine integers are mathematical integers with explicit reduction modulo
`2^32` or `2^64`.  The native kernels are external: each adapter takes its
kernel as an arbitrary function of everything the adapter hands to it.
-/

namespace Lapack

/-! ## Machine integers -/

/-- Build configuration of `lapack_int` (`src/include/lapack/config.h`):
`narrow` is the default `typedef int lapack_int`, `wide` is `LAPACK_ILP64`
(`typedef long lapack_int`). -/
inductive IndexWidth
  | narrow
  | wide
  deriving DecidableEq, Repr

/-- Value of `sizeof(int64_t)`. -/
def sizeofInt64 : Nat := 8

/-- Value of `sizeof(lapack_int)` (the same holds for `blas_int`). -/
def sizeofLapackInt : IndexWidth → Nat
  | .narrow => 4
  | .wide => 8

/-- Smallest `int64_t`. -/
def INT64_MIN : Int := -(2 ^ 63)

/-- Largest `int64_t`. -/
def INT64_MAX : Int := 2 ^ 63 - 1

/-- Largest 32-bit `int`. -/
def INT32_MAX : Int := 2 ^ 31 - 1

/-- Smallest 32-bit `int`. -/
def INT32_MIN : Int := -(2 ^ 31)

/-- Conversion of a mathematical integer to `int64_t`: reduction modulo `2^64`
into the signed range. -/
def wrap64 (x : Int) : Int := (x + 2 ^ 63) % 2 ^ 64 - 2 ^ 63

/-- Conversion of a mathematical integer to a 32-bit `int`: reduction modulo
`2^32` into the signed range. -/
def wrap32 (x : Int) : Int := (x + 2 ^ 31) % 2 ^ 32 - 2 ^ 31

/-- Value of `std::numeric_limits<lapack_int>::max()`. -/
def lapackIntMax : IndexWidth → Int
  | .narrow => INT32_MAX
  | .wide => INT64_MAX

/-- Value of `std::numeric_limits<lapack_int>::min()`. -/
def lapackIntMin : IndexWidth → Int
  | .narrow => INT32_MIN
  | .wide => INT64_MIN

/-- The cast `(lapack_int) v` of an `int64_t`. -/
def toLapackInt : IndexWidth → Int → Int
  | .narrow, v => wrap32 v
  | .wide, v => wrap64 v

/-- The implicit conversion of a `lapack_int` to `int64_t`
(`return info_;`, `*m = m_;`, `std::copy` into an `int64_t` array). -/
def toInt64 (x : Int) : Int := wrap64 x

/-- The call `std::abs(v)` on an `int64_t`: the negation is computed in 64-bit
two's complement arithmetic. -/
def stdAbs (v : Int) : Int := wrap64 (if v < 0 then -v else v)

/-- A value is an `int64_t`. -/
def IsInt64 (v : Int) : Prop := INT64_MIN ≤ v ∧ v ≤ INT64_MAX

/-- A value is representable in a 32-bit `int`. -/
def IsInt32 (v : Int) : Prop := INT32_MIN ≤ v ∧ v ≤ INT32_MAX

/-- A value is representable in `lapack_int`. -/
def IsLapackInt (w : IndexWidth) (v : Int) : Prop := lapackIntMin w ≤ v ∧ v ≤ lapackIntMax w

instance (v : Int) : Decidable (IsInt64 v) := by unfold IsInt64; infer_instance

instance (v : Int) : Decidable (IsInt32 v) := by unfold IsInt32; infer_instance

instance (w : IndexWidth) (v : Int) : Decidable (IsLapackInt w v) := by
  unfold IsLapackInt; infer_instance

/-! ## Failures, events, kernels -/

/-- Modelled from the spec: the failures an adapter can raise.  The class
`lapack::Error` and the macros `lapack_error_if` and `throw_if_` are declared in
headers outside `src/`.  `overflow` is what `lapack_error_if( cond )` raises when
`cond` holds (the spec's DimensionOverflow); `illegal` is the value of the
expression `Error()` in `throw Error();`, which is built from no argument;
`lengthError` is what the standard vector constructor raises when it is
given a negative length. -/
inductive Failure
  | overflow
  | illegal
  | lengthError
  deriving DecidableEq, Repr

deriving instance DecidableEq for Except

/-- Observable steps of one adapter invocation, in program order. -/
inductive Event
  /-- A caller-owned index array is read: its first `len` entries are copied
  to a native-width vector. -/
  | readIndex (len : Int)
  /-- A scratch vector of `len` elements is allocated. -/
  | alloc (len : Int)
  /-- The native kernel is invoked with integer scalars `ints` (argument order)
  and native-width index array `index`. -/
  | call (ints : List Int) (index : List Int)
  deriving DecidableEq, Repr

/-- What a native kernel receives from an adapter, as far as integers go. -/
structure KernelIn where
  /-- The integer scalars passed by address, in argument order. -/
  ints : List Int
  /-- Contents of the native-width index array argument (empty when none). -/
  index : List Int
  deriving DecidableEq, Repr

/-- What a native kernel leaves behind. -/
structure KernelOut where
  /-- Value of `info_` after the call. -/
  info : Int
  /-- Contents of the native-width index array after the call. -/
  index : List Int := []
  /-- Value of the in/out count (`m_`) after the call. -/
  count : Int := 0
  /-- Real part of element 0 of the work placeholder after the call. -/
  probe : Rat := 0
  deriving DecidableEq, Repr

/-- A native kernel: an arbitrary function of the non-integer arguments `D`
(mode characters, floating-point scalars and arrays, which it may overwrite)
and of the integer arguments. -/
abbrev Kernel (D : Type) := D → KernelIn → D × KernelOut

/-- Result of an adapter without caller-owned integer arrays. -/
structure Outcome (α : Type) where
  /-- Returned value, or the failure raised. -/
  result : Except Failure α
  /-- Steps performed, in order. -/
  events : List Event

/-- The overflow test of one dimension:
`std::abs(v) > std::numeric_limits<lapack_int>::max()`. -/
def overflows (w : IndexWidth) (v : Int) : Bool := decide (stdAbs v > lapackIntMax w)

/-- The block `// check for overflow`: under `sizeof(int64_t) > sizeof(lapack_int)`
one `lapack_error_if` per listed dimension; `true` when one of them raises. -/
def checkOverflow (w : IndexWidth) (dims : List Int) : Bool :=
  decide (sizeofInt64 > sizeofLapackInt w) && dims.any (overflows w)

/-! ## Single-call adapters -/

/-- Adapter `lapack::trtrs` (`src/src/trtrs.cc`, lines 18-48). -/
def trtrs {D : Type} (w : IndexWidth) (strtrs_ : Kernel D) (d : D)
    (n nrhs lda ldb : Int) : Outcome Int :=
  if checkOverflow w [n, nrhs, lda, ldb] then ⟨.error .overflow, []⟩
  else
    let n_ := toLapackInt w n
    let nrhs_ := toLapackInt w nrhs
    let lda_ := toLapackInt w lda
    let ldb_ := toLapackInt w ldb
    let r := strtrs_ d ⟨[n_, nrhs_, lda_, ldb_], []⟩
    let info_ := r.2.info
    let ev := [Event.call [n_, nrhs_, lda_, ldb_] []]
    if info_ < 0 then ⟨.error .illegal, ev⟩
    else ⟨.ok (toInt64 info_), ev⟩

/-- Adapter `lapack::tbtrs` (`src/src/tbtrs.cc`, lines 18-50). -/
def tbtrs {D : Type} (w : IndexWidth) (stbtrs_ : Kernel D) (d : D)
    (n kd nrhs ldab ldb : Int) : Outcome Int :=
  if checkOverflow w [n, kd, nrhs, ldab, ldb] then ⟨.error .overflow, []⟩
  else
    let n_ := toLapackInt w n
    let kd_ := toLapackInt w kd
    let nrhs_ := toLapackInt w nrhs
    let ldab_ := toLapackInt w ldab
    let ldb_ := toLapackInt w ldb
    let r := stbtrs_ d ⟨[n_, kd_, nrhs_, ldab_, ldb_], []⟩
    let info_ := r.2.info
    let ev := [Event.call [n_, kd_, nrhs_, ldab_, ldb_] []]
    if info_ < 0 then ⟨.error .illegal, ev⟩
    else ⟨.ok (toInt64 info_), ev⟩

/-- Adapter `lapack::tptrs` (`src/src/tptrs.cc`, lines 18-46). -/
def tptrs {D : Type} (w : IndexWidth) (stptrs_ : Kernel D) (d : D)
    (n nrhs ldb : Int) : Outcome Int :=
  if checkOverflow w [n, nrhs, ldb] then ⟨.error .overflow, []⟩
  else
    let n_ := toLapackInt w n
    let nrhs_ := toLapackInt w nrhs
    let ldb_ := toLapackInt w ldb
    let r := stptrs_ d ⟨[n_, nrhs_, ldb_], []⟩
    let info_ := r.2.info
    let ev := [Event.call [n_, nrhs_, ldb_] []]
    if info_ < 0 then ⟨.error .illegal, ev⟩
    else ⟨.ok (toInt64 info_), ev⟩

/-- Adapter `lapack::pftri` (`src/src/pftri.cc`, lines 18-39). -/
def pftri {D : Type} (w : IndexWidth) (spftri_ : Kernel D) (d : D) (n : Int) : Outcome Int :=
  if checkOverflow w [n] then ⟨.error .overflow, []⟩
  else
    let n_ := toLapackInt w n
    let r := spftri_ d ⟨[n_], []⟩
    let info_ := r.2.info
    let ev := [Event.call [n_] []]
    if info_ < 0 then ⟨.error .illegal, ev⟩
    else ⟨.ok (toInt64 info_), ev⟩

/-- Adapter `lapack::sptrd` (`src/src/sptrd.cc`, lines 18-44). -/
def sptrd {D : Type} (w : IndexWidth) (ssptrd_ : Kernel D) (d : D) (n : Int) : Outcome Int :=
  if checkOverflow w [n] then ⟨.error .overflow, []⟩
  else
    let n_ := toLapackInt w n
    let r := ssptrd_ d ⟨[n_], []⟩
    let info_ := r.2.info
    let ev := [Event.call [n_] []]
    if info_ < 0 then ⟨.error .illegal, ev⟩
    else ⟨.ok (toInt64 info_), ev⟩

/-! ## Index arrays and scratch vectors -/

/-- Result of an adapter with one caller-owned in/out index array. -/
structure IndexOutcome (α : Type) where
  /-- Returned value, or the failure raised. -/
  result : Except Failure α
  /-- Steps performed, in order. -/
  events : List Event
  /-- The caller-owned index array after the invocation. -/
  index : List Int

/-- The range constructor `std::vector< lapack_int > v( &arr[0], &arr[len] )`:
the first `len` entries of the caller's array, each converted to `lapack_int`. -/
def copyIn (w : IndexWidth) (arr : List Int) (len : Int) : List Int :=
  (arr.take len.toNat).map (toLapackInt w)

/-- The call `std::copy( v.begin(), v.end(), arr )`: the entries of the
native-width vector overwrite the leading entries of the caller's array. -/
def stdCopy (v : List Int) (arr : List Int) : List Int :=
  v.map toInt64 ++ arr.drop v.length

/-- The constructor `lapack::vector< lapack_int > v( len )`: `len` elements
whose initial contents `junk` are whatever the fresh memory holds. -/
def fresh (junk : Nat → Int) (len : Int) : List Int :=
  (List.range len.toNat).map junk

/-- The conversion `lapack_int lwork_ = real(qry_work[0])` of a real probe
value, a floating-point number converted to an integer type: the fractional part
is discarded (truncation toward zero).  When the truncated value does not fit in a
`lapack_int` the C++ conversion is undefined; the conversion instruction of the
usual targets then delivers the most negative `lapack_int`, and so does the
model. -/
def probeToLapackInt (w : IndexWidth) (q : Rat) : Int :=
  let t := Int.tdiv q.num q.den
  if IsLapackInt w t then t else lapackIntMin w

/-- Modelled from the spec: the enumeration `lapack::Job` is declared in a header
outside `src/`; `NoVec` and `Vec` are the enumerators the adapters name, the
remaining ones are kept apart by their character code. -/
inductive Job
  | NoVec
  | Vec
  | other (code : Nat)
  deriving DecidableEq, Repr

/-- Adapter `lapack::gttrs` (`src/src/gttrs.cc`, lines 14-47).  The 32-bit copy
of `ipiv` is made under `#if 1`, in both configurations of `blas_int`. -/
def gttrs {D : Type} (w : IndexWidth) (sgttrs_ : Kernel D) (d : D)
    (n nrhs : Int) (ipiv : List Int) (ldb : Int) : IndexOutcome Int :=
  if checkOverflow w [n, nrhs, ldb] then ⟨.error .overflow, [], ipiv⟩
  else
    let n_ := toLapackInt w n
    let nrhs_ := toLapackInt w nrhs
    if n < 0 then ⟨.error .lengthError, [], ipiv⟩
    else
      let ipiv_ := copyIn w ipiv n
      let ldb_ := toLapackInt w ldb
      let r := sgttrs_ d ⟨[n_, nrhs_, ldb_], ipiv_⟩
      let info_ := r.2.info
      let ev := [Event.readIndex n, Event.call [n_, nrhs_, ldb_] ipiv_]
      if info_ < 0 then ⟨.error .illegal, ev, ipiv⟩
      else ⟨.ok (toInt64 info_), ev, ipiv⟩

/-- Adapter `lapack::hpsv` (`src/src/hpsv.cc`, lines 19-57). -/
def hpsv {D : Type} (w : IndexWidth) (chpsv_ : Kernel D) (junk : Nat → Int) (d : D)
    (n nrhs : Int) (ipiv : List Int) (ldb : Int) : IndexOutcome Int :=
  if checkOverflow w [n, nrhs, ldb] then ⟨.error .overflow, [], ipiv⟩
  else
    let n_ := toLapackInt w n
    let nrhs_ := toLapackInt w nrhs
    match w with
    | .narrow =>
      -- 32-bit copy
      if n < 0 then ⟨.error .lengthError, [], ipiv⟩
      else
        let ipiv_ := fresh junk n
        let ldb_ := toLapackInt .narrow ldb
        let r := chpsv_ d ⟨[n_, nrhs_, ldb_], ipiv_⟩
        let info_ := r.2.info
        let ev := [Event.alloc n, Event.call [n_, nrhs_, ldb_] ipiv_]
        if info_ < 0 then ⟨.error .illegal, ev, ipiv⟩
        else ⟨.ok (toInt64 info_), ev, stdCopy r.2.index ipiv⟩
    | .wide =>
      let ldb_ := toLapackInt .wide ldb
      let r := chpsv_ d ⟨[n_, nrhs_, ldb_], ipiv⟩
      let info_ := r.2.info
      let ev := [Event.call [n_, nrhs_, ldb_] ipiv]
      if info_ < 0 then ⟨.error .illegal, ev, r.2.index⟩
      else ⟨.ok (toInt64 info_), ev, r.2.index⟩

/-- Adapter `lapack::lapmr` (`src/src/lapmr.cc`, lines 21-51). -/
def lapmr {D : Type} (w : IndexWidth) (slapmr_ : Kernel D) (d : D)
    (forwrd : Bool) (m n ldx : Int) (K : List Int) : IndexOutcome Unit :=
  if checkOverflow w [m, n, ldx] then ⟨.error .overflow, [], K⟩
  else
    let forwrd_ := toLapackInt w (if forwrd then 1 else 0)
    let m_ := toLapackInt w m
    let n_ := toLapackInt w n
    let ldx_ := toLapackInt w ldx
    match w with
    | .narrow =>
      -- 32-bit copy
      if m < 0 then ⟨.error .lengthError, [], K⟩
      else
        let K_ := copyIn .narrow K m
        let r := slapmr_ d ⟨[forwrd_, m_, n_, ldx_], K_⟩
        ⟨.ok (), [Event.readIndex m, Event.call [forwrd_, m_, n_, ldx_] K_], stdCopy r.2.index K⟩
    | .wide =>
      let r := slapmr_ d ⟨[forwrd_, m_, n_, ldx_], K⟩
      ⟨.ok (), [Event.call [forwrd_, m_, n_, ldx_] K], r.2.index⟩

/-- Adapter `lapack::larnv` (`src/src/larnv.cc`, lines 19-46). -/
def larnv {D : Type} (w : IndexWidth) (slarnv_ : Kernel D) (d : D)
    (idist : Int) (iseed : List Int) (n : Int) : IndexOutcome Unit :=
  if checkOverflow w [idist, n] then ⟨.error .overflow, [], iseed⟩
  else
    let idist_ := toLapackInt w idist
    match w with
    | .narrow =>
      -- 32-bit copy
      let iseed_ := copyIn .narrow iseed 4
      let n_ := toLapackInt .narrow n
      let r := slarnv_ d ⟨[idist_, n_], iseed_⟩
      ⟨.ok (), [Event.readIndex 4, Event.call [idist_, n_] iseed_], stdCopy r.2.index iseed⟩
    | .wide =>
      let n_ := toLapackInt .wide n
      let r := slarnv_ d ⟨[idist_, n_], iseed⟩
      ⟨.ok (), [Event.call [idist_, n_] iseed], r.2.index⟩

/-! ## Query-then-execute adapters -/

/-- Adapter `lapack::syev` (`src/src/syev.cc`, lines 20-63). -/
def syev {D : Type} (w : IndexWidth) (ssyev_ : Kernel D) (d : D) (n lda : Int) : Outcome Int :=
  if checkOverflow w [n, lda] then ⟨.error .overflow, []⟩
  else
    let n_ := toLapackInt w n
    let lda_ := toLapackInt w lda
    -- query for workspace size
    let ineg_one : Int := -1
    let q := ssyev_ d ⟨[n_, lda_, ineg_one], []⟩
    let ev1 := [Event.call [n_, lda_, ineg_one] []]
    if q.2.info < 0 then ⟨.error .illegal, ev1⟩
    else
      let lwork_ := probeToLapackInt w q.2.probe
      -- allocate workspace
      if lwork_ < 0 then ⟨.error .lengthError, ev1⟩
      else
        let e := ssyev_ q.1 ⟨[n_, lda_, lwork_], []⟩
        let ev2 := ev1 ++ [Event.alloc lwork_, Event.call [n_, lda_, lwork_] []]
        if e.2.info < 0 then ⟨.error .illegal, ev2⟩
        else ⟨.ok (toInt64 e.2.info), ev2⟩

/-- Adapter `lapack::tgsyl`, real kind (`src/src/tgsyl.cc`, lines 19-93). -/
def tgsyl {D : Type} (w : IndexWidth) (stgsyl_ : Kernel D) (d : D)
    (ijob m n lda ldb ldc ldd lde ldf : Int) : Outcome Int :=
  if checkOverflow w [ijob, m, n, lda, ldb, ldc, ldd, lde, ldf] then ⟨.error .overflow, []⟩
  else
    let ijob_ := toLapackInt w ijob
    let m_ := toLapackInt w m
    let n_ := toLapackInt w n
    let lda_ := toLapackInt w lda
    let ldb_ := toLapackInt w ldb
    let ldc_ := toLapackInt w ldc
    let ldd_ := toLapackInt w ldd
    let lde_ := toLapackInt w lde
    let ldf_ := toLapackInt w ldf
    -- query for workspace size
    let ineg_one : Int := -1
    let dims := [ijob_, m_, n_, lda_, ldb_, ldc_, ldd_, lde_, ldf_]
    let q := stgsyl_ d ⟨dims ++ [ineg_one], []⟩
    let ev1 := [Event.call (dims ++ [ineg_one]) []]
    if q.2.info < 0 then ⟨.error .illegal, ev1⟩
    else
      let lwork_ := probeToLapackInt w q.2.probe
      -- allocate workspace
      if lwork_ < 0 then ⟨.error .lengthError, ev1⟩
      else
        let liwork := wrap64 (m + n + 6)
        if liwork < 0 then ⟨.error .lengthError, ev1 ++ [Event.alloc lwork_]⟩
        else
          let e := stgsyl_ q.1 ⟨dims ++ [lwork_], []⟩
          let ev2 := ev1 ++ [Event.alloc lwork_, Event.alloc liwork, Event.call (dims ++ [lwork_]) []]
          if e.2.info < 0 then ⟨.error .illegal, ev2⟩
          else ⟨.ok (toInt64 e.2.info), ev2⟩

/-- Adapter `lapack::geqp3`, real kind (`src/src/geqp3.cc`, lines 19-73).  In the
narrow configuration the kernel works on the 32-bit copy `jpvt_`; under
`LAPACK_ILP64` it works in place on the caller's array. -/
def geqp3 {D : Type} (w : IndexWidth) (sgeqp3_ : Kernel D) (d : D)
    (m n lda : Int) (jpvt : List Int) : IndexOutcome Int :=
  if checkOverflow w [m, n, lda] then ⟨.error .overflow, [], jpvt⟩
  else
    let m_ := toLapackInt w m
    let n_ := toLapackInt w n
    let lda_ := toLapackInt w lda
    let ineg_one : Int := -1
    match w with
    | .narrow =>
      -- 32-bit copy
      if n < 0 then ⟨.error .lengthError, [], jpvt⟩
      else
        let jpvt_ := copyIn .narrow jpvt n
        -- query for workspace size
        let q := sgeqp3_ d ⟨[m_, n_, lda_, ineg_one], jpvt_⟩
        let ev1 := [Event.readIndex n, Event.call [m_, n_, lda_, ineg_one] jpvt_]
        if q.2.info < 0 then ⟨.error .illegal, ev1, jpvt⟩
        else
          let lwork_ := probeToLapackInt .narrow q.2.probe
          -- allocate workspace
          if lwork_ < 0 then ⟨.error .lengthError, ev1, jpvt⟩
          else
            let e := sgeqp3_ q.1 ⟨[m_, n_, lda_, lwork_], q.2.index⟩
            let ev2 := ev1 ++ [Event.alloc lwork_, Event.call [m_, n_, lda_, lwork_] q.2.index]
            if e.2.info < 0 then ⟨.error .illegal, ev2, jpvt⟩
            else ⟨.ok (toInt64 e.2.info), ev2, stdCopy e.2.index jpvt⟩
    | .wide =>
      -- query for workspace size
      let q := sgeqp3_ d ⟨[m_, n_, lda_, ineg_one], jpvt⟩
      let ev1 := [Event.call [m_, n_, lda_, ineg_one] jpvt]
      if q.2.info < 0 then ⟨.error .illegal, ev1, q.2.index⟩
      else
        let lwork_ := probeToLapackInt .wide q.2.probe
        -- allocate workspace
        if lwork_ < 0 then ⟨.error .lengthError, ev1, q.2.index⟩
        else
          let e := sgeqp3_ q.1 ⟨[m_, n_, lda_, lwork_], q.2.index⟩
          let ev2 := ev1 ++ [Event.alloc lwork_, Event.call [m_, n_, lda_, lwork_] q.2.index]
          if e.2.info < 0 then ⟨.error .illegal, ev2, e.2.index⟩
          else ⟨.ok (toInt64 e.2.info), ev2, e.2.index⟩

/-! ## The adapter `sbgvx` -/

/-- Result of `sbgvx`: besides the status, the caller-owned count `*m` and
failure-index array `ifail` after the invocation. -/
structure SbgvxOutcome where
  /-- Returned value, or the failure raised. -/
  result : Except Failure Int
  /-- Steps performed, in order. -/
  events : List Event
  /-- The caller-owned count `*m` after the invocation. -/
  m : Int
  /-- The caller-owned array `ifail` after the invocation. -/
  ifail : List Int

/-- Adapter `lapack::sbgvx` (`src/src/sbgvx.cc`, lines 19-88).  The kernel also
receives the mode `jobz`, and the current count `m_` as its last integer but
one. -/
def sbgvx {D : Type} (w : IndexWidth) (ssbgvx_ : Job → Kernel D) (junk : Nat → Int) (d : D)
    (jobz : Job) (n ka kb ldab ldbb ldq il iu : Int) (m : Int) (ldz : Int)
    (ifail : List Int) : SbgvxOutcome :=
  if checkOverflow w [n, ka, kb, ldab, ldbb, ldq, il, iu, ldz] then
    ⟨.error .overflow, [], m, ifail⟩
  else
    let n_ := toLapackInt w n
    let ka_ := toLapackInt w ka
    let kb_ := toLapackInt w kb
    let ldab_ := toLapackInt w ldab
    let ldbb_ := toLapackInt w ldbb
    let ldq_ := toLapackInt w ldq
    let il_ := toLapackInt w il
    let iu_ := toLapackInt w iu
    let m_ := toLapackInt w m
    let ldz_ := toLapackInt w ldz
    let ints := [n_, ka_, kb_, ldab_, ldbb_, ldq_, il_, iu_, m_, ldz_]
    let lwork := wrap64 (7 * n)
    let liwork := wrap64 (5 * n)
    match w with
    | .narrow =>
      -- 32-bit copy
      if n < 0 then ⟨.error .lengthError, [], m, ifail⟩
      else
        let ifail_ := fresh junk n
        -- allocate workspace
        if lwork < 0 then ⟨.error .lengthError, [Event.alloc n], m, ifail⟩
        else if liwork < 0 then ⟨.error .lengthError, [Event.alloc n, Event.alloc lwork], m, ifail⟩
        else
          let r := ssbgvx_ jobz d ⟨ints, ifail_⟩
          let ev := [Event.alloc n, Event.alloc lwork, Event.alloc liwork, Event.call ints ifail_]
          if r.2.info < 0 then ⟨.error .illegal, ev, m, ifail⟩
          else
            let m_ := r.2.count
            if jobz ≠ Job.NoVec then
              ⟨.ok (toInt64 r.2.info), ev, toInt64 m_, stdCopy (r.2.index.take m_.toNat) ifail⟩
            else ⟨.ok (toInt64 r.2.info), ev, toInt64 m_, ifail⟩
    | .wide =>
      -- allocate workspace
      if lwork < 0 then ⟨.error .lengthError, [], m, ifail⟩
      else if liwork < 0 then ⟨.error .lengthError, [Event.alloc lwork], m, ifail⟩
      else
        let r := ssbgvx_ jobz d ⟨ints, ifail⟩
        let ev := [Event.alloc lwork, Event.alloc liwork, Event.call ints ifail]
        if r.2.info < 0 then ⟨.error .illegal, ev, m, r.2.index⟩
        else ⟨.ok (toInt64 r.2.info), ev, toInt64 r.2.count, r.2.index⟩

/-! ## Scalar kinds and size queries with several placeholders -/

/-- Precision of a scalar type: `float` or `double`. -/
inductive Precision
  | single
  | double
  deriving DecidableEq, Repr

/-- The scalar type of an overload: `float`, `double`, `std::complex<float>` or
`std::complex<double>`. -/
inductive ScalarKind
  | real (p : Precision)
  | complex (p : Precision)
  deriving DecidableEq, Repr

/-- A value of a scalar type, as left by a kernel in element 0 of the typed
placeholder `qry_work`: a real number, or a complex number with real and
imaginary components.  Finite floating-point values are rational numbers. -/
inductive Scalar
  | real (x : Rat)
  | complex (re im : Rat)
  deriving DecidableEq, Repr

/-- The function `blas::real`: the value itself for a real scalar, the real
component for a complex scalar. -/
def real : Scalar → Rat
  | .real x => x
  | .complex re _ => re

/-- What a kernel with a size query leaves behind. -/
structure QueryOut where
  /-- Value of `info_` after the call. -/
  info : Int
  /-- Contents of the native-width index array after the call. -/
  index : List Int
  /-- Element 0 of the typed placeholder `qry_work` after the call. -/
  work : Scalar
  /-- Element 0 of the real placeholder `qry_rwork` after the call. -/
  rwork : Rat
  /-- Element 0 of the integer placeholder `qry_iwork` after the call. -/
  iwork : Int
  deriving DecidableEq, Repr

/-- A native kernel with a size query: an arbitrary function of the non-integer
arguments `D` and of the integer arguments. -/
abbrev QueryKernel (D : Type) := D → KernelIn → D × QueryOut

/-- Modelled from the spec: the enumeration `lapack::Op` is declared in a header
outside `src/`; its three enumerators are the ones the adapters name. -/
inductive Op
  | NoTrans
  | Trans
  | ConjTrans
  deriving DecidableEq, Repr

/-- Adapter `lapack::sbgvd` (`src/src/sbgvd.cc`, lines 19-84 for `float`, 87-152
for `double`; the two bodies differ in the scalar type only).  The product
`3*n_` is computed in `lapack_int`. -/
def sbgvd {D : Type} (w : IndexWidth) (ssbgvd_ : QueryKernel D) (d : D)
    (n ka kb ldab ldbb ldz : Int) : Outcome Int :=
  if checkOverflow w [n, ka, kb, ldab, ldbb, ldz] then ⟨.error .overflow, []⟩
  else
    let n_ := toLapackInt w n
    let ka_ := toLapackInt w ka
    let kb_ := toLapackInt w kb
    let ldab_ := toLapackInt w ldab
    let ldbb_ := toLapackInt w ldbb
    let ldz_ := toLapackInt w ldz
    -- query for workspace size
    let ineg_one : Int := -1
    let dims := [n_, ka_, kb_, ldab_, ldbb_, ldz_]
    let q := ssbgvd_ d ⟨dims ++ [ineg_one, ineg_one], []⟩
    let ev1 := [Event.call (dims ++ [ineg_one, ineg_one]) []]
    if q.2.info < 0 then ⟨.error .illegal, ev1⟩
    else
      let lwork0 := probeToLapackInt w (real q.2.work)
      let liwork_ := q.2.iwork
      -- LAPACK <= 3.6.0 needed 3*n, but query returned 2*n. Be safe.
      let lwork_ := max lwork0 (toLapackInt w (3 * n_))
      -- allocate workspace
      if lwork_ < 0 then ⟨.error .lengthError, ev1⟩
      else if liwork_ < 0 then ⟨.error .lengthError, ev1 ++ [Event.alloc lwork_]⟩
      else
        let e := ssbgvd_ q.1 ⟨dims ++ [lwork_, liwork_], []⟩
        let ev2 := ev1 ++ [Event.alloc lwork_, Event.alloc liwork_,
          Event.call (dims ++ [lwork_, liwork_]) []]
        if e.2.info < 0 then ⟨.error .illegal, ev2⟩
        else ⟨.ok (toInt64 e.2.info), ev2⟩

/-- Adapter `lapack::heevd_2stage` (`src/src/heevd_2stage.cc`, lines 22-75; both
overloads are of complex kind). -/
def heevd_2stage {D : Type} (w : IndexWidth) (cheevd_2stage_ : QueryKernel D) (d : D)
    (n lda : Int) : Outcome Int :=
  if checkOverflow w [n, lda] then ⟨.error .overflow, []⟩
  else
    let n_ := toLapackInt w n
    let lda_ := toLapackInt w lda
    -- query for workspace size
    let ineg_one : Int := -1
    let q := cheevd_2stage_ d ⟨[n_, lda_, ineg_one, ineg_one, ineg_one], []⟩
    let ev1 := [Event.call [n_, lda_, ineg_one, ineg_one, ineg_one] []]
    if q.2.info < 0 then ⟨.error .illegal, ev1⟩
    else
      let lwork_ := probeToLapackInt w (real q.2.work)
      let lrwork_ := probeToLapackInt w q.2.rwork
      let liwork_ := q.2.iwork
      -- allocate workspace
      if lwork_ < 0 then ⟨.error .lengthError, ev1⟩
      else if lrwork_ < 0 then ⟨.error .lengthError, ev1 ++ [Event.alloc lwork_]⟩
      else if liwork_ < 0 then
        ⟨.error .lengthError, ev1 ++ [Event.alloc lwork_, Event.alloc lrwork_]⟩
      else
        let e := cheevd_2stage_ q.1 ⟨[n_, lda_, lwork_, lrwork_, liwork_], []⟩
        let ev2 := ev1 ++ [Event.alloc lwork_, Event.alloc lrwork_, Event.alloc liwork_,
          Event.call [n_, lda_, lwork_, lrwork_, liwork_] []]
        if e.2.info < 0 then ⟨.error .illegal, ev2⟩
        else ⟨.ok (toInt64 e.2.info), ev2⟩

/-- Adapter `lapack::ormbr` (`src/src/ormbr.cc`, lines 20-77; both overloads are
of real kind).  The kernel also receives the transposition mode. -/
def ormbr {D : Type} (w : IndexWidth) (sormbr_ : Op → QueryKernel D) (d : D)
    (trans : Op) (m n k lda ldc : Int) : Outcome Int :=
  -- for real, map ConjTrans to Trans
  let trans := if trans = Op.ConjTrans then Op.Trans else trans
  if checkOverflow w [m, n, k, lda, ldc] then ⟨.error .overflow, []⟩
  else
    let m_ := toLapackInt w m
    let n_ := toLapackInt w n
    let k_ := toLapackInt w k
    let lda_ := toLapackInt w lda
    let ldc_ := toLapackInt w ldc
    -- query for workspace size
    let ineg_one : Int := -1
    let q := sormbr_ trans d ⟨[m_, n_, k_, lda_, ldc_, ineg_one], []⟩
    let ev1 := [Event.call [m_, n_, k_, lda_, ldc_, ineg_one] []]
    if q.2.info < 0 then ⟨.error .illegal, ev1⟩
    else
      let lwork_ := probeToLapackInt w (real q.2.work)
      -- allocate workspace
      if lwork_ < 0 then ⟨.error .lengthError, ev1⟩
      else
        let e := sormbr_ trans q.1 ⟨[m_, n_, k_, lda_, ldc_, lwork_], []⟩
        let ev2 := ev1 ++ [Event.alloc lwork_, Event.call [m_, n_, k_, lda_, ldc_, lwork_] []]
        if e.2.info < 0 then ⟨.error .illegal, ev2⟩
        else ⟨.ok (toInt64 e.2.info), ev2⟩

/-- Adapter `lapack::sytrd_2stage` (`src/src/sytrd_2stage.cc`, lines 22-76; both
overloads are of real kind). -/
def sytrd_2stage {D : Type} (w : IndexWidth) (ssytrd_2stage_ : QueryKernel D) (d : D)
    (n lda lhous2 : Int) : Outcome Int :=
  if checkOverflow w [n, lda, lhous2] then ⟨.error .overflow, []⟩
  else
    let n_ := toLapackInt w n
    let lda_ := toLapackInt w lda
    let lhous2_ := toLapackInt w lhous2
    -- query for workspace size
    let ineg_one : Int := -1
    let q := ssytrd_2stage_ d ⟨[n_, lda_, lhous2_, ineg_one], []⟩
    let ev1 := [Event.call [n_, lda_, lhous2_, ineg_one] []]
    if q.2.info < 0 then ⟨.error .illegal, ev1⟩
    else
      let lwork_ := probeToLapackInt w (real q.2.work)
      -- allocate workspace
      if lwork_ < 0 then ⟨.error .lengthError, ev1⟩
      else
        let e := ssytrd_2stage_ q.1 ⟨[n_, lda_, lhous2_, lwork_], []⟩
        let ev2 := ev1 ++ [Event.alloc lwork_, Event.call [n_, lda_, lhous2_, lwork_] []]
        if e.2.info < 0 then ⟨.error .illegal, ev2⟩
        else ⟨.ok (toInt64 e.2.info), ev2⟩

/-- Adapter `lapack::geqrfp` (`src/src/geqrfp.cc`, lines 21-62, and the three
further overloads, whose bodies differ in the scalar type only). -/
def geqrfp {D : Type} (w : IndexWidth) (sgeqrfp_ : QueryKernel D) (d : D)
    (m n lda : Int) : Outcome Int :=
  if checkOverflow w [m, n, lda] then ⟨.error .overflow, []⟩
  else
    let m_ := toLapackInt w m
    let n_ := toLapackInt w n
    let lda_ := toLapackInt w lda
    -- query for workspace size
    let ineg_one : Int := -1
    let q := sgeqrfp_ d ⟨[m_, n_, lda_, ineg_one], []⟩
    let ev1 := [Event.call [m_, n_, lda_, ineg_one] []]
    if q.2.info < 0 then ⟨.error .illegal, ev1⟩
    else
      let lwork_ := probeToLapackInt w (real q.2.work)
      -- allocate workspace
      if lwork_ < 0 then ⟨.error .lengthError, ev1⟩
      else
        let e := sgeqrfp_ q.1 ⟨[m_, n_, lda_, lwork_], []⟩
        let ev2 := ev1 ++ [Event.alloc lwork_, Event.call [m_, n_, lda_, lwork_] []]
        if e.2.info < 0 then ⟨.error .illegal, ev2⟩
        else ⟨.ok (toInt64 e.2.info), ev2⟩

/-- Adapter `lapack::ungqr` (`src/src/ungqr.cc`, lines 20-63; both overloads are
of complex kind). -/
def ungqr {D : Type} (w : IndexWidth) (cungqr_ : QueryKernel D) (d : D)
    (m n k lda : Int) : Outcome Int :=
  if checkOverflow w [m, n, k, lda] then ⟨.error .overflow, []⟩
  else
    let m_ := toLapackInt w m
    let n_ := toLapackInt w n
    let k_ := toLapackInt w k
    let lda_ := toLapackInt w lda
    -- query for workspace size
    let ineg_one : Int := -1
    let q := cungqr_ d ⟨[m_, n_, k_, lda_, ineg_one], []⟩
    let ev1 := [Event.call [m_, n_, k_, lda_, ineg_one] []]
    if q.2.info < 0 then ⟨.error .illegal, ev1⟩
    else
      let lwork_ := probeToLapackInt w (real q.2.work)
      -- allocate workspace
      if lwork_ < 0 then ⟨.error .lengthError, ev1⟩
      else
        let e := cungqr_ q.1 ⟨[m_, n_, k_, lda_, lwork_], []⟩
        let ev2 := ev1 ++ [Event.alloc lwork_, Event.call [m_, n_, k_, lda_, lwork_] []]
        if e.2.info < 0 then ⟨.error .illegal, ev2⟩
        else ⟨.ok (toInt64 e.2.info), ev2⟩

/-! ## Scratch vectors by element type -/

/-- Element type of a scratch vector. -/
inductive ElemType
  | real (p : Precision)
  | complex (p : Precision)
  | lapackInt
  deriving DecidableEq, Repr

/-- Name of a scratch vector in the source. -/
inductive BufName
  | work
  | rwork
  | iwork
  deriving DecidableEq, Repr

/-- A scratch vector `lapack::vector< elem > name( len )`. -/
structure Scratch where
  /-- Name of the vector. -/
  name : BufName
  /-- Element type of the vector. -/
  elem : ElemType
  /-- Number of elements requested. -/
  len : Int
  deriving DecidableEq, Repr

/-- Result of an adapter, with the scratch vectors it allocated. -/
structure WorkOutcome where
  /-- Returned value, or the failure raised. -/
  result : Except Failure Int
  /-- Steps performed, in order. -/
  events : List Event
  /-- The caller-owned index array after the invocation. -/
  index : List Int
  /-- Scratch vectors allocated, in order. -/
  scratch : List Scratch

/-- Adapter `lapack::geqp3`, complex kind (`src/src/geqp3.cc`, lines 133-191 for
`std::complex<float>`, 194-252 for `std::complex<double>`). -/
def geqp3_complex {D : Type} (w : IndexWidth) (p : Precision) (cgeqp3_ : QueryKernel D) (d : D)
    (m n lda : Int) (jpvt : List Int) : WorkOutcome :=
  if checkOverflow w [m, n, lda] then ⟨.error .overflow, [], jpvt, []⟩
  else
    let m_ := toLapackInt w m
    let n_ := toLapackInt w n
    let lda_ := toLapackInt w lda
    let ineg_one : Int := -1
    let lrwork := wrap64 (2 * n)
    match w with
    | .narrow =>
      -- 32-bit copy
      if n < 0 then ⟨.error .lengthError, [], jpvt, []⟩
      else
        let jpvt_ := copyIn .narrow jpvt n
        -- query for workspace size
        let q := cgeqp3_ d ⟨[m_, n_, lda_, ineg_one], jpvt_⟩
        let ev1 := [Event.readIndex n, Event.call [m_, n_, lda_, ineg_one] jpvt_]
        if q.2.info < 0 then ⟨.error .illegal, ev1, jpvt, []⟩
        else
          let lwork_ := probeToLapackInt .narrow (real q.2.work)
          -- allocate workspace
          if lwork_ < 0 then ⟨.error .lengthError, ev1, jpvt, []⟩
          else if lrwork < 0 then
            ⟨.error .lengthError, ev1 ++ [Event.alloc lwork_], jpvt, [⟨.work, .complex p, lwork_⟩]⟩
          else
            let sc : List Scratch := [⟨.work, .complex p, lwork_⟩, ⟨.rwork, .real p, lrwork⟩]
            let e := cgeqp3_ q.1 ⟨[m_, n_, lda_, lwork_], q.2.index⟩
            let ev2 := ev1 ++ [Event.alloc lwork_, Event.alloc lrwork,
              Event.call [m_, n_, lda_, lwork_] q.2.index]
            if e.2.info < 0 then ⟨.error .illegal, ev2, jpvt, sc⟩
            else ⟨.ok (toInt64 e.2.info), ev2, stdCopy e.2.index jpvt, sc⟩
    | .wide =>
      -- query for workspace size
      let q := cgeqp3_ d ⟨[m_, n_, lda_, ineg_one], jpvt⟩
      let ev1 := [Event.call [m_, n_, lda_, ineg_one] jpvt]
      if q.2.info < 0 then ⟨.error .illegal, ev1, q.2.index, []⟩
      else
        let lwork_ := probeToLapackInt .wide (real q.2.work)
        -- allocate workspace
        if lwork_ < 0 then ⟨.error .lengthError, ev1, q.2.index, []⟩
        else if lrwork < 0 then
          ⟨.error .lengthError, ev1 ++ [Event.alloc lwork_], q.2.index,
            [⟨.work, .complex p, lwork_⟩]⟩
        else
          let sc : List Scratch := [⟨.work, .complex p, lwork_⟩, ⟨.rwork, .real p, lrwork⟩]
          let e := cgeqp3_ q.1 ⟨[m_, n_, lda_, lwork_], q.2.index⟩
          let ev2 := ev1 ++ [Event.alloc lwork_, Event.alloc lrwork,
            Event.call [m_, n_, lda_, lwork_] q.2.index]
          if e.2.info < 0 then ⟨.error .illegal, ev2, e.2.index, sc⟩
          else ⟨.ok (toInt64 e.2.info), ev2, e.2.index, sc⟩

/-- Adapter `lapack::tgsyl`, complex kind (`src/src/tgsyl.cc`, lines 173-247 for
`std::complex<float>`, 250-324 for `std::complex<double>`). -/
def tgsyl_complex {D : Type} (w : IndexWidth) (ctgsyl_ : QueryKernel D) (d : D)
    (ijob m n lda ldb ldc ldd lde ldf : Int) : Outcome Int :=
  if checkOverflow w [ijob, m, n, lda, ldb, ldc, ldd, lde, ldf] then ⟨.error .overflow, []⟩
  else
    let ijob_ := toLapackInt w ijob
    let m_ := toLapackInt w m
    let n_ := toLapackInt w n
    let lda_ := toLapackInt w lda
    let ldb_ := toLapackInt w ldb
    let ldc_ := toLapackInt w ldc
    let ldd_ := toLapackInt w ldd
    let lde_ := toLapackInt w lde
    let ldf_ := toLapackInt w ldf
    -- query for workspace size
    let ineg_one : Int := -1
    let dims := [ijob_, m_, n_, lda_, ldb_, ldc_, ldd_, lde_, ldf_]
    let q := ctgsyl_ d ⟨dims ++ [ineg_one], []⟩
    let ev1 := [Event.call (dims ++ [ineg_one]) []]
    if q.2.info < 0 then ⟨.error .illegal, ev1⟩
    else
      let lwork_ := probeToLapackInt w (real q.2.work)
      -- allocate workspace
      if lwork_ < 0 then ⟨.error .lengthError, ev1⟩
      else
        let liwork := wrap64 (m + n + 2)
        if liwork < 0 then ⟨.error .lengthError, ev1 ++ [Event.alloc lwork_]⟩
        else
          let e := ctgsyl_ q.1 ⟨dims ++ [lwork_], []⟩
          let ev2 := ev1 ++ [Event.alloc lwork_, Event.alloc liwork, Event.call (dims ++ [lwork_]) []]
          if e.2.info < 0 then ⟨.error .illegal, ev2⟩
          else ⟨.ok (toInt64 e.2.info), ev2⟩

/-- The two scratch vectors of gerfs and trrfs: `work( 3*n )` of the scalar type
and `iwork( n )` in the real overloads, `work( 2*n )` of the scalar type and
`rwork( n )` of its real type in the complex overloads.  The lengths are computed
in `int64_t`. -/
def rfsScratch (k : ScalarKind) (n : Int) : Scratch × Scratch :=
  match k with
  | .real p => (⟨.work, .real p, wrap64 (3 * n)⟩, ⟨.iwork, .lapackInt, n⟩)
  | .complex p => (⟨.work, .complex p, wrap64 (2 * n)⟩, ⟨.rwork, .real p, n⟩)

/-- Common tail of gerfs, herfs and trrfs after the casts: allocate the scratch
vectors `b1` and `b2` in this order, call the kernel once, translate the status.
`ev0` holds the steps performed before. -/
def rfsCall {D : Type} (kernel : Kernel D) (d : D) (ints ipiv_ ipiv : List Int)
    (ev0 : List Event) (b1 b2 : Scratch) : WorkOutcome :=
  -- allocate workspace
  if b1.len < 0 then ⟨.error .lengthError, ev0, ipiv, []⟩
  else if b2.len < 0 then ⟨.error .lengthError, ev0 ++ [Event.alloc b1.len], ipiv, [b1]⟩
  else
    let r := kernel d ⟨ints, ipiv_⟩
    let ev := ev0 ++ [Event.alloc b1.len, Event.alloc b2.len, Event.call ints ipiv_]
    if r.2.info < 0 then ⟨.error .illegal, ev, ipiv, [b1, b2]⟩
    else ⟨.ok (toInt64 r.2.info), ev, ipiv, [b1, b2]⟩

/-- Adapter `lapack::gerfs` (`src/src/gerfs.cc`, lines 20-75 and 79-134 for the
real overloads, 138-193 and 271-326 for the complex ones).  `ipiv` is read-only. -/
def gerfs {D : Type} (w : IndexWidth) (k : ScalarKind) (sgerfs_ : Kernel D) (d : D)
    (n nrhs lda ldaf : Int) (ipiv : List Int) (ldb ldx : Int) : WorkOutcome :=
  if checkOverflow w [n, nrhs, lda, ldaf, ldb, ldx] then ⟨.error .overflow, [], ipiv, []⟩
  else
    let n_ := toLapackInt w n
    let nrhs_ := toLapackInt w nrhs
    let lda_ := toLapackInt w lda
    let ldaf_ := toLapackInt w ldaf
    let ldb_ := toLapackInt w ldb
    let ldx_ := toLapackInt w ldx
    let ints := [n_, nrhs_, lda_, ldaf_, ldb_, ldx_]
    match w with
    | .narrow =>
      -- 32-bit copy
      if n < 0 then ⟨.error .lengthError, [], ipiv, []⟩
      else rfsCall sgerfs_ d ints (copyIn .narrow ipiv n) ipiv [Event.readIndex n]
        (rfsScratch k n).1 (rfsScratch k n).2
    | .wide => rfsCall sgerfs_ d ints ipiv ipiv [] (rfsScratch k n).1 (rfsScratch k n).2

/-- Adapter `lapack::herfs` (`src/src/herfs.cc`, lines 20-75 and 163-218; both
overloads are of complex kind).  `ipiv` is read-only. -/
def herfs {D : Type} (w : IndexWidth) (p : Precision) (cherfs_ : Kernel D) (d : D)
    (n nrhs lda ldaf : Int) (ipiv : List Int) (ldb ldx : Int) : WorkOutcome :=
  if checkOverflow w [n, nrhs, lda, ldaf, ldb, ldx] then ⟨.error .overflow, [], ipiv, []⟩
  else
    let n_ := toLapackInt w n
    let nrhs_ := toLapackInt w nrhs
    let lda_ := toLapackInt w lda
    let ldaf_ := toLapackInt w ldaf
    let ldb_ := toLapackInt w ldb
    let ldx_ := toLapackInt w ldx
    let ints := [n_, nrhs_, lda_, ldaf_, ldb_, ldx_]
    let work : Scratch := ⟨.work, .complex p, wrap64 (2 * n)⟩
    let rwork : Scratch := ⟨.rwork, .real p, n⟩
    match w with
    | .narrow =>
      -- 32-bit copy
      if n < 0 then ⟨.error .lengthError, [], ipiv, []⟩
      else rfsCall cherfs_ d ints (copyIn .narrow ipiv n) ipiv [Event.readIndex n] work rwork
    | .wide => rfsCall cherfs_ d ints ipiv ipiv [] work rwork

/-- Adapter `lapack::trrfs` (`src/src/trrfs.cc`, lines 19-63 and 66-110 for the
real overloads, 113-157 and 160-204 for the complex ones).  It has no index
array. -/
def trrfs {D : Type} (w : IndexWidth) (k : ScalarKind) (strrfs_ : Kernel D) (d : D)
    (n nrhs lda ldb ldx : Int) : WorkOutcome :=
  if checkOverflow w [n, nrhs, lda, ldb, ldx] then ⟨.error .overflow, [], [], []⟩
  else
    let n_ := toLapackInt w n
    let nrhs_ := toLapackInt w nrhs
    let lda_ := toLapackInt w lda
    let ldb_ := toLapackInt w ldb
    let ldx_ := toLapackInt w ldx
    rfsCall strrfs_ d [n_, nrhs_, lda_, ldb_, ldx_] [] [] [] (rfsScratch k n).1
      (rfsScratch k n).2

/-! ## Reading a trace -/

/-- The step is a kernel invocation. -/
def Event.isCall : Event → Bool
  | .call _ _ => true
  | _ => false

/-- The step is the allocation of a scratch vector. -/
def Event.isAlloc : Event → Bool
  | .alloc _ => true
  | _ => false

/-- Shape of the trace of a query-then-execute invocation with integer arguments
`dims` and `k` queried workspace lengths.  Either nothing was done; or, after steps
`pre` that are neither kernel calls nor scratch allocations, the kernel was called
with the sentinel -1 in each of the `k` length positions and at most `k` scratch
vectors, of lengths `Ls`, were allocated; or all `k` were allocated and the kernel
was called a second time with exactly the lengths `Ls`. -/
def IsQueryTrace (dims : List Int) (k : Nat) (ev : List Event) : Prop :=
  ev = [] ∨ ∃ (pre : List Event) (idx Ls : List Int),
    (∀ e ∈ pre, e.isCall = false ∧ e.isAlloc = false) ∧ Ls.length ≤ k ∧
    (ev = pre ++ Event.call (dims ++ List.replicate k (-1)) idx :: Ls.map Event.alloc ∨
      (Ls.length = k ∧ ∃ idx2, ev = pre ++ Event.call (dims ++ List.replicate k (-1)) idx ::
        (Ls.map Event.alloc ++ [Event.call (dims ++ Ls) idx2])))

/-! ## Fixed-length workspaces -/

/-- Modelled from the spec: the enumeration `lapack::Norm` is declared in a header
outside `src/`; its values are those named in the documentation of `langb`
(`src/src/langb.cc`, lines 122-128) together with the two-norm. -/
inductive Norm
  | One
  | Two
  | Inf
  | Fro
  | Max
  deriving DecidableEq, Repr

/-- A native norm routine: from the non-integer arguments and the integers passed
by address it returns the norm, a finite floating-point number taken as a
rational. -/
abbrev NormKernel (D : Type) := D → KernelIn → Rat

/-- Adapter `lapack::langb` (`src/src/langb.cc`, lines 20-48; the other three
overloads have the same body, with a real-typed `work`).  The requested length
`max(1,lwork)` is never negative, so the allocation cannot raise a length error. -/
def langb {D : Type} (w : IndexWidth) (slangb_ : Norm → NormKernel D) (d : D)
    (norm : Norm) (n kl ku ldab : Int) : Outcome Rat :=
  if checkOverflow w [n, kl, ku, ldab] then ⟨.error .overflow, []⟩
  else
    let n_ := toLapackInt w n
    let kl_ := toLapackInt w kl
    let ku_ := toLapackInt w ku
    let ldab_ := toLapackInt w ldab
    -- from docs
    let lwork : Int := if norm = Norm.Inf then n else 1
    -- allocate workspace
    let len := max 1 lwork
    ⟨.ok (slangb_ norm d ⟨[n_, kl_, ku_, ldab_], []⟩),
      [Event.alloc len, Event.call [n_, kl_, ku_, ldab_] []]⟩

/-- Adapter `lapack::lantb` (`src/src/lantb.cc`, lines 20-48; the other three
overloads have the same body, with a real-typed `work`). -/
def lantb {D : Type} (w : IndexWidth) (slantb_ : Norm → NormKernel D) (d : D)
    (norm : Norm) (n k ldab : Int) : Outcome Rat :=
  if checkOverflow w [n, k, ldab] then ⟨.error .overflow, []⟩
  else
    let n_ := toLapackInt w n
    let k_ := toLapackInt w k
    let ldab_ := toLapackInt w ldab
    -- from docs
    let lwork : Int := if norm = Norm.Inf then n else 1
    -- allocate workspace
    let len := max 1 lwork
    ⟨.ok (slantb_ norm d ⟨[n_, k_, ldab_], []⟩),
      [Event.alloc len, Event.call [n_, k_, ldab_] []]⟩

/-- Adapter `lapack::steqr` (`src/src/steqr.cc`, lines 19-49; the other three
overloads have the same body, with a real-typed `work`).  The expression `2*n-2` is
computed in 64 bits. -/
def steqr {D : Type} (w : IndexWidth) (ssteqr_ : Kernel D) (d : D) (n ldz : Int) :
    Outcome Int :=
  if checkOverflow w [n, ldz] then ⟨.error .overflow, []⟩
  else
    let n_ := toLapackInt w n
    let ldz_ := toLapackInt w ldz
    -- allocate workspace
    let len := max 1 (wrap64 (2 * n - 2))
    let r := ssteqr_ d ⟨[n_, ldz_], []⟩
    let info_ := r.2.info
    let ev := [Event.alloc len, Event.call [n_, ldz_] []]
    if info_ < 0 then ⟨.error .illegal, ev⟩
    else ⟨.ok (toInt64 info_), ev⟩

/-- Adapter `lapack::upgtr` (`src/src/upgtr.cc`, lines 19-49 and 52-82).  The
workspace `work( (n-1) )` is requested with the length `n-1`, computed in 64 bits. -/
def upgtr {D : Type} (w : IndexWidth) (cupgtr_ : Kernel D) (d : D) (n ldq : Int) :
    Outcome Int :=
  if checkOverflow w [n, ldq] then ⟨.error .overflow, []⟩
  else
    let n_ := toLapackInt w n
    let ldq_ := toLapackInt w ldq
    -- allocate workspace
    let len := wrap64 (n - 1)
    if len < 0 then ⟨.error .lengthError, []⟩
    else
      let r := cupgtr_ d ⟨[n_, ldq_], []⟩
      let info_ := r.2.info
      let ev := [Event.alloc len, Event.call [n_, ldq_] []]
      if info_ < 0 then ⟨.error .illegal, ev⟩
      else ⟨.ok (toInt64 info_), ev⟩

/-! ## Read-only pivot arrays -/

/-- Adapter `lapack::hecon_rk` (`src/src/hecon_rk.cc`, lines 22-61 and 142-181).
`ipiv` is read-only: nothing is copied back. -/
def hecon_rk {D : Type} (w : IndexWidth) (checon_3_ : Kernel D) (d : D)
    (n lda : Int) (ipiv : List Int) : IndexOutcome Int :=
  if checkOverflow w [n, lda] then ⟨.error .overflow, [], ipiv⟩
  else
    let n_ := toLapackInt w n
    let lda_ := toLapackInt w lda
    let len := wrap64 (2 * n)
    match w with
    | .narrow =>
      -- 32-bit copy
      if n < 0 then ⟨.error .lengthError, [], ipiv⟩
      else
        let ipiv_ := copyIn .narrow ipiv n
        -- allocate workspace
        if len < 0 then ⟨.error .lengthError, [Event.readIndex n], ipiv⟩
        else
          let r := checon_3_ d ⟨[n_, lda_], ipiv_⟩
          let info_ := r.2.info
          let ev := [Event.readIndex n, Event.alloc len, Event.call [n_, lda_] ipiv_]
          if info_ < 0 then ⟨.error .illegal, ev, ipiv⟩
          else ⟨.ok (toInt64 info_), ev, ipiv⟩
    | .wide =>
      -- allocate workspace
      if len < 0 then ⟨.error .lengthError, [], ipiv⟩
      else
        let r := checon_3_ d ⟨[n_, lda_], ipiv⟩
        let info_ := r.2.info
        let ev := [Event.alloc len, Event.call [n_, lda_] ipiv]
        if info_ < 0 then ⟨.error .illegal, ev, ipiv⟩
        else ⟨.ok (toInt64 info_), ev, ipiv⟩

/-- Adapter `lapack::sptri` (`src/src/sptri.cc`, lines 19-52; the other three
overloads have the same body).  `ipiv` is read-only. -/
def sptri {D : Type} (w : IndexWidth) (ssptri_ : Kernel D) (d : D)
    (n : Int) (ipiv : List Int) : IndexOutcome Int :=
  if checkOverflow w [n] then ⟨.error .overflow, [], ipiv⟩
  else
    let n_ := toLapackInt w n
    match w with
    | .narrow =>
      -- 32-bit copy
      if n < 0 then ⟨.error .lengthError, [], ipiv⟩
      else
        let ipiv_ := copyIn .narrow ipiv n
        -- allocate workspace
        let r := ssptri_ d ⟨[n_], ipiv_⟩
        let info_ := r.2.info
        let ev := [Event.readIndex n, Event.alloc n, Event.call [n_] ipiv_]
        if info_ < 0 then ⟨.error .illegal, ev, ipiv⟩
        else ⟨.ok (toInt64 info_), ev, ipiv⟩
    | .wide =>
      -- allocate workspace
      if n < 0 then ⟨.error .lengthError, [], ipiv⟩
      else
        let r := ssptri_ d ⟨[n_], ipiv⟩
        let info_ := r.2.info
        let ev := [Event.alloc n, Event.call [n_] ipiv]
        if info_ < 0 then ⟨.error .illegal, ev, ipiv⟩
        else ⟨.ok (toInt64 info_), ev, ipiv⟩

/-- Adapter `lapack::sptrs` (`src/src/sptrs.cc`, lines 19-54; the other three
overloads have the same body).  `ipiv` is read-only. -/
def sptrs {D : Type} (w : IndexWidth) (ssptrs_ : Kernel D) (d : D)
    (n nrhs : Int) (ipiv : List Int) (ldb : Int) : IndexOutcome Int :=
  if checkOverflow w [n, nrhs, ldb] then ⟨.error .overflow, [], ipiv⟩
  else
    let n_ := toLapackInt w n
    let nrhs_ := toLapackInt w nrhs
    let ldb_ := toLapackInt w ldb
    match w with
    | .narrow =>
      -- 32-bit copy
      if n < 0 then ⟨.error .lengthError, [], ipiv⟩
      else
        let ipiv_ := copyIn .narrow ipiv n
        let r := ssptrs_ d ⟨[n_, nrhs_, ldb_], ipiv_⟩
        let info_ := r.2.info
        let ev := [Event.readIndex n, Event.call [n_, nrhs_, ldb_] ipiv_]
        if info_ < 0 then ⟨.error .illegal, ev, ipiv⟩
        else ⟨.ok (toInt64 info_), ev, ipiv⟩
    | .wide =>
      let r := ssptrs_ d ⟨[n_, nrhs_, ldb_], ipiv⟩
      let info_ := r.2.info
      let ev := [Event.call [n_, nrhs_, ldb_] ipiv]
      if info_ < 0 then ⟨.error .illegal, ev, ipiv⟩
      else ⟨.ok (toInt64 info_), ev, ipiv⟩

/-- Adapter `lapack::sytrs_rook` (`src/src/sytrs_rook.cc`, lines 22-59; the other
three overloads have the same body).  `ipiv` is read-only. -/
def sytrs_rook {D : Type} (w : IndexWidth) (ssytrs_rook_ : Kernel D) (d : D)
    (n nrhs lda : Int) (ipiv : List Int) (ldb : Int) : IndexOutcome Int :=
  if checkOverflow w [n, nrhs, lda, ldb] then ⟨.error .overflow, [], ipiv⟩
  else
    let n_ := toLapackInt w n
    let nrhs_ := toLapackInt w nrhs
    let lda_ := toLapackInt w lda
    let ldb_ := toLapackInt w ldb
    match w with
    | .narrow =>
      -- 32-bit copy
      if n < 0 then ⟨.error .lengthError, [], ipiv⟩
      else
        let ipiv_ := copyIn .narrow ipiv n
        let r := ssytrs_rook_ d ⟨[n_, nrhs_, lda_, ldb_], ipiv_⟩
        let info_ := r.2.info
        let ev := [Event.readIndex n, Event.call [n_, nrhs_, lda_, ldb_] ipiv_]
        if info_ < 0 then ⟨.error .illegal, ev, ipiv⟩
        else ⟨.ok (toInt64 info_), ev, ipiv⟩
    | .wide =>
      let r := ssytrs_rook_ d ⟨[n_, nrhs_, lda_, ldb_], ipiv⟩
      let info_ := r.2.info
      let ev := [Event.call [n_, nrhs_, lda_, ldb_] ipiv]
      if info_ < 0 then ⟨.error .illegal, ev, ipiv⟩
      else ⟨.ok (toInt64 info_), ev, ipiv⟩

/-! ## The test helper `roundup` -/

/-- Test helper `roundup` (`src/test/test.hh`, lines 113-117), at the type
`int64_t`: `T( (x + y - 1) / y ) * y`, with the truncating division of C++ and every
operation in 64 bits.  The C++ expression is undefined for `y = 0`. -/
def roundup (x y : Int) : Int :=
  wrap64 (wrap64 (Int.tdiv (wrap64 (wrap64 (x + y) - 1)) y) * y)

/-- Truncation toward zero in the words of the specification: the real value is
cut to its integer part, the floor of a non-negative value and the ceiling of a
negative one.  The conversion the adapters perform is `probeToLapackInt`. -/
def truncTowardZero (q : Rat) : Int := if 0 ≤ q then ⌊q⌋ else ⌈q⌉

/-- An adapter run in the narrow configuration on the pivot array `ipiv` and the
integer arguments `dims`, among them the order `n`, treats `ipiv` as read-only when
the caller's array is afterwards as it was on every path, every kernel call in the
trace received the first `n` entries of `ipiv` narrowed to 32 bits in their order,
and, for `n ≥ 0` and arguments of magnitude at most 2^31 - 1, the kernel was called
exactly once. -/
def ReadsPivots (dims : List Int) (n : Int) (ipiv index : List Int) (events : List Event) :
    Prop :=
  index = ipiv ∧
  (∀ ints idx, Event.call ints idx ∈ events → idx = (ipiv.take n.toNat).map wrap32) ∧
  (0 ≤ n → (∀ v ∈ dims, |v| ≤ INT32_MAX) →
    ∃ ints, events.filter Event.isCall = [Event.call ints ((ipiv.take n.toNat).map wrap32)])

/-! ## The remaining adapters -/

/-- A kernel that reports the status `s` and leaves every integer it is handed
as it found it. -/
def statusKernel (s : Int) : Kernel Unit :=
  fun _ i => ((), ⟨s, i.index, 0, 0⟩)

/-- A kernel that reports the status `s`, the count `count` and the probe value
`probe`, and replaces every entry `x` of its index array by `f x`. -/
def sampleKernel (s count : Int) (probe : Rat) (f : Int → Int) : Kernel Unit :=
  fun _ i => ((), ⟨s, i.index.map f, count, probe⟩)

/-- A size-query kernel that reports the status `s` and the placeholder values
`work`, `rwork` and `iwork`, and leaves its index array as it found it. -/
def queryKernel (s : Int) (work : Scalar) (rwork : Rat) (iwork : Int) : QueryKernel Unit :=
  fun _ a => ((), ⟨s, a.index, work, rwork, iwork⟩)

/-- The probe value 12.75, numerator 51 over denominator 4. -/
def probeA : Rat := ⟨51, 4, by decide, by decide⟩

/-- The probe value -2.5, numerator -5 over denominator 2. -/
def probeB : Rat := ⟨-5, 2, by decide, by decide⟩

/-- The kernel `K` with `f` applied to what it leaves in the typed placeholder. -/
def mapWork {D : Type} (f : Scalar → Scalar) (K : QueryKernel D) : QueryKernel D :=
  fun d a => ((K d a).1, ⟨(K d a).2.info, (K d a).2.index, f (K d a).2.work, (K d a).2.rwork,
    (K d a).2.iwork⟩)

/-- A norm routine that returns the length of the integer list it is handed. -/
def normKernel : Norm → NormKernel Unit :=
  fun _ _ a => a.ints.length

/-- A kernel that reports the status 0 and the probe value 4 when the last integer
it is handed is the sentinel -1, and the status -3 otherwise; it replaces every
entry `x` of its index array by `f x`. -/
def execFailKernel (f : Int → Int) : Kernel Unit :=
  fun _ a => ((), ⟨if a.ints.getLast? = some (-1) then 0 else -3, a.index.map f, 0, 4⟩)

/-! ## Arithmetic of the conversions -/

theorem wrap64_of_isInt64 {x : Int} (h : IsInt64 x) : wrap64 x = x := by
  unfold IsInt64 INT64_MIN INT64_MAX at h
  unfold wrap64
  omega

theorem wrap32_of_isInt32 {x : Int} (h : IsInt32 x) : wrap32 x = x := by
  unfold IsInt32 INT32_MIN INT32_MAX at h
  unfold wrap32
  omega

theorem isInt64_of_isInt32 {x : Int} (h : IsInt32 x) : IsInt64 x := by
  unfold IsInt32 INT32_MIN INT32_MAX at h
  unfold IsInt64 INT64_MIN INT64_MAX
  omega

theorem isInt64_of_isLapackInt {w : IndexWidth} {x : Int} (h : IsLapackInt w x) :
    IsInt64 x := by
  cases w
  · exact isInt64_of_isInt32 h
  · exact h

theorem toInt64_of_isLapackInt {w : IndexWidth} {x : Int} (h : IsLapackInt w x) :
    toInt64 x = x :=
  wrap64_of_isInt64 (isInt64_of_isLapackInt h)

theorem checkOverflow_eq_false_iff (w : IndexWidth) (dims : List Int) :
    checkOverflow w dims = false ↔ w = .wide ∨ ∀ v ∈ dims, overflows w v = false := by
  cases w <;> simp [checkOverflow, sizeofInt64, sizeofLapackInt]

theorem checkOverflow_sublist {w : IndexWidth} {dims sub : List Int}
    (h : checkOverflow w dims = false) (hs : ∀ v ∈ sub, v ∈ dims) :
    checkOverflow w sub = false := by
  rw [checkOverflow_eq_false_iff] at h ⊢
  rcases h with h | h
  · exact Or.inl h
  · exact Or.inr (fun v hv => h v (hs v hv))

theorem isInt32_of_abs_le {v : Int} (h : |v| ≤ INT32_MAX) : IsInt32 v := by
  unfold INT32_MAX at h
  unfold IsInt32 INT32_MIN INT32_MAX
  have := abs_le.mp h
  omega

theorem overflows_narrow_of_isInt32 {v : Int} (h : IsInt32 v) (hmin : v ≠ INT32_MIN) :
    overflows .narrow v = false := by
  unfold IsInt32 INT32_MIN INT32_MAX at h
  unfold INT32_MIN at hmin
  simp only [overflows, lapackIntMax, INT32_MAX, stdAbs, wrap64, decide_eq_false_iff_not, not_lt,
    gt_iff_lt]
  split <;> omega

theorem overflows_narrow_of_abs_le {v : Int} (h : |v| ≤ INT32_MAX) :
    overflows .narrow v = false := by
  apply overflows_narrow_of_isInt32 (isInt32_of_abs_le h)
  intro hv
  subst hv
  revert h
  decide

theorem narrow_roundtrip {v : Int} (h : IsInt32 v) : toInt64 (toLapackInt .narrow v) = v := by
  show toInt64 (wrap32 v) = v
  rw [wrap32_of_isInt32 h]
  exact wrap64_of_isInt64 (isInt64_of_isInt32 h)

theorem checkOverflow_narrow_of_abs_le {dims : List Int} (h : ∀ v ∈ dims, |v| ≤ INT32_MAX) :
    checkOverflow .narrow dims = false :=
  (checkOverflow_eq_false_iff _ _).mpr (Or.inr (fun v hv => overflows_narrow_of_abs_le (h v hv)))

theorem wrap64_mul_nonneg {n : Int} (k : Int) (hk : 0 ≤ k) (hk8 : k ≤ 8) (h0 : 0 ≤ n)
    (h : IsInt32 n) : wrap64 (k * n) = k * n ∧ 0 ≤ k * n := by
  unfold IsInt32 INT32_MIN INT32_MAX at h
  have h1 : 0 ≤ k * n := mul_nonneg hk h0
  have h2 : k * n ≤ 8 * (2 ^ 31 - 1) := by nlinarith
  refine ⟨?_, h1⟩
  unfold wrap64
  omega

theorem take_append_drop_min (arr : List Int) (k : Nat) :
    arr.take k ++ arr.drop (min k arr.length) = arr := by
  rcases Nat.le_total k arr.length with h | h
  · rw [Nat.min_eq_left h]
    exact List.take_append_drop k arr
  · rw [Nat.min_eq_right h, List.take_of_length_le h, List.drop_length, List.append_nil]

theorem stdCopy_copyIn {arr : List Int} (harr : ∀ x ∈ arr, IsInt32 x) (len : Int) :
    stdCopy (copyIn .narrow arr len) arr = arr := by
  have hmap : (arr.take len.toNat).map (fun x => toInt64 (toLapackInt .narrow x))
      = arr.take len.toNat := by
    have : ∀ x ∈ arr.take len.toNat, toInt64 (toLapackInt .narrow x) = id x :=
      fun x hx => narrow_roundtrip (harr x (List.mem_of_mem_take hx))
    rw [List.map_congr_left this, List.map_id]
  simp only [stdCopy, copyIn, List.map_map, List.length_map, List.length_take]
  rw [show (toInt64 ∘ toLapackInt IndexWidth.narrow) = fun x => toInt64 (toLapackInt .narrow x)
    from rfl, hmap]
  exact take_append_drop_min arr len.toNat

theorem stdCopy_getElem?_lt (v arr : List Int) {i : Nat} (h : i < v.length) :
    ∃ x, v[i]? = some x ∧ (stdCopy v arr)[i]? = some (toInt64 x) := by
  refine ⟨v[i], List.getElem?_eq_getElem h, ?_⟩
  unfold stdCopy
  rw [List.getElem?_append_left (by simpa using h), List.getElem?_map,
    List.getElem?_eq_getElem h]
  rfl

theorem stdCopy_getElem?_ge (v arr : List Int) {i : Nat} (h : v.length ≤ i) :
    (stdCopy v arr)[i]? = arr[i]? := by
  unfold stdCopy
  rw [List.getElem?_append_right (by simpa using h), List.getElem?_drop, List.length_map]
  congr 1
  omega

theorem length_copyIn (w : IndexWidth) (arr : List Int) (len : Int)
    (h : len.toNat ≤ arr.length) : (copyIn w arr len).length = len.toNat := by
  simp [copyIn, List.length_take, h]

theorem length_fresh (junk : Nat → Int) (len : Int) : (fresh junk len).length = len.toNat := by
  simp [fresh]

/-! ## Status translation -/

/-- Claim C1.  For the single-call adapters trtrs, tbtrs, tptrs, pftri and sptrd,
in either configuration, with dimensions that pass the overflow check and a kernel
that reports the status `s` (a `lapack_int`): when `s < 0` the adapter raises the
failure `Error()` and returns no value; when `0 ≤ s` it returns exactly `s`. -/
theorem single_call_status {D : Type} (w : IndexWidth) (K : Kernel D) (d : D)
    (n kd nrhs lda ldab ldb s : Int)
    (hs : IsLapackInt w s)
    (hK : ∀ a, (K d a).2.info = s)
    (hg : checkOverflow w [n, kd, nrhs, lda, ldab, ldb] = false) :
    (s < 0 →
      (trtrs w K d n nrhs lda ldb).result = .error .illegal ∧
      (tbtrs w K d n kd nrhs ldab ldb).result = .error .illegal ∧
      (tptrs w K d n nrhs ldb).result = .error .illegal ∧
      (pftri w K d n).result = .error .illegal ∧
      (sptrd w K d n).result = .error .illegal) ∧
    (0 ≤ s →
      (trtrs w K d n nrhs lda ldb).result = .ok s ∧
      (tbtrs w K d n kd nrhs ldab ldb).result = .ok s ∧
      (tptrs w K d n nrhs ldb).result = .ok s ∧
      (pftri w K d n).result = .ok s ∧
      (sptrd w K d n).result = .ok s) := by
  have h1 : checkOverflow w [n, nrhs, lda, ldb] = false :=
    checkOverflow_sublist hg (by simp)
  have h2 : checkOverflow w [n, kd, nrhs, ldab, ldb] = false :=
    checkOverflow_sublist hg (by simp)
  have h3 : checkOverflow w [n, nrhs, ldb] = false :=
    checkOverflow_sublist hg (by simp)
  have h4 : checkOverflow w [n] = false :=
    checkOverflow_sublist hg (by simp)
  have hw : toInt64 s = s := toInt64_of_isLapackInt hs
  constructor
  · intro hneg
    simp [trtrs, tbtrs, tptrs, pftri, sptrd, h1, h2, h3, h4, hK, hneg]
  · intro hpos
    have hn : ¬ s < 0 := not_lt.mpr hpos
    simp [trtrs, tbtrs, tptrs, pftri, sptrd, h1, h2, h3, h4, hK, hn, hw]

/-- Witness for claim C1: a kernel reporting 42 on a 3-by-3 problem in
the narrow configuration; every adapter returns 42. -/
theorem single_call_status_witness :
    (trtrs .narrow (statusKernel 42) () 3 1 3 3).result = .ok 42 ∧
    (tbtrs .narrow (statusKernel 42) () 3 1 1 2 3).result = .ok 42 ∧
    (tptrs .narrow (statusKernel 42) () 3 1 3).result = .ok 42 ∧
    (pftri .narrow (statusKernel 42) () 3).result = .ok 42 ∧
    (sptrd .narrow (statusKernel 42) () 3).result = .ok 42 :=
  (single_call_status .narrow (statusKernel 42) () 3 1 1 3 2 3 42
    (by decide) (fun _ => rfl) (by decide)).2 (by decide)

/-! ## The overflow check -/

/-- Claim C2 (the code departs from it).  In the narrow configuration the overflow
check of trtrs and of gttrs lets the most negative `int64_t` through:
`std::abs` maps it to itself, a negative number, so no failure is raised, the
value is narrowed to 0 and the kernel is invoked with 0 in its place. -/
theorem overflow_check_misses_int64_min :
    IsInt64 INT64_MIN ∧ ¬ IsInt32 INT64_MIN ∧
    stdAbs INT64_MIN = INT64_MIN ∧
    overflows .narrow INT64_MIN = false ∧
    (trtrs .narrow (statusKernel 0) () INT64_MIN 1 1 1).result = .ok 0 ∧
    (trtrs .narrow (statusKernel 0) () INT64_MIN 1 1 1).events = [Event.call [0, 1, 1, 1] []] ∧
    (gttrs .narrow (statusKernel 0) () 1 INT64_MIN [1] 1).result = .ok 0 ∧
    (gttrs .narrow (statusKernel 0) () 1 INT64_MIN [1] 1).events =
      [Event.readIndex 1, Event.call [1, 0, 1] [1]] := by
  decide

/-- Claim C3.  In the narrow configuration, when every guarded dimension `v` of
trtrs and of tgsyl satisfies `|v| ≤ 2^31 - 1`, the overflow check raises nothing,
the kernel is invoked with exactly the caller's values, and every narrowed value
read back as a 64-bit integer equals the original. -/
theorem guard_accepts_and_narrowing_is_exact {D : Type} (K : Kernel D) (d : D)
    (ijob m n nrhs lda ldb ldc ldd lde ldf : Int)
    (h : ∀ v ∈ [ijob, m, n, nrhs, lda, ldb, ldc, ldd, lde, ldf], |v| ≤ INT32_MAX) :
    checkOverflow .narrow [n, nrhs, lda, ldb] = false ∧
    (trtrs .narrow K d n nrhs lda ldb).result ≠ .error .overflow ∧
    (trtrs .narrow K d n nrhs lda ldb).events = [Event.call [n, nrhs, lda, ldb] []] ∧
    checkOverflow .narrow [ijob, m, n, lda, ldb, ldc, ldd, lde, ldf] = false ∧
    (tgsyl .narrow K d ijob m n lda ldb ldc ldd lde ldf).result ≠ .error .overflow ∧
    (tgsyl .narrow K d ijob m n lda ldb ldc ldd lde ldf).events.head? =
      some (Event.call [ijob, m, n, lda, ldb, ldc, ldd, lde, ldf, -1] []) ∧
    ∀ v ∈ [ijob, m, n, nrhs, lda, ldb, ldc, ldd, lde, ldf],
      toInt64 (toLapackInt .narrow v) = v := by
  have h32 : ∀ v ∈ [ijob, m, n, nrhs, lda, ldb, ldc, ldd, lde, ldf], wrap32 v = v :=
    fun v hv => wrap32_of_isInt32 (isInt32_of_abs_le (h v hv))
  have g1 : checkOverflow .narrow [n, nrhs, lda, ldb] = false :=
    checkOverflow_narrow_of_abs_le (fun v hv => h v (by simp at hv ⊢; tauto))
  have g2 : checkOverflow .narrow [ijob, m, n, lda, ldb, ldc, ldd, lde, ldf] = false :=
    checkOverflow_narrow_of_abs_le (fun v hv => h v (by simp at hv ⊢; tauto))
  simp only [List.mem_cons, List.mem_singleton, forall_eq_or_imp, forall_eq,
    List.not_mem_nil, false_implies, implies_true, and_true] at h32
  obtain ⟨e1, e2, e3, e4, e5, e6, e7, e8, e9, e10⟩ := h32
  refine ⟨g1, ?_, ?_, g2, ?_, ?_, fun v hv => narrow_roundtrip (isInt32_of_abs_le (h v hv))⟩
  · simp only [trtrs, g1, Bool.false_eq_true, if_false]
    split_ifs <;> simp
  · simp only [trtrs, g1, Bool.false_eq_true, if_false, toLapackInt, e3, e4, e5, e6]
    split_ifs <;> simp
  · simp only [tgsyl, g2, Bool.false_eq_true, if_false]
    split_ifs <;> simp
  · simp only [tgsyl, g2, Bool.false_eq_true, if_false, toLapackInt, e1, e2, e3, e5, e6, e7, e8,
      e9, e10]
    split_ifs <;> simp

/-- Witness for claim C3: dimensions at both ends of the 32-bit range. -/
theorem guard_accepts_and_narrowing_is_exact_witness :
    (trtrs .narrow (statusKernel 0) () 2147483647 (-2147483647) 5 7).events =
      [Event.call [2147483647, -2147483647, 5, 7] []] :=
  (guard_accepts_and_narrowing_is_exact (statusKernel 0) () 0 4 2147483647 (-2147483647)
    5 7 1 1 1 1 (by decide)).2.2.1

/-- Claim C4.  In the narrow configuration, when a guarded dimension of geqp3 or
of sbgvx fails the overflow check, the adapter raises the overflow failure with
no step performed before it (no kernel call, no index array read or copied, no
workspace allocated), and the caller-owned `jpvt`, `*m` and `ifail` are as they were
before the call. -/
theorem overflow_raises_before_anything_else {D : Type} (K : Kernel D) (K2 : Job → Kernel D)
    (junk : Nat → Int) (d : D) (jobz : Job)
    (m n lda ka kb ldab ldbb ldq il iu ldz : Int) (jpvt ifail : List Int)
    (h1 : ∃ v ∈ [m, n, lda], overflows .narrow v = true)
    (h2 : ∃ v ∈ [n, ka, kb, ldab, ldbb, ldq, il, iu, ldz], overflows .narrow v = true) :
    ((geqp3 .narrow K d m n lda jpvt).result = .error .overflow ∧
      (geqp3 .narrow K d m n lda jpvt).events = [] ∧
      (geqp3 .narrow K d m n lda jpvt).index = jpvt) ∧
    ((sbgvx .narrow K2 junk d jobz n ka kb ldab ldbb ldq il iu m ldz ifail).result
        = .error .overflow ∧
      (sbgvx .narrow K2 junk d jobz n ka kb ldab ldbb ldq il iu m ldz ifail).events = [] ∧
      (sbgvx .narrow K2 junk d jobz n ka kb ldab ldbb ldq il iu m ldz ifail).m = m ∧
      (sbgvx .narrow K2 junk d jobz n ka kb ldab ldbb ldq il iu m ldz ifail).ifail = ifail) := by
  have g1 : checkOverflow .narrow [m, n, lda] = true := by
    obtain ⟨v, hv, hov⟩ := h1
    simp only [checkOverflow, sizeofInt64, sizeofLapackInt, Bool.and_eq_true, decide_eq_true_eq,
      List.any_eq_true]
    exact ⟨by decide, v, hv, hov⟩
  have g2 : checkOverflow .narrow [n, ka, kb, ldab, ldbb, ldq, il, iu, ldz] = true := by
    obtain ⟨v, hv, hov⟩ := h2
    simp only [checkOverflow, sizeofInt64, sizeofLapackInt, Bool.and_eq_true, decide_eq_true_eq,
      List.any_eq_true]
    exact ⟨by decide, v, hv, hov⟩
  simp [geqp3, sbgvx, g1, g2]

/-- Witness for claim C4: `n = 2^31` in both adapters. -/
theorem overflow_raises_before_anything_else_witness :
    (geqp3 .narrow (statusKernel 0) () 1 2147483648 1 [3, 1, 2]).index = [3, 1, 2] ∧
    (sbgvx .narrow (fun _ => statusKernel 0) (fun _ => 0) () Job.Vec 2147483648 1 1 2 2 1 1 1 5 1
      [9, 8]).ifail = [9, 8] :=
  have h := overflow_raises_before_anything_else (statusKernel 0) (fun _ => statusKernel 0)
    (fun _ => 0) () Job.Vec 1 2147483648 1 1 1 2 2 1 1 1 1 [3, 1, 2] [9, 8]
    ⟨2147483648, by decide, by decide⟩ ⟨2147483648, by decide, by decide⟩
  ⟨h.1.2.2, h.2.2.2.2⟩

/-- Claim C6, counterexample.  Two invocations of trtrs whose kernels report -5 and
-1 raise the same failure, so no function of the raised failure gives back the
respective status. -/
theorem raised_failure_does_not_carry_status :
    (trtrs .narrow (statusKernel (-5)) () 3 1 3 3).result = .error .illegal ∧
    (trtrs .narrow (statusKernel (-1)) () 3 1 3 3).result = .error .illegal ∧
    ¬ ∃ recover : Except Failure Int → Int,
      recover (trtrs .narrow (statusKernel (-5)) () 3 1 3 3).result = -5 ∧
      recover (trtrs .narrow (statusKernel (-1)) () 3 1 3 3).result = -1 := by
  have h5 : (trtrs .narrow (statusKernel (-5)) () 3 1 3 3).result = .error .illegal := by decide
  have h1 : (trtrs .narrow (statusKernel (-1)) () 3 1 3 3).result = .error .illegal := by decide
  refine ⟨h5, h1, ?_⟩
  rintro ⟨recover, r5, r1⟩
  rw [h5] at r5
  rw [h1] at r1
  omega

/-- Claim C6, amended.  In either configuration, when the dimensions pass the
overflow check and the kernel reports a negative status, trtrs and syev raise the
failure `Error()`, built from no argument: it is the same failure for every
negative status. -/
theorem negative_status_raises_one_failure {D : Type} (w : IndexWidth) (K1 K2 : Kernel D) (d : D)
    (n nrhs lda ldb s1 s2 : Int)
    (h1 : s1 < 0) (h2 : s2 < 0)
    (hK1 : ∀ d i, (K1 d i).2.info = s1) (hK2 : ∀ d i, (K2 d i).2.info = s2)
    (hg : checkOverflow w [n, nrhs, lda, ldb] = false) :
    (trtrs w K1 d n nrhs lda ldb).result = .error .illegal ∧
    (trtrs w K2 d n nrhs lda ldb).result = .error .illegal ∧
    (syev w K1 d n lda).result = .error .illegal ∧
    (syev w K2 d n lda).result = .error .illegal := by
  have g2 : checkOverflow w [n, lda] = false := checkOverflow_sublist hg (by simp)
  simp [trtrs, syev, hg, g2, hK1, hK2, h1, h2]

/-- Witness for claim C6 as amended: statuses -5 and -1. -/
theorem negative_status_raises_one_failure_witness :
    (trtrs .wide (statusKernel (-5)) () 3 1 3 3).result
      = (trtrs .wide (statusKernel (-1)) () 3 1 3 3).result :=
  have h := negative_status_raises_one_failure .wide (statusKernel (-5)) (statusKernel (-1)) ()
    3 1 3 3 (-5) (-1) (by decide) (by decide) (fun _ _ => rfl) (fun _ _ => rfl) (by decide)
  h.1.trans h.2.1.symm

/-! ## Index array marshaling -/

/-- Claim C7.  In the narrow configuration, for an index array whose entries are
all representable in 32 bits and any length `len`, copying its first `len`
entries to a native-width array and copying that array back reproduces the
caller's array; hence geqp3, lapmr and larnv, run with a kernel that leaves the
native-width array as it found it, leave `jpvt`, `K` and `iseed` as they were. -/
theorem index_round_trip {D : Type} (K : Kernel D) (d : D) (forwrd : Bool)
    (m n lda idist len : Int) (arr : List Int)
    (harr : ∀ x ∈ arr, IsInt32 x)
    (hK : ∀ d i, (K d i).2.index = i.index) :
    stdCopy (copyIn .narrow arr len) arr = arr ∧
    (geqp3 .narrow K d m n lda arr).index = arr ∧
    (lapmr .narrow K d forwrd m n lda arr).index = arr ∧
    (larnv .narrow K d idist arr n).index = arr := by
  refine ⟨stdCopy_copyIn harr len, ?_, ?_, ?_⟩
  · simp only [geqp3, hK]
    split_ifs <;> first | rfl | exact stdCopy_copyIn harr n
  · simp only [lapmr, hK]
    split_ifs <;> first | rfl | exact stdCopy_copyIn harr m
  · simp only [larnv, hK]
    split_ifs <;> first | rfl | exact stdCopy_copyIn harr 4

/-- Witness for claim C7: a pivot array with negative and extreme
entries, longer than the copied length. -/
theorem index_round_trip_witness :
    stdCopy (copyIn .narrow [3, -1, 2147483647, -2147483648, 7] 4)
      [3, -1, 2147483647, -2147483648, 7] = [3, -1, 2147483647, -2147483648, 7] :=
  (index_round_trip (statusKernel 0) () true 4 4 4 1 4 [3, -1, 2147483647, -2147483648, 7]
    (by decide) (fun _ _ => rfl)).1

/-- Claim C8.  In the narrow configuration, with a kernel that works within the
native-width array it is handed and a caller array of at least `n` entries: on
every successful return of geqp3, for every `i < n`, the caller's `jpvt[i]` is the
value the kernel left at position `i` of the native-width copy after the execute
call, converted to 64 bits; the same holds for `ipiv` in hpsv and for `K` in
lapmr with respect to their single kernel call. -/
theorem copy_back_delivers_kernel_values {D : Type} (K : Kernel D) (junk : Nat → Int) (d : D)
    (forwrd : Bool) (m n lda nrhs ldb ncol ldx : Int) (arr : List Int) (i : Nat)
    (hK : ∀ d a, (K d a).2.index.length = a.index.length)
    (hlen : n.toNat ≤ arr.length)
    (hi : (i : Int) < n) :
    let q := K d ⟨[wrap32 m, wrap32 n, wrap32 lda, -1], copyIn .narrow arr n⟩
    let e := K q.1 ⟨[wrap32 m, wrap32 n, wrap32 lda, probeToLapackInt .narrow q.2.probe],
      q.2.index⟩
    let r := K d ⟨[wrap32 n, wrap32 nrhs, wrap32 ldb], fresh junk n⟩
    let p := K d ⟨[wrap32 (if forwrd then 1 else 0), wrap32 n, wrap32 ncol, wrap32 ldx],
      copyIn .narrow arr n⟩
    (∀ s, (geqp3 .narrow K d m n lda arr).result = .ok s →
      ∃ x, e.2.index[i]? = some x ∧
        (geqp3 .narrow K d m n lda arr).index[i]? = some (toInt64 x)) ∧
    (∀ s, (hpsv .narrow K junk d n nrhs arr ldb).result = .ok s →
      ∃ x, r.2.index[i]? = some x ∧
        (hpsv .narrow K junk d n nrhs arr ldb).index[i]? = some (toInt64 x)) ∧
    ((lapmr .narrow K d forwrd n ncol ldx arr).result = .ok () →
      ∃ x, p.2.index[i]? = some x ∧
        (lapmr .narrow K d forwrd n ncol ldx arr).index[i]? = some (toInt64 x)) := by
  intro q e r p
  have hin : i < n.toNat := Int.lt_toNat.mpr hi
  have hq : q.2.index.length = n.toNat := by
    rw [hK]
    exact length_copyIn _ _ _ hlen
  have he : i < e.2.index.length := by
    rw [hK]
    exact hq ▸ hin
  have hr : i < r.2.index.length := by
    rw [hK]
    exact (length_fresh junk n).symm ▸ hin
  have hp : i < p.2.index.length := by
    rw [hK]
    exact (length_copyIn .narrow arr n hlen).symm ▸ hin
  refine ⟨?_, ?_, ?_⟩
  · intro s
    simp only [geqp3, toLapackInt]
    split_ifs <;> intro hs <;> first | exact stdCopy_getElem?_lt _ arr he | simp at hs
  · intro s
    simp only [hpsv, toLapackInt]
    split_ifs <;> intro hs <;> first | exact stdCopy_getElem?_lt _ arr hr | simp at hs
  · cases forwrd <;> simp only [lapmr, toLapackInt] <;> split_ifs <;> intro hs <;>
      first | contradiction | exact stdCopy_getElem?_lt _ arr hp

/-- Witness for claim C8: a kernel that adds 10 to every
entry of a 3-entry pivot array; position 1 of the caller's array receives 12. -/
theorem copy_back_delivers_kernel_values_witness :
    (geqp3 .narrow (sampleKernel 0 0 5 (fun x => x + 10)) () 3 3 3 [0, -8, 0]).index[1]?
      = some 12 ∧
    (lapmr .narrow (sampleKernel 0 0 5 (fun x => x + 10)) () true 3 2 3 [3, 1, 2]).index[1]?
      = some 11 := by
  have h := copy_back_delivers_kernel_values (sampleKernel 0 0 5 (fun x => x + 10)) (fun _ => 0) ()
    true 3 3 3 1 3 2 3 [0, -8, 0] 1 (fun _ _ => by simp [sampleKernel]) (by decide) (by decide)
  have h2 := copy_back_delivers_kernel_values (sampleKernel 0 0 5 (fun x => x + 10)) (fun _ => 0)
    () true 3 3 3 1 3 2 3 [3, 1, 2] 1 (fun _ _ => by simp [sampleKernel]) (by decide) (by decide)
  obtain ⟨x, hx, hx2⟩ := h.1 0 (by decide)
  obtain ⟨y, hy, hy2⟩ := h2.2.2 (by decide)
  have ex : x = 12 := by
    have : (some x : Option Int) = some 12 := hx.symm.trans (by decide)
    exact Option.some.inj this
  have ey : y = 11 := by
    have : (some y : Option Int) = some 11 := hy.symm.trans (by decide)
    exact Option.some.inj this
  subst ex
  subst ey
  exact ⟨hx2, hy2⟩

/-! ## Partial copy-back in sbgvx -/

/-- Claim C9.  In the narrow configuration, on every successful return of sbgvx
(the kernel's count being a `lapack_int`), every entry `ifail[i]` of the caller's
array at a position `i` not below the returned count `m` is as it was before the
call; in particular the entries with `m ≤ i < n`, for `m = 0`, `m = n` and
`0 < m < n`. -/
theorem sbgvx_tail_retained {D : Type} (K : Job → Kernel D) (junk : Nat → Int) (d : D)
    (jobz : Job) (n ka kb ldab ldbb ldq il iu m0 ldz s : Int) (ifail : List Int) (i : Nat)
    (hK : ∀ j d a, IsLapackInt .narrow (K j d a).2.count)
    (hs : (sbgvx .narrow K junk d jobz n ka kb ldab ldbb ldq il iu m0 ldz ifail).result = .ok s)
    (hi : (sbgvx .narrow K junk d jobz n ka kb ldab ldbb ldq il iu m0 ldz ifail).m ≤ i) :
    (sbgvx .narrow K junk d jobz n ka kb ldab ldbb ldq il iu m0 ldz ifail).ifail[i]?
      = ifail[i]? := by
  have key : ∀ c : Int, IsLapackInt .narrow c → toInt64 c ≤ i → ∀ v : List Int,
      (stdCopy (v.take c.toNat) ifail)[i]? = ifail[i]? := by
    intro c hc hci v
    rw [toInt64_of_isLapackInt hc] at hci
    apply stdCopy_getElem?_ge
    rw [List.length_take]
    have : c.toNat ≤ i := Int.toNat_le.mpr hci
    omega
  revert hs hi
  simp only [sbgvx]
  split_ifs <;> intro hs hi <;> first | rfl | exact key _ (hK _ _ _) hi _

/-- Witness for claim C9: order 4, the kernel reports 2 failures and
overwrites its whole native-width list; entry 2 of the caller's array keeps its
value 30. -/
theorem sbgvx_tail_retained_witness :
    (sbgvx .narrow (fun _ => sampleKernel 0 2 0 (fun _ => 7)) (fun _ => 0) () Job.Vec
      4 1 1 2 2 4 1 4 0 4 [10, 20, 30, 40]).ifail[2]? = some 30 :=
  sbgvx_tail_retained (fun _ => sampleKernel 0 2 0 (fun _ => 7)) (fun _ => 0) () Job.Vec
    4 1 1 2 2 4 1 4 0 4 0 [10, 20, 30, 40] 2
    (fun _ _ _ => (by decide : IsLapackInt .narrow (2 : Int))) (by decide) (by decide)

/-- Claim C10, counterexample.  With `jobz = NoVec` in the narrow configuration
sbgvx returns successfully with count 1 while the kernel wrote 7 at position 0 of
its native-width failure list; the caller's `ifail[0]` still holds 0. -/
theorem sbgvx_novec_skips_copy_back :
    (sbgvx .narrow (fun _ => sampleKernel 0 1 0 (fun _ => 7)) (fun _ => 0) () Job.NoVec
      1 0 0 1 1 1 1 1 0 1 [0]).result = .ok 0 ∧
    (sbgvx .narrow (fun _ => sampleKernel 0 1 0 (fun _ => 7)) (fun _ => 0) () Job.NoVec
      1 0 0 1 1 1 1 1 0 1 [0]).m = 1 ∧
    (sampleKernel 0 1 0 (fun _ => 7) () ⟨[1, 0, 0, 1, 1, 1, 1, 1, 0, 1], fresh (fun _ => 0) 1⟩).2.index
      = [7] ∧
    (sbgvx .narrow (fun _ => sampleKernel 0 1 0 (fun _ => 7)) (fun _ => 0) () Job.NoVec
      1 0 0 1 1 1 1 1 0 1 [0]).ifail = [0] := by
  decide

/-- Claim C10, amended.  In the narrow configuration, on every successful return of
sbgvx with `jobz` other than `NoVec` and a returned count `0 ≤ m ≤ n` (the kernel
working within its `n`-entry native-width list), for every `i < m` the caller's
`ifail[i]` is the value the kernel wrote at position `i` of that list, converted to
64 bits.  With `jobz = NoVec` the caller's `ifail` is not written at all. -/
theorem sbgvx_head_delivered {D : Type} (K : Job → Kernel D) (junk : Nat → Int) (d : D)
    (jobz : Job) (n ka kb ldab ldbb ldq il iu m0 ldz s : Int) (ifail : List Int) (i : Nat)
    (hjob : jobz ≠ Job.NoVec)
    (hKc : ∀ j d a, IsLapackInt .narrow (K j d a).2.count)
    (hKl : ∀ j d a, (K j d a).2.index.length = a.index.length)
    (hs : (sbgvx .narrow K junk d jobz n ka kb ldab ldbb ldq il iu m0 ldz ifail).result = .ok s)
    (hmn : (sbgvx .narrow K junk d jobz n ka kb ldab ldbb ldq il iu m0 ldz ifail).m ≤ n)
    (hi : (i : Int) < (sbgvx .narrow K junk d jobz n ka kb ldab ldbb ldq il iu m0 ldz ifail).m) :
    (∃ x, (K jobz d ⟨[wrap32 n, wrap32 ka, wrap32 kb, wrap32 ldab, wrap32 ldbb, wrap32 ldq,
          wrap32 il, wrap32 iu, wrap32 m0, wrap32 ldz], fresh junk n⟩).2.index[i]? = some x ∧
      (sbgvx .narrow K junk d jobz n ka kb ldab ldbb ldq il iu m0 ldz ifail).ifail[i]?
        = some (toInt64 x)) ∧
    (sbgvx .narrow K junk d Job.NoVec n ka kb ldab ldbb ldq il iu m0 ldz ifail).ifail = ifail := by
  constructor
  · have key : ∀ (c : Int) (v : List Int), IsLapackInt .narrow c → toInt64 c ≤ n →
        (i : Int) < toInt64 c → v.length = n.toNat →
        ∃ x, v[i]? = some x ∧ (stdCopy (v.take c.toNat) ifail)[i]? = some (toInt64 x) := by
      intro c v hc hcn hic hv
      rw [toInt64_of_isLapackInt hc] at hcn hic
      have h1 : i < c.toNat := Int.lt_toNat.mpr hic
      have h2 : c.toNat ≤ n.toNat := Int.toNat_le_toNat hcn
      have h3 : i < (v.take c.toNat).length := by
        rw [List.length_take]
        omega
      obtain ⟨x, hx, hx2⟩ := stdCopy_getElem?_lt (v.take c.toNat) ifail h3
      rw [List.getElem?_take_of_lt h1] at hx
      exact ⟨x, hx, hx2⟩
    revert hs hmn hi
    simp only [sbgvx, toLapackInt]
    split_ifs <;> intro hs hmn hi <;>
      first
      | contradiction
      | exact key _ _ (hKc _ _ _) hmn hi ((hKl _ _ _).trans (length_fresh junk n))
  · simp only [sbgvx]
    split_ifs <;> first | rfl | contradiction

/-- Witness for claim C10 as amended: order 4 with `jobz = Vec`, the kernel reports
2 failures and writes 7 everywhere; entry 1 of the caller's array receives 7. -/
theorem sbgvx_head_delivered_witness :
    (sbgvx .narrow (fun _ => sampleKernel 0 2 0 (fun _ => 7)) (fun _ => 0) () Job.Vec
      4 1 1 2 2 4 1 4 0 4 [10, 20, 30, 40]).ifail[1]? = some 7 := by
  obtain ⟨x, hx, hx2⟩ := (sbgvx_head_delivered (fun _ => sampleKernel 0 2 0 (fun _ => 7))
    (fun _ => 0) () Job.Vec 4 1 1 2 2 4 1 4 0 4 0 [10, 20, 30, 40] 1 (by decide)
    (fun _ _ _ => (by decide : IsLapackInt .narrow (2 : Int)))
    (fun _ _ _ => by simp [sampleKernel]) (by decide) (by decide) (by decide)).1
  have ex : x = 7 := by
    have : (some x : Option Int) = some 7 := hx.symm.trans (by decide)
    exact Option.some.inj this
  subst ex
  exact hx2

/-! ## Workspace lengths -/

theorem toLapackInt_of_isLapackInt {w : IndexWidth} {x : Int} (h : IsLapackInt w x) :
    toLapackInt w x = x := by
  cases w
  · exact wrap32_of_isInt32 h
  · exact wrap64_of_isInt64 h

theorem tdiv_num_den_eq (q : Rat) :
    Int.tdiv q.num q.den = if 0 ≤ q then ⌊q⌋ else ⌈q⌉ := by
  split_ifs with h
  · rw [Rat.floor_def, Int.tdiv_eq_ediv (Rat.num_nonneg.mpr h) (Int.ofNat_nonneg _)]
  · have hneg : 0 ≤ -q := by linarith [not_le.mp h]
    have hfl : ⌊-q⌋ = -⌈q⌉ := Int.floor_neg
    rw [Rat.floor_def, Rat.neg_num, Rat.neg_den,
      ← Int.tdiv_eq_ediv (by simpa using Rat.num_nonneg.mpr hneg) (Int.ofNat_nonneg _),
      Int.neg_tdiv] at hfl
    omega

/-- Claim C11, counterexample.  In the narrow configuration with order `n = 10^9`,
accepted by the overflow check, and a query result of 5, the product `3*n_` wraps
to a negative `int`: the work buffer is allocated with 5 elements and the execute
call receives the length 5, while `max(5, 3*n)` is 3000000000. -/
theorem sbgvd_floor_wraps_for_large_order :
    checkOverflow .narrow [1000000000, 0, 0, 1, 1, 1] = false ∧
    (sbgvd .narrow (queryKernel 0 (.real 5) 0 1) () 1000000000 0 0 1 1 1).events =
      [Event.call [1000000000, 0, 0, 1, 1, 1, -1, -1] [], Event.alloc 5, Event.alloc 1,
        Event.call [1000000000, 0, 0, 1, 1, 1, 5, 1] []] ∧
    max (5 : Int) (3 * 1000000000) = 3000000000 := by
  decide

/-- Claim C11, amended.  For sbgvd (both overloads), in either configuration, for
every order `n` accepted by the overflow check such that `n` and `3*n` are
representable in `lapack_int`, and every query result `q`: when the size query
succeeds and the lengths are non-negative, the work buffer is allocated with
`max(q, 3*n)` elements and the execute call receives the length `max(q, 3*n)`. -/
theorem sbgvd_work_length {D : Type} (w : IndexWidth) (K : QueryKernel D) (d : D)
    (n ka kb ldab ldbb ldz : Int)
    (hg : checkOverflow w [n, ka, kb, ldab, ldbb, ldz] = false)
    (hn : IsLapackInt w n) (h3 : IsLapackInt w (3 * n)) :
    let dims := [n, toLapackInt w ka, toLapackInt w kb, toLapackInt w ldab,
      toLapackInt w ldbb, toLapackInt w ldz]
    let r := K d ⟨dims ++ [-1, -1], []⟩
    let q := probeToLapackInt w (real r.2.work)
    0 ≤ r.2.info → 0 ≤ max q (3 * n) → 0 ≤ r.2.iwork →
    (sbgvd w K d n ka kb ldab ldbb ldz).events =
      [Event.call (dims ++ [-1, -1]) [], Event.alloc (max q (3 * n)), Event.alloc r.2.iwork,
        Event.call (dims ++ [max q (3 * n), r.2.iwork]) []] := by
  intro dims r q hinfo hlen hli
  have e1 : toLapackInt w n = n := toLapackInt_of_isLapackInt hn
  have e3 : toLapackInt w (3 * n) = 3 * n := toLapackInt_of_isLapackInt h3
  have i1 : ¬ r.2.info < 0 := not_lt.mpr hinfo
  have i2 : ¬ max q (3 * n) < 0 := not_lt.mpr hlen
  have i3 : ¬ r.2.iwork < 0 := not_lt.mpr hli
  simp only [sbgvd, hg, Bool.false_eq_true, if_false, e1, e3]
  simp only [r, q, dims] at i1 i2 i3
  simp only [i1, i2, i3, if_false]
  split_ifs <;> rfl

/-- Witness for claim C11 as amended: order 100 and the under-reported query
result 250; the work length becomes 300. -/
theorem sbgvd_work_length_witness :
    (sbgvd .narrow (queryKernel 0 (.real 250) 0 7) () 100 2 1 3 2 100).events =
      [Event.call [100, 2, 1, 3, 2, 100, -1, -1] [], Event.alloc 300, Event.alloc 7,
        Event.call [100, 2, 1, 3, 2, 100, 300, 7] []] :=
  sbgvd_work_length .narrow (queryKernel 0 (.real 250) 0 7) () 100 2 1 3 2 100
    (by decide) (by decide) (by decide) (by decide) (by decide) (by decide)

theorem syev_call_lengths {D : Type} (w : IndexWidth) (K : Kernel D) (d : D) (n lda : Int)
    (ints idx : List Int) :
    Event.call ints idx ∈ (syev w K d n lda).events →
      ints = [toLapackInt w n, toLapackInt w lda, -1] ∨
      ints = [toLapackInt w n, toLapackInt w lda,
        probeToLapackInt w (K d ⟨[toLapackInt w n, toLapackInt w lda, -1], []⟩).2.probe] := by
  intro h
  simp only [syev] at h
  split_ifs at h <;> simp at h <;> tauto

theorem geqp3_call_lengths {D : Type} (w : IndexWidth) (K : Kernel D) (d : D) (m n lda : Int) (jpvt : List Int)
    (ints idx : List Int) :
    Event.call ints idx ∈ (geqp3 w K d m n lda jpvt).events →
      ints = [toLapackInt w m, toLapackInt w n, toLapackInt w lda, -1] ∨
      ints = [toLapackInt w m, toLapackInt w n, toLapackInt w lda,
        probeToLapackInt w (K d ⟨[toLapackInt w m, toLapackInt w n, toLapackInt w lda, -1], if w = .narrow then copyIn .narrow jpvt n else jpvt⟩).2.probe] := by
  intro h
  cases w <;> simp only [geqp3] at h <;> split_ifs at h <;> simp at h <;> simp <;> tauto

theorem ormbr_call_lengths {D : Type} (w : IndexWidth) (QO : Op → QueryKernel D) (d : D) (trans : Op)
    (m n k lda ldc : Int)
    (ints idx : List Int) :
    Event.call ints idx ∈ (ormbr w QO d trans m n k lda ldc).events →
      ints = [toLapackInt w m, toLapackInt w n, toLapackInt w k, toLapackInt w lda, toLapackInt w ldc, -1] ∨
      ints = [toLapackInt w m, toLapackInt w n, toLapackInt w k, toLapackInt w lda, toLapackInt w ldc,
        probeToLapackInt w (real (QO (if trans = Op.ConjTrans then Op.Trans else trans) d ⟨[toLapackInt w m, toLapackInt w n, toLapackInt w k, toLapackInt w lda, toLapackInt w ldc, -1], []⟩).2.work)] := by
  intro h
  by_cases ht : trans = Op.ConjTrans <;> simp only [ormbr, ht, if_true, if_false] at h ⊢ <;>
    split_ifs at h <;> simp at h <;> tauto

theorem sytrd_2stage_call_lengths {D : Type} (w : IndexWidth) (Q : QueryKernel D) (d : D) (n lda lhous2 : Int)
    (ints idx : List Int) :
    Event.call ints idx ∈ (sytrd_2stage w Q d n lda lhous2).events →
      ints = [toLapackInt w n, toLapackInt w lda, toLapackInt w lhous2, -1] ∨
      ints = [toLapackInt w n, toLapackInt w lda, toLapackInt w lhous2,
        probeToLapackInt w (real (Q d ⟨[toLapackInt w n, toLapackInt w lda, toLapackInt w lhous2, -1], []⟩).2.work)] := by
  intro h
  simp only [sytrd_2stage] at h
  split_ifs at h <;> simp at h <;> tauto

theorem geqrfp_call_lengths {D : Type} (w : IndexWidth) (Q : QueryKernel D) (d : D) (m n lda : Int)
    (ints idx : List Int) :
    Event.call ints idx ∈ (geqrfp w Q d m n lda).events →
      ints = [toLapackInt w m, toLapackInt w n, toLapackInt w lda, -1] ∨
      ints = [toLapackInt w m, toLapackInt w n, toLapackInt w lda,
        probeToLapackInt w (real (Q d ⟨[toLapackInt w m, toLapackInt w n, toLapackInt w lda, -1], []⟩).2.work)] := by
  intro h
  simp only [geqrfp] at h
  split_ifs at h <;> simp at h <;> tauto

theorem ungqr_call_lengths {D : Type} (w : IndexWidth) (Q : QueryKernel D) (d : D) (m n k lda : Int)
    (ints idx : List Int) :
    Event.call ints idx ∈ (ungqr w Q d m n k lda).events →
      ints = [toLapackInt w m, toLapackInt w n, toLapackInt w k, toLapackInt w lda, -1] ∨
      ints = [toLapackInt w m, toLapackInt w n, toLapackInt w k, toLapackInt w lda,
        probeToLapackInt w (real (Q d ⟨[toLapackInt w m, toLapackInt w n, toLapackInt w k, toLapackInt w lda, -1], []⟩).2.work)] := by
  intro h
  simp only [ungqr] at h
  split_ifs at h <;> simp at h <;> tauto

theorem tgsyl_call_lengths {D : Type} (w : IndexWidth) (K : Kernel D) (d : D)
    (ijob m n lda ldb ldc ldd lde ldf : Int)
    (ints idx : List Int) :
    Event.call ints idx ∈ (tgsyl w K d ijob m n lda ldb ldc ldd lde ldf).events →
      ints = [toLapackInt w ijob, toLapackInt w m, toLapackInt w n, toLapackInt w lda, toLapackInt w ldb, toLapackInt w ldc, toLapackInt w ldd, toLapackInt w lde, toLapackInt w ldf, -1] ∨
      ints = [toLapackInt w ijob, toLapackInt w m, toLapackInt w n, toLapackInt w lda, toLapackInt w ldb, toLapackInt w ldc, toLapackInt w ldd, toLapackInt w lde, toLapackInt w ldf,
        probeToLapackInt w (K d ⟨[toLapackInt w ijob, toLapackInt w m, toLapackInt w n, toLapackInt w lda, toLapackInt w ldb, toLapackInt w ldc, toLapackInt w ldd, toLapackInt w lde, toLapackInt w ldf, -1], []⟩).2.probe] := by
  intro h
  simp only [tgsyl] at h
  split_ifs at h <;> simp at h <;> tauto

theorem heevd_2stage_call_lengths {D : Type} (w : IndexWidth) (Q : QueryKernel D) (d : D) (n lda : Int)
    (ints idx : List Int) :
    Event.call ints idx ∈ (heevd_2stage w Q d n lda).events →
      ints = [toLapackInt w n, toLapackInt w lda, -1, -1, -1] ∨
      ints = [toLapackInt w n, toLapackInt w lda,
        probeToLapackInt w (real (Q d ⟨[toLapackInt w n, toLapackInt w lda, -1, -1, -1], []⟩).2.work), probeToLapackInt w (Q d ⟨[toLapackInt w n, toLapackInt w lda, -1, -1, -1], []⟩).2.rwork, (Q d ⟨[toLapackInt w n, toLapackInt w lda, -1, -1, -1], []⟩).2.iwork] := by
  intro h
  simp only [heevd_2stage] at h
  split_ifs at h <;> simp at h <;> tauto

theorem sbgvd_call_lengths {D : Type} (w : IndexWidth) (Q : QueryKernel D) (d : D)
    (n ka kb ldab ldbb ldz : Int)
    (ints idx : List Int) :
    Event.call ints idx ∈ (sbgvd w Q d n ka kb ldab ldbb ldz).events →
      ints = [toLapackInt w n, toLapackInt w ka, toLapackInt w kb, toLapackInt w ldab, toLapackInt w ldbb, toLapackInt w ldz, -1, -1] ∨
      ∃ lwork, ints = [toLapackInt w n, toLapackInt w ka, toLapackInt w kb, toLapackInt w ldab, toLapackInt w ldbb, toLapackInt w ldz,
        lwork, (Q d ⟨[toLapackInt w n, toLapackInt w ka, toLapackInt w kb, toLapackInt w ldab, toLapackInt w ldbb, toLapackInt w ldz, -1, -1], []⟩).2.iwork] := by
  intro h
  simp only [sbgvd] at h
  split_ifs at h <;> simp at h <;> tauto

/-- Claim C12.  For syev, geqp3, ormbr, sytrd_2stage, geqrfp, ungqr, tgsyl and
heevd_2stage, in either configuration, every kernel call the adapter makes passes
as work length either the sentinel -1 (the size query) or the length obtained from
the query, `real(qry_work[0])` converted to `lapack_int`, with no correction.
Likewise `lrwork` and `liwork` of heevd_2stage and `liwork` of sbgvd are passed as
the query reported them. -/
theorem query_length_passed_unmodified {D : Type} (w : IndexWidth) (K : Kernel D)
    (Q : QueryKernel D) (QO : Op → QueryKernel D) (d : D) (trans : Op)
    (ijob m n k lda ldb ldc ldd lde ldf lhous2 ka kb ldab ldbb ldz : Int) (jpvt : List Int) :
    (∀ ints idx, Event.call ints idx ∈ (syev w K d n lda).events →
      ints = [toLapackInt w n, toLapackInt w lda, -1] ∨
      ints = [toLapackInt w n, toLapackInt w lda,
        probeToLapackInt w (K d ⟨[toLapackInt w n, toLapackInt w lda, -1], []⟩).2.probe]) ∧
    (∀ ints idx, Event.call ints idx ∈ (geqp3 w K d m n lda jpvt).events →
      ints = [toLapackInt w m, toLapackInt w n, toLapackInt w lda, -1] ∨
      ints = [toLapackInt w m, toLapackInt w n, toLapackInt w lda,
        probeToLapackInt w (K d ⟨[toLapackInt w m, toLapackInt w n, toLapackInt w lda, -1], if w = .narrow then copyIn .narrow jpvt n else jpvt⟩).2.probe]) ∧
    (∀ ints idx, Event.call ints idx ∈ (ormbr w QO d trans m n k lda ldc).events →
      ints = [toLapackInt w m, toLapackInt w n, toLapackInt w k, toLapackInt w lda, toLapackInt w ldc, -1] ∨
      ints = [toLapackInt w m, toLapackInt w n, toLapackInt w k, toLapackInt w lda, toLapackInt w ldc,
        probeToLapackInt w (real (QO (if trans = Op.ConjTrans then Op.Trans else trans) d ⟨[toLapackInt w m, toLapackInt w n, toLapackInt w k, toLapackInt w lda, toLapackInt w ldc, -1], []⟩).2.work)]) ∧
    (∀ ints idx, Event.call ints idx ∈ (sytrd_2stage w Q d n lda lhous2).events →
      ints = [toLapackInt w n, toLapackInt w lda, toLapackInt w lhous2, -1] ∨
      ints = [toLapackInt w n, toLapackInt w lda, toLapackInt w lhous2,
        probeToLapackInt w (real (Q d ⟨[toLapackInt w n, toLapackInt w lda, toLapackInt w lhous2, -1], []⟩).2.work)]) ∧
    (∀ ints idx, Event.call ints idx ∈ (geqrfp w Q d m n lda).events →
      ints = [toLapackInt w m, toLapackInt w n, toLapackInt w lda, -1] ∨
      ints = [toLapackInt w m, toLapackInt w n, toLapackInt w lda,
        probeToLapackInt w (real (Q d ⟨[toLapackInt w m, toLapackInt w n, toLapackInt w lda, -1], []⟩).2.work)]) ∧
    (∀ ints idx, Event.call ints idx ∈ (ungqr w Q d m n k lda).events →
      ints = [toLapackInt w m, toLapackInt w n, toLapackInt w k, toLapackInt w lda, -1] ∨
      ints = [toLapackInt w m, toLapackInt w n, toLapackInt w k, toLapackInt w lda,
        probeToLapackInt w (real (Q d ⟨[toLapackInt w m, toLapackInt w n, toLapackInt w k, toLapackInt w lda, -1], []⟩).2.work)]) ∧
    (∀ ints idx, Event.call ints idx ∈ (tgsyl w K d ijob m n lda ldb ldc ldd lde ldf).events →
      ints = [toLapackInt w ijob, toLapackInt w m, toLapackInt w n, toLapackInt w lda, toLapackInt w ldb, toLapackInt w ldc, toLapackInt w ldd, toLapackInt w lde, toLapackInt w ldf, -1] ∨
      ints = [toLapackInt w ijob, toLapackInt w m, toLapackInt w n, toLapackInt w lda, toLapackInt w ldb, toLapackInt w ldc, toLapackInt w ldd, toLapackInt w lde, toLapackInt w ldf,
        probeToLapackInt w (K d ⟨[toLapackInt w ijob, toLapackInt w m, toLapackInt w n, toLapackInt w lda, toLapackInt w ldb, toLapackInt w ldc, toLapackInt w ldd, toLapackInt w lde, toLapackInt w ldf, -1], []⟩).2.probe]) ∧
    (∀ ints idx, Event.call ints idx ∈ (heevd_2stage w Q d n lda).events →
      ints = [toLapackInt w n, toLapackInt w lda, -1, -1, -1] ∨
      ints = [toLapackInt w n, toLapackInt w lda,
        probeToLapackInt w (real (Q d ⟨[toLapackInt w n, toLapackInt w lda, -1, -1, -1], []⟩).2.work), probeToLapackInt w (Q d ⟨[toLapackInt w n, toLapackInt w lda, -1, -1, -1], []⟩).2.rwork, (Q d ⟨[toLapackInt w n, toLapackInt w lda, -1, -1, -1], []⟩).2.iwork]) ∧
    (∀ ints idx, Event.call ints idx ∈ (sbgvd w Q d n ka kb ldab ldbb ldz).events →
      ints = [toLapackInt w n, toLapackInt w ka, toLapackInt w kb, toLapackInt w ldab, toLapackInt w ldbb, toLapackInt w ldz, -1, -1] ∨
      ∃ lwork, ints = [toLapackInt w n, toLapackInt w ka, toLapackInt w kb, toLapackInt w ldab, toLapackInt w ldbb, toLapackInt w ldz,
        lwork, (Q d ⟨[toLapackInt w n, toLapackInt w ka, toLapackInt w kb, toLapackInt w ldab, toLapackInt w ldbb, toLapackInt w ldz, -1, -1], []⟩).2.iwork]) :=
  ⟨syev_call_lengths w K d n lda,
    geqp3_call_lengths w K d m n lda jpvt,
    ormbr_call_lengths w QO d trans m n k lda ldc,
    sytrd_2stage_call_lengths w Q d n lda lhous2,
    geqrfp_call_lengths w Q d m n lda,
    ungqr_call_lengths w Q d m n k lda,
    tgsyl_call_lengths w K d ijob m n lda ldb ldc ldd lde ldf,
    heevd_2stage_call_lengths w Q d n lda,
    sbgvd_call_lengths w Q d n ka kb ldab ldbb ldz⟩

/-- Witness for claim C12: kernels whose size query reports the work length 12 (as
the complex value 12 + 5i where the kind is complex), `lrwork = 9` and `liwork = 4`;
each execute call receives 12, and heevd_2stage receives 12, 9 and 4. -/
theorem query_length_passed_unmodified_witness :
    (([3, 3, 12] : List Int) = ([3, 3, -1] : List Int) ∨
      ([3, 3, 12] : List Int) = ([3, 3, 12] : List Int)) ∧
    (([3, 3, 3, 12] : List Int) = ([3, 3, 3, -1] : List Int) ∨
      ([3, 3, 3, 12] : List Int) = ([3, 3, 3, 12] : List Int)) ∧
    (([3, 3, 3, 3, 3, 12] : List Int) = ([3, 3, 3, 3, 3, -1] : List Int) ∨
      ([3, 3, 3, 3, 3, 12] : List Int) = ([3, 3, 3, 3, 3, 12] : List Int)) ∧
    (([3, 3, 3, 12] : List Int) = ([3, 3, 3, -1] : List Int) ∨
      ([3, 3, 3, 12] : List Int) = ([3, 3, 3, 12] : List Int)) ∧
    (([3, 3, 3, 12] : List Int) = ([3, 3, 3, -1] : List Int) ∨
      ([3, 3, 3, 12] : List Int) = ([3, 3, 3, 12] : List Int)) ∧
    (([3, 3, 3, 3, 12] : List Int) = ([3, 3, 3, 3, -1] : List Int) ∨
      ([3, 3, 3, 3, 12] : List Int) = ([3, 3, 3, 3, 12] : List Int)) ∧
    (([0, 3, 3, 3, 3, 3, 3, 3, 3, 12] : List Int) = ([0, 3, 3, 3, 3, 3, 3, 3, 3, -1] : List Int) ∨
      ([0, 3, 3, 3, 3, 3, 3, 3, 3, 12] : List Int) = ([0, 3, 3, 3, 3, 3, 3, 3, 3, 12] : List Int)) ∧
    (([3, 3, 12, 9, 4] : List Int) = ([3, 3, -1, -1, -1] : List Int) ∨
      ([3, 3, 12, 9, 4] : List Int) = ([3, 3, 12, 9, 4] : List Int)) ∧
    (([3, 1, 1, 2, 2, 3, 12, 4] : List Int) = ([3, 1, 1, 2, 2, 3, -1, -1] : List Int) ∨
      ∃ lwork, ([3, 1, 1, 2, 2, 3, 12, 4] : List Int) = [3, 1, 1, 2, 2, 3, lwork, 4]) :=
  have h := query_length_passed_unmodified .narrow (sampleKernel 0 0 12 id)
    (queryKernel 0 (.complex 12 5) 9 4) (fun _ => queryKernel 0 (.complex 12 5) 9 4) ()
    Op.ConjTrans 0 3 3 3 3 3 3 3 3 3 3 1 1 2 2 3 [1, 2, 3]
  ⟨h.1 [3, 3, 12] [] (by decide),
    h.2.1 [3, 3, 3, 12] [1, 2, 3] (by decide),
    h.2.2.1 [3, 3, 3, 3, 3, 12] [] (by decide),
    h.2.2.2.1 [3, 3, 3, 12] [] (by decide),
    h.2.2.2.2.1 [3, 3, 3, 12] [] (by decide),
    h.2.2.2.2.2.1 [3, 3, 3, 3, 12] [] (by decide),
    h.2.2.2.2.2.2.1 [0, 3, 3, 3, 3, 3, 3, 3, 3, 12] [] (by decide),
    h.2.2.2.2.2.2.2.1 [3, 3, 12, 9, 4] [] (by decide),
    h.2.2.2.2.2.2.2.2 [3, 1, 1, 2, 2, 3, 12, 4] [] (by decide)⟩

/-! ## The two-call protocol -/

/-- Claim C13.  For syev, geqp3, sbgvd, heevd_2stage and tgsyl, in either
configuration, with dimensions that pass the overflow check and `n ≥ 0`: when the
kernel reports a negative status on the size query (the call whose last integer is
the sentinel -1), the adapter raises `Error()`, the trace holds exactly one kernel
call and no allocation of a scratch vector. -/
theorem failed_query_raises_immediately {D : Type} (w : IndexWidth) (K : Kernel D)
    (Q : QueryKernel D) (d : D)
    (ijob m n lda ldb ldc ldd lde ldf ka kb ldab ldbb ldz : Int) (jpvt : List Int)
    (hg : checkOverflow w [ijob, m, n, lda, ldb, ldc, ldd, lde, ldf, ka, kb, ldab, ldbb, ldz]
      = false)
    (hn : 0 ≤ n)
    (hK : ∀ a, a.ints.getLast? = some (-1) → (K d a).2.info < 0)
    (hQ : ∀ a, a.ints.getLast? = some (-1) → (Q d a).2.info < 0) :
    ((syev w K d n lda).result = .error .illegal ∧
      (syev w K d n lda).events.countP Event.isCall = 1 ∧
      (syev w K d n lda).events.countP Event.isAlloc = 0) ∧
    ((geqp3 w K d m n lda jpvt).result = .error .illegal ∧
      (geqp3 w K d m n lda jpvt).events.countP Event.isCall = 1 ∧
      (geqp3 w K d m n lda jpvt).events.countP Event.isAlloc = 0) ∧
    ((sbgvd w Q d n ka kb ldab ldbb ldz).result = .error .illegal ∧
      (sbgvd w Q d n ka kb ldab ldbb ldz).events.countP Event.isCall = 1 ∧
      (sbgvd w Q d n ka kb ldab ldbb ldz).events.countP Event.isAlloc = 0) ∧
    ((heevd_2stage w Q d n lda).result = .error .illegal ∧
      (heevd_2stage w Q d n lda).events.countP Event.isCall = 1 ∧
      (heevd_2stage w Q d n lda).events.countP Event.isAlloc = 0) ∧
    ((tgsyl w K d ijob m n lda ldb ldc ldd lde ldf).result = .error .illegal ∧
      (tgsyl w K d ijob m n lda ldb ldc ldd lde ldf).events.countP Event.isCall = 1 ∧
      (tgsyl w K d ijob m n lda ldb ldc ldd lde ldf).events.countP Event.isAlloc = 0) := by
  have g1 : checkOverflow w [n, lda] = false := checkOverflow_sublist hg (by simp)
  have g2 : checkOverflow w [m, n, lda] = false := checkOverflow_sublist hg (by simp)
  have g3 : checkOverflow w [n, ka, kb, ldab, ldbb, ldz] = false :=
    checkOverflow_sublist hg (by simp)
  have g4 : checkOverflow w [ijob, m, n, lda, ldb, ldc, ldd, lde, ldf] = false :=
    checkOverflow_sublist hg (by simp)
  have hnn : ¬ n < 0 := not_lt.mpr hn
  have k1 := hK ⟨[toLapackInt w n, toLapackInt w lda, -1], []⟩ rfl
  have k3 := hQ ⟨[toLapackInt w n, toLapackInt w ka, toLapackInt w kb, toLapackInt w ldab,
    toLapackInt w ldbb, toLapackInt w ldz] ++ [-1, -1], []⟩ (by simp)
  have k4 := hQ ⟨[toLapackInt w n, toLapackInt w lda, -1, -1, -1], []⟩ rfl
  have k5 := hK ⟨[toLapackInt w ijob, toLapackInt w m, toLapackInt w n, toLapackInt w lda,
    toLapackInt w ldb, toLapackInt w ldc, toLapackInt w ldd, toLapackInt w lde,
    toLapackInt w ldf] ++ [-1], []⟩ (by simp)
  simp only [List.cons_append, List.nil_append] at k3 k5
  refine ⟨?_, ?_, ?_, ?_, ?_⟩
  · simp [syev, g1, k1, Event.isCall, Event.isAlloc]
  · cases w
    · have k2 := hK ⟨[toLapackInt .narrow m, toLapackInt .narrow n, toLapackInt .narrow lda, -1],
        copyIn .narrow jpvt n⟩ rfl
      simp [geqp3, g2, hnn, k2, Event.isCall, Event.isAlloc]
    · have k2 := hK ⟨[toLapackInt .wide m, toLapackInt .wide n, toLapackInt .wide lda, -1],
        jpvt⟩ rfl
      simp [geqp3, g2, k2, Event.isCall, Event.isAlloc]
  · simp [sbgvd, g3, k3, Event.isCall, Event.isAlloc]
  · simp [heevd_2stage, g1, k4, Event.isCall, Event.isAlloc]
  · simp [tgsyl, g4, k5, Event.isCall, Event.isAlloc]

/-- Witness for claim C13: kernels that report -3 on every call; syev and
heevd_2stage raise after the single query call. -/
theorem failed_query_raises_immediately_witness :
    (syev .narrow (statusKernel (-3)) () 4 4).events = [Event.call [4, 4, -1] []] ∧
    (heevd_2stage .narrow (queryKernel (-3) (.complex 0 0) 0 0) () 4 4).events =
      [Event.call [4, 4, -1, -1, -1] []] ∧
    (syev .narrow (statusKernel (-3)) () 4 4).events.countP Event.isCall = 1 ∧
    (heevd_2stage .narrow (queryKernel (-3) (.complex 0 0) 0 0) () 4 4).events.countP
      Event.isAlloc = 0 :=
  have h := failed_query_raises_immediately .narrow (statusKernel (-3))
    (queryKernel (-3) (.complex 0 0) 0 0) () 0 4 4 4 4 4 4 4 4 1 1 2 2 4 [1, 2, 3, 4]
    (by decide) (by decide) (fun _ _ => (by decide : (-3 : Int) < 0))
    (fun _ _ => (by decide : (-3 : Int) < 0))
  ⟨by decide, by decide, h.1.2.1, h.2.2.2.1.2.2⟩

theorem syev_trace {D : Type} (w : IndexWidth) (K : Kernel D) (d : D) (n lda : Int) :
    IsQueryTrace [toLapackInt w n, toLapackInt w lda] 1 (syev w K d n lda).events := by
  simp only [syev]
  split_ifs <;>
    first
    | exact Or.inl rfl
    | (refine Or.inr ⟨[], _, [], ?_, ?_, Or.inl rfl⟩ <;> simp)
    | (refine Or.inr ⟨[], _, [_], ?_, ?_, Or.inr ⟨rfl, _, rfl⟩⟩ <;> simp)

theorem geqp3_trace {D : Type} (w : IndexWidth) (K : Kernel D) (d : D) (m n lda : Int)
    (jpvt : List Int) :
    IsQueryTrace [toLapackInt w m, toLapackInt w n, toLapackInt w lda] 1
      (geqp3 w K d m n lda jpvt).events := by
  cases w <;> simp only [geqp3] <;> split_ifs <;>
    first
    | exact Or.inl rfl
    | (refine Or.inr ⟨[], _, [], ?_, ?_, Or.inl rfl⟩ <;> simp)
    | (refine Or.inr ⟨[], _, [_], ?_, ?_, Or.inr ⟨rfl, _, rfl⟩⟩ <;> simp)
    | (refine Or.inr ⟨[Event.readIndex n], _, [], ?_, ?_, Or.inl rfl⟩ <;>
        simp [Event.isCall, Event.isAlloc])
    | (refine Or.inr ⟨[Event.readIndex n], _, [_], ?_, ?_, Or.inr ⟨rfl, _, rfl⟩⟩ <;>
        simp [Event.isCall, Event.isAlloc])

theorem sbgvd_trace {D : Type} (w : IndexWidth) (Q : QueryKernel D) (d : D)
    (n ka kb ldab ldbb ldz : Int) :
    IsQueryTrace [toLapackInt w n, toLapackInt w ka, toLapackInt w kb, toLapackInt w ldab,
      toLapackInt w ldbb, toLapackInt w ldz] 2 (sbgvd w Q d n ka kb ldab ldbb ldz).events := by
  simp only [sbgvd]
  split_ifs <;>
    first
    | exact Or.inl rfl
    | (refine Or.inr ⟨[], _, [], ?_, ?_, Or.inl rfl⟩ <;> simp)
    | (refine Or.inr ⟨[], _, [_], ?_, ?_, Or.inl rfl⟩ <;> simp)
    | (refine Or.inr ⟨[], _, [_, _], ?_, ?_, Or.inr ⟨rfl, _, rfl⟩⟩ <;> simp)

theorem heevd_2stage_trace {D : Type} (w : IndexWidth) (Q : QueryKernel D) (d : D)
    (n lda : Int) :
    IsQueryTrace [toLapackInt w n, toLapackInt w lda] 3 (heevd_2stage w Q d n lda).events := by
  simp only [heevd_2stage]
  split_ifs <;>
    first
    | exact Or.inl rfl
    | (refine Or.inr ⟨[], _, [], ?_, ?_, Or.inl rfl⟩ <;> simp)
    | (refine Or.inr ⟨[], _, [_], ?_, ?_, Or.inl rfl⟩ <;> simp)
    | (refine Or.inr ⟨[], _, [_, _], ?_, ?_, Or.inl rfl⟩ <;> simp)
    | (refine Or.inr ⟨[], _, [_, _, _], ?_, ?_, Or.inr ⟨rfl, _, rfl⟩⟩ <;> simp)

theorem ormbr_trace {D : Type} (w : IndexWidth) (QO : Op → QueryKernel D) (d : D) (trans : Op)
    (m n k lda ldc : Int) :
    IsQueryTrace [toLapackInt w m, toLapackInt w n, toLapackInt w k, toLapackInt w lda,
      toLapackInt w ldc] 1 (ormbr w QO d trans m n k lda ldc).events := by
  simp only [ormbr]
  split_ifs <;>
    first
    | exact Or.inl rfl
    | (refine Or.inr ⟨[], _, [], ?_, ?_, Or.inl rfl⟩ <;> simp)
    | (refine Or.inr ⟨[], _, [_], ?_, ?_, Or.inr ⟨rfl, _, rfl⟩⟩ <;> simp)

theorem sytrd_2stage_trace {D : Type} (w : IndexWidth) (Q : QueryKernel D) (d : D)
    (n lda lhous2 : Int) :
    IsQueryTrace [toLapackInt w n, toLapackInt w lda, toLapackInt w lhous2] 1
      (sytrd_2stage w Q d n lda lhous2).events := by
  simp only [sytrd_2stage]
  split_ifs <;>
    first
    | exact Or.inl rfl
    | (refine Or.inr ⟨[], _, [], ?_, ?_, Or.inl rfl⟩ <;> simp)
    | (refine Or.inr ⟨[], _, [_], ?_, ?_, Or.inr ⟨rfl, _, rfl⟩⟩ <;> simp)

theorem geqrfp_trace {D : Type} (w : IndexWidth) (Q : QueryKernel D) (d : D) (m n lda : Int) :
    IsQueryTrace [toLapackInt w m, toLapackInt w n, toLapackInt w lda] 1
      (geqrfp w Q d m n lda).events := by
  simp only [geqrfp]
  split_ifs <;>
    first
    | exact Or.inl rfl
    | (refine Or.inr ⟨[], _, [], ?_, ?_, Or.inl rfl⟩ <;> simp)
    | (refine Or.inr ⟨[], _, [_], ?_, ?_, Or.inr ⟨rfl, _, rfl⟩⟩ <;> simp)

theorem ungqr_trace {D : Type} (w : IndexWidth) (Q : QueryKernel D) (d : D) (m n k lda : Int) :
    IsQueryTrace [toLapackInt w m, toLapackInt w n, toLapackInt w k, toLapackInt w lda] 1
      (ungqr w Q d m n k lda).events := by
  simp only [ungqr]
  split_ifs <;>
    first
    | exact Or.inl rfl
    | (refine Or.inr ⟨[], _, [], ?_, ?_, Or.inl rfl⟩ <;> simp)
    | (refine Or.inr ⟨[], _, [_], ?_, ?_, Or.inr ⟨rfl, _, rfl⟩⟩ <;> simp)

/-- Claim C14.  For syev, geqp3, sbgvd and heevd_2stage (and ormbr, sytrd_2stage,
geqrfp, ungqr), in either configuration and for every input and kernel: the first
kernel call passes the sentinel -1 in every queried workspace-length position (one
in syev and geqp3, two in sbgvd, three in heevd_2stage), and when a second call is
made it passes, for each workspace, the length with which that scratch vector was
allocated just before. -/
theorem query_sentinel_and_advertised_lengths {D : Type} (w : IndexWidth) (K : Kernel D)
    (Q : QueryKernel D) (QO : Op → QueryKernel D) (d : D) (trans : Op)
    (m n k lda ldc lhous2 ka kb ldab ldbb ldz : Int) (jpvt : List Int) :
    IsQueryTrace [toLapackInt w n, toLapackInt w lda] 1 (syev w K d n lda).events ∧
    IsQueryTrace [toLapackInt w m, toLapackInt w n, toLapackInt w lda] 1
      (geqp3 w K d m n lda jpvt).events ∧
    IsQueryTrace [toLapackInt w n, toLapackInt w ka, toLapackInt w kb, toLapackInt w ldab,
      toLapackInt w ldbb, toLapackInt w ldz] 2 (sbgvd w Q d n ka kb ldab ldbb ldz).events ∧
    IsQueryTrace [toLapackInt w n, toLapackInt w lda] 3 (heevd_2stage w Q d n lda).events ∧
    IsQueryTrace [toLapackInt w m, toLapackInt w n, toLapackInt w k, toLapackInt w lda,
      toLapackInt w ldc] 1 (ormbr w QO d trans m n k lda ldc).events ∧
    IsQueryTrace [toLapackInt w n, toLapackInt w lda, toLapackInt w lhous2] 1
      (sytrd_2stage w Q d n lda lhous2).events ∧
    IsQueryTrace [toLapackInt w m, toLapackInt w n, toLapackInt w lda] 1
      (geqrfp w Q d m n lda).events ∧
    IsQueryTrace [toLapackInt w m, toLapackInt w n, toLapackInt w k, toLapackInt w lda] 1
      (ungqr w Q d m n k lda).events :=
  ⟨syev_trace w K d n lda, geqp3_trace w K d m n lda jpvt,
    sbgvd_trace w Q d n ka kb ldab ldbb ldz, heevd_2stage_trace w Q d n lda,
    ormbr_trace w QO d trans m n k lda ldc, sytrd_2stage_trace w Q d n lda lhous2,
    geqrfp_trace w Q d m n lda, ungqr_trace w Q d m n k lda⟩

/-! ## Probe extraction -/

theorem lapackIntMin_neg (w : IndexWidth) : lapackIntMin w < 0 := by
  cases w <;> decide

theorem probeToLapackInt_of_isLapackInt {w : IndexWidth} {q : Rat}
    (h : IsLapackInt w (truncTowardZero q)) : probeToLapackInt w q = truncTowardZero q := by
  unfold truncTowardZero at h ⊢
  simp only [probeToLapackInt, tdiv_num_den_eq, h, if_true]

theorem probeToLapackInt_of_not_neg {w : IndexWidth} {q : Rat}
    (h : ¬ probeToLapackInt w q < 0) : probeToLapackInt w q = truncTowardZero q := by
  by_cases hr : IsLapackInt w (truncTowardZero q)
  · exact probeToLapackInt_of_isLapackInt hr
  · exfalso
    apply h
    unfold truncTowardZero at hr
    simp only [probeToLapackInt, tdiv_num_den_eq, hr, if_false]
    exact lapackIntMin_neg w

theorem syev_lengths_truncated {D : Type} (w : IndexWidth) (K : Kernel D) (d : D) (n lda : Int) (s : Int)
    (hr : (syev w K d n lda).result = .ok s) :
    (syev w K d n lda).events
      = [Event.call [toLapackInt w n, toLapackInt w lda, -1] [],
        Event.alloc (truncTowardZero (K d ⟨[toLapackInt w n, toLapackInt w lda, -1], []⟩).2.probe),
        Event.call [toLapackInt w n, toLapackInt w lda, (truncTowardZero (K d ⟨[toLapackInt w n, toLapackInt w lda, -1], []⟩).2.probe)] []] := by
  have key : (syev w K d n lda).events
      = [Event.call [toLapackInt w n, toLapackInt w lda, -1] [],
        Event.alloc (probeToLapackInt w (K d ⟨[toLapackInt w n, toLapackInt w lda, -1], []⟩).2.probe),
        Event.call [toLapackInt w n, toLapackInt w lda, (probeToLapackInt w (K d ⟨[toLapackInt w n, toLapackInt w lda, -1], []⟩).2.probe)] []] ∧
      ¬ probeToLapackInt w (K d ⟨[toLapackInt w n, toLapackInt w lda, -1], []⟩).2.probe < 0 := by
    revert hr
    simp only [syev]
    split_ifs <;> intro hr <;>
      first | (refine ⟨rfl, ?_⟩; assumption) | exact absurd hr (by simp)
  rw [key.1, probeToLapackInt_of_not_neg key.2]

theorem tgsyl_lengths_truncated {D : Type} (w : IndexWidth) (K : Kernel D) (d : D)
    (ijob m n lda ldb ldc ldd lde ldf : Int) (s : Int)
    (hr : (tgsyl w K d ijob m n lda ldb ldc ldd lde ldf).result = .ok s) :
    (tgsyl w K d ijob m n lda ldb ldc ldd lde ldf).events
      = [Event.call [toLapackInt w ijob, toLapackInt w m, toLapackInt w n, toLapackInt w lda, toLapackInt w ldb, toLapackInt w ldc, toLapackInt w ldd, toLapackInt w lde, toLapackInt w ldf, -1] [],
        Event.alloc (truncTowardZero (K d ⟨[toLapackInt w ijob, toLapackInt w m, toLapackInt w n, toLapackInt w lda, toLapackInt w ldb, toLapackInt w ldc, toLapackInt w ldd, toLapackInt w lde, toLapackInt w ldf, -1], []⟩).2.probe),
        Event.alloc (wrap64 (m + n + 6)),
        Event.call [toLapackInt w ijob, toLapackInt w m, toLapackInt w n, toLapackInt w lda, toLapackInt w ldb, toLapackInt w ldc, toLapackInt w ldd, toLapackInt w lde, toLapackInt w ldf, (truncTowardZero (K d ⟨[toLapackInt w ijob, toLapackInt w m, toLapackInt w n, toLapackInt w lda, toLapackInt w ldb, toLapackInt w ldc, toLapackInt w ldd, toLapackInt w lde, toLapackInt w ldf, -1], []⟩).2.probe)] []] := by
  have key : (tgsyl w K d ijob m n lda ldb ldc ldd lde ldf).events
      = [Event.call [toLapackInt w ijob, toLapackInt w m, toLapackInt w n, toLapackInt w lda, toLapackInt w ldb, toLapackInt w ldc, toLapackInt w ldd, toLapackInt w lde, toLapackInt w ldf, -1] [],
        Event.alloc (probeToLapackInt w (K d ⟨[toLapackInt w ijob, toLapackInt w m, toLapackInt w n, toLapackInt w lda, toLapackInt w ldb, toLapackInt w ldc, toLapackInt w ldd, toLapackInt w lde, toLapackInt w ldf, -1], []⟩).2.probe),
        Event.alloc (wrap64 (m + n + 6)),
        Event.call [toLapackInt w ijob, toLapackInt w m, toLapackInt w n, toLapackInt w lda, toLapackInt w ldb, toLapackInt w ldc, toLapackInt w ldd, toLapackInt w lde, toLapackInt w ldf, (probeToLapackInt w (K d ⟨[toLapackInt w ijob, toLapackInt w m, toLapackInt w n, toLapackInt w lda, toLapackInt w ldb, toLapackInt w ldc, toLapackInt w ldd, toLapackInt w lde, toLapackInt w ldf, -1], []⟩).2.probe)] []] ∧
      ¬ probeToLapackInt w (K d ⟨[toLapackInt w ijob, toLapackInt w m, toLapackInt w n, toLapackInt w lda, toLapackInt w ldb, toLapackInt w ldc, toLapackInt w ldd, toLapackInt w lde, toLapackInt w ldf, -1], []⟩).2.probe < 0 := by
    revert hr
    simp only [tgsyl]
    split_ifs <;> intro hr <;>
      first | (refine ⟨rfl, ?_⟩; assumption) | exact absurd hr (by simp)
  rw [key.1, probeToLapackInt_of_not_neg key.2]

theorem geqp3_narrow_lengths_truncated {D : Type} (K : Kernel D) (d : D) (m n lda : Int)
    (jpvt : List Int) (s : Int)
    (hr : (geqp3 .narrow K d m n lda jpvt).result = .ok s) :
    (geqp3 .narrow K d m n lda jpvt).events
      = [Event.readIndex n,
        Event.call [toLapackInt .narrow m, toLapackInt .narrow n, toLapackInt .narrow lda, -1] (copyIn .narrow jpvt n),
        Event.alloc (truncTowardZero (K d ⟨[toLapackInt .narrow m, toLapackInt .narrow n, toLapackInt .narrow lda, -1], (copyIn .narrow jpvt n)⟩).2.probe),
        Event.call [toLapackInt .narrow m, toLapackInt .narrow n, toLapackInt .narrow lda, (truncTowardZero (K d ⟨[toLapackInt .narrow m, toLapackInt .narrow n, toLapackInt .narrow lda, -1], (copyIn .narrow jpvt n)⟩).2.probe)] (K d ⟨[toLapackInt .narrow m, toLapackInt .narrow n, toLapackInt .narrow lda, -1], (copyIn .narrow jpvt n)⟩).2.index] := by
  have key : (geqp3 .narrow K d m n lda jpvt).events
      = [Event.readIndex n,
        Event.call [toLapackInt .narrow m, toLapackInt .narrow n, toLapackInt .narrow lda, -1] (copyIn .narrow jpvt n),
        Event.alloc (probeToLapackInt .narrow (K d ⟨[toLapackInt .narrow m, toLapackInt .narrow n, toLapackInt .narrow lda, -1], (copyIn .narrow jpvt n)⟩).2.probe),
        Event.call [toLapackInt .narrow m, toLapackInt .narrow n, toLapackInt .narrow lda, (probeToLapackInt .narrow (K d ⟨[toLapackInt .narrow m, toLapackInt .narrow n, toLapackInt .narrow lda, -1], (copyIn .narrow jpvt n)⟩).2.probe)] (K d ⟨[toLapackInt .narrow m, toLapackInt .narrow n, toLapackInt .narrow lda, -1], (copyIn .narrow jpvt n)⟩).2.index] ∧
      ¬ probeToLapackInt .narrow (K d ⟨[toLapackInt .narrow m, toLapackInt .narrow n, toLapackInt .narrow lda, -1], (copyIn .narrow jpvt n)⟩).2.probe < 0 := by
    revert hr
    simp only [geqp3]
    split_ifs <;> intro hr <;>
      first | (refine ⟨rfl, ?_⟩; assumption) | exact absurd hr (by simp)
  rw [key.1, probeToLapackInt_of_not_neg key.2]

theorem geqp3_wide_lengths_truncated {D : Type} (K : Kernel D) (d : D) (m n lda : Int)
    (jpvt : List Int) (s : Int)
    (hr : (geqp3 .wide K d m n lda jpvt).result = .ok s) :
    (geqp3 .wide K d m n lda jpvt).events
      = [Event.call [toLapackInt .wide m, toLapackInt .wide n, toLapackInt .wide lda, -1] jpvt,
        Event.alloc (truncTowardZero (K d ⟨[toLapackInt .wide m, toLapackInt .wide n, toLapackInt .wide lda, -1], jpvt⟩).2.probe),
        Event.call [toLapackInt .wide m, toLapackInt .wide n, toLapackInt .wide lda, (truncTowardZero (K d ⟨[toLapackInt .wide m, toLapackInt .wide n, toLapackInt .wide lda, -1], jpvt⟩).2.probe)] (K d ⟨[toLapackInt .wide m, toLapackInt .wide n, toLapackInt .wide lda, -1], jpvt⟩).2.index] := by
  have key : (geqp3 .wide K d m n lda jpvt).events
      = [Event.call [toLapackInt .wide m, toLapackInt .wide n, toLapackInt .wide lda, -1] jpvt,
        Event.alloc (probeToLapackInt .wide (K d ⟨[toLapackInt .wide m, toLapackInt .wide n, toLapackInt .wide lda, -1], jpvt⟩).2.probe),
        Event.call [toLapackInt .wide m, toLapackInt .wide n, toLapackInt .wide lda, (probeToLapackInt .wide (K d ⟨[toLapackInt .wide m, toLapackInt .wide n, toLapackInt .wide lda, -1], jpvt⟩).2.probe)] (K d ⟨[toLapackInt .wide m, toLapackInt .wide n, toLapackInt .wide lda, -1], jpvt⟩).2.index] ∧
      ¬ probeToLapackInt .wide (K d ⟨[toLapackInt .wide m, toLapackInt .wide n, toLapackInt .wide lda, -1], jpvt⟩).2.probe < 0 := by
    revert hr
    simp only [geqp3]
    split_ifs <;> intro hr <;>
      first | (refine ⟨rfl, ?_⟩; assumption) | exact absurd hr (by simp)
  rw [key.1, probeToLapackInt_of_not_neg key.2]

theorem ormbr_lengths_truncated {D : Type} (w : IndexWidth) (QO : Op → QueryKernel D) (d : D)
    (trans : Op) (m n k lda ldc : Int) (s : Int)
    (hr : (ormbr w QO d trans m n k lda ldc).result = .ok s) :
    (ormbr w QO d trans m n k lda ldc).events
      = [Event.call [toLapackInt w m, toLapackInt w n, toLapackInt w k, toLapackInt w lda, toLapackInt w ldc, -1] [],
        Event.alloc (truncTowardZero (real (QO (if trans = Op.ConjTrans then Op.Trans else trans) d ⟨[toLapackInt w m, toLapackInt w n, toLapackInt w k, toLapackInt w lda, toLapackInt w ldc, -1], []⟩).2.work)),
        Event.call [toLapackInt w m, toLapackInt w n, toLapackInt w k, toLapackInt w lda, toLapackInt w ldc, (truncTowardZero (real (QO (if trans = Op.ConjTrans then Op.Trans else trans) d ⟨[toLapackInt w m, toLapackInt w n, toLapackInt w k, toLapackInt w lda, toLapackInt w ldc, -1], []⟩).2.work))] []] := by
  have key : (ormbr w QO d trans m n k lda ldc).events
      = [Event.call [toLapackInt w m, toLapackInt w n, toLapackInt w k, toLapackInt w lda, toLapackInt w ldc, -1] [],
        Event.alloc (probeToLapackInt w (real (QO (if trans = Op.ConjTrans then Op.Trans else trans) d ⟨[toLapackInt w m, toLapackInt w n, toLapackInt w k, toLapackInt w lda, toLapackInt w ldc, -1], []⟩).2.work)),
        Event.call [toLapackInt w m, toLapackInt w n, toLapackInt w k, toLapackInt w lda, toLapackInt w ldc, (probeToLapackInt w (real (QO (if trans = Op.ConjTrans then Op.Trans else trans) d ⟨[toLapackInt w m, toLapackInt w n, toLapackInt w k, toLapackInt w lda, toLapackInt w ldc, -1], []⟩).2.work))] []] ∧
      ¬ probeToLapackInt w (real (QO (if trans = Op.ConjTrans then Op.Trans else trans) d ⟨[toLapackInt w m, toLapackInt w n, toLapackInt w k, toLapackInt w lda, toLapackInt w ldc, -1], []⟩).2.work) < 0 := by
    revert hr
    simp only [ormbr]
    split_ifs <;> intro hr <;>
      first | (refine ⟨rfl, ?_⟩; assumption) | exact absurd hr (by simp)
  rw [key.1, probeToLapackInt_of_not_neg key.2]

theorem sytrd_2stage_lengths_truncated {D : Type} (w : IndexWidth) (Q : QueryKernel D) (d : D)
    (n lda lhous2 : Int) (s : Int)
    (hr : (sytrd_2stage w Q d n lda lhous2).result = .ok s) :
    (sytrd_2stage w Q d n lda lhous2).events
      = [Event.call [toLapackInt w n, toLapackInt w lda, toLapackInt w lhous2, -1] [],
        Event.alloc (truncTowardZero (real (Q d ⟨[toLapackInt w n, toLapackInt w lda, toLapackInt w lhous2, -1], []⟩).2.work)),
        Event.call [toLapackInt w n, toLapackInt w lda, toLapackInt w lhous2, (truncTowardZero (real (Q d ⟨[toLapackInt w n, toLapackInt w lda, toLapackInt w lhous2, -1], []⟩).2.work))] []] := by
  have key : (sytrd_2stage w Q d n lda lhous2).events
      = [Event.call [toLapackInt w n, toLapackInt w lda, toLapackInt w lhous2, -1] [],
        Event.alloc (probeToLapackInt w (real (Q d ⟨[toLapackInt w n, toLapackInt w lda, toLapackInt w lhous2, -1], []⟩).2.work)),
        Event.call [toLapackInt w n, toLapackInt w lda, toLapackInt w lhous2, (probeToLapackInt w (real (Q d ⟨[toLapackInt w n, toLapackInt w lda, toLapackInt w lhous2, -1], []⟩).2.work))] []] ∧
      ¬ probeToLapackInt w (real (Q d ⟨[toLapackInt w n, toLapackInt w lda, toLapackInt w lhous2, -1], []⟩).2.work) < 0 := by
    revert hr
    simp only [sytrd_2stage]
    split_ifs <;> intro hr <;>
      first | (refine ⟨rfl, ?_⟩; assumption) | exact absurd hr (by simp)
  rw [key.1, probeToLapackInt_of_not_neg key.2]

theorem geqrfp_lengths_truncated {D : Type} (w : IndexWidth) (Q : QueryKernel D) (d : D)
    (m n lda : Int) (s : Int)
    (hr : (geqrfp w Q d m n lda).result = .ok s) :
    (geqrfp w Q d m n lda).events
      = [Event.call [toLapackInt w m, toLapackInt w n, toLapackInt w lda, -1] [],
        Event.alloc (truncTowardZero (real (Q d ⟨[toLapackInt w m, toLapackInt w n, toLapackInt w lda, -1], []⟩).2.work)),
        Event.call [toLapackInt w m, toLapackInt w n, toLapackInt w lda, (truncTowardZero (real (Q d ⟨[toLapackInt w m, toLapackInt w n, toLapackInt w lda, -1], []⟩).2.work))] []] := by
  have key : (geqrfp w Q d m n lda).events
      = [Event.call [toLapackInt w m, toLapackInt w n, toLapackInt w lda, -1] [],
        Event.alloc (probeToLapackInt w (real (Q d ⟨[toLapackInt w m, toLapackInt w n, toLapackInt w lda, -1], []⟩).2.work)),
        Event.call [toLapackInt w m, toLapackInt w n, toLapackInt w lda, (probeToLapackInt w (real (Q d ⟨[toLapackInt w m, toLapackInt w n, toLapackInt w lda, -1], []⟩).2.work))] []] ∧
      ¬ probeToLapackInt w (real (Q d ⟨[toLapackInt w m, toLapackInt w n, toLapackInt w lda, -1], []⟩).2.work) < 0 := by
    revert hr
    simp only [geqrfp]
    split_ifs <;> intro hr <;>
      first | (refine ⟨rfl, ?_⟩; assumption) | exact absurd hr (by simp)
  rw [key.1, probeToLapackInt_of_not_neg key.2]

theorem ungqr_lengths_truncated {D : Type} (w : IndexWidth) (Q : QueryKernel D) (d : D)
    (m n k lda : Int) (s : Int)
    (hr : (ungqr w Q d m n k lda).result = .ok s) :
    (ungqr w Q d m n k lda).events
      = [Event.call [toLapackInt w m, toLapackInt w n, toLapackInt w k, toLapackInt w lda, -1] [],
        Event.alloc (truncTowardZero (real (Q d ⟨[toLapackInt w m, toLapackInt w n, toLapackInt w k, toLapackInt w lda, -1], []⟩).2.work)),
        Event.call [toLapackInt w m, toLapackInt w n, toLapackInt w k, toLapackInt w lda, (truncTowardZero (real (Q d ⟨[toLapackInt w m, toLapackInt w n, toLapackInt w k, toLapackInt w lda, -1], []⟩).2.work))] []] := by
  have key : (ungqr w Q d m n k lda).events
      = [Event.call [toLapackInt w m, toLapackInt w n, toLapackInt w k, toLapackInt w lda, -1] [],
        Event.alloc (probeToLapackInt w (real (Q d ⟨[toLapackInt w m, toLapackInt w n, toLapackInt w k, toLapackInt w lda, -1], []⟩).2.work)),
        Event.call [toLapackInt w m, toLapackInt w n, toLapackInt w k, toLapackInt w lda, (probeToLapackInt w (real (Q d ⟨[toLapackInt w m, toLapackInt w n, toLapackInt w k, toLapackInt w lda, -1], []⟩).2.work))] []] ∧
      ¬ probeToLapackInt w (real (Q d ⟨[toLapackInt w m, toLapackInt w n, toLapackInt w k, toLapackInt w lda, -1], []⟩).2.work) < 0 := by
    revert hr
    simp only [ungqr]
    split_ifs <;> intro hr <;>
      first | (refine ⟨rfl, ?_⟩; assumption) | exact absurd hr (by simp)
  rw [key.1, probeToLapackInt_of_not_neg key.2]

theorem tgsyl_complex_lengths_truncated {D : Type} (w : IndexWidth) (Q : QueryKernel D) (d : D)
    (ijob m n lda ldb ldc ldd lde ldf : Int) (s : Int)
    (hr : (tgsyl_complex w Q d ijob m n lda ldb ldc ldd lde ldf).result = .ok s) :
    (tgsyl_complex w Q d ijob m n lda ldb ldc ldd lde ldf).events
      = [Event.call [toLapackInt w ijob, toLapackInt w m, toLapackInt w n, toLapackInt w lda, toLapackInt w ldb, toLapackInt w ldc, toLapackInt w ldd, toLapackInt w lde, toLapackInt w ldf, -1] [],
        Event.alloc (truncTowardZero (real (Q d ⟨[toLapackInt w ijob, toLapackInt w m, toLapackInt w n, toLapackInt w lda, toLapackInt w ldb, toLapackInt w ldc, toLapackInt w ldd, toLapackInt w lde, toLapackInt w ldf, -1], []⟩).2.work)),
        Event.alloc (wrap64 (m + n + 2)),
        Event.call [toLapackInt w ijob, toLapackInt w m, toLapackInt w n, toLapackInt w lda, toLapackInt w ldb, toLapackInt w ldc, toLapackInt w ldd, toLapackInt w lde, toLapackInt w ldf, (truncTowardZero (real (Q d ⟨[toLapackInt w ijob, toLapackInt w m, toLapackInt w n, toLapackInt w lda, toLapackInt w ldb, toLapackInt w ldc, toLapackInt w ldd, toLapackInt w lde, toLapackInt w ldf, -1], []⟩).2.work))] []] := by
  have key : (tgsyl_complex w Q d ijob m n lda ldb ldc ldd lde ldf).events
      = [Event.call [toLapackInt w ijob, toLapackInt w m, toLapackInt w n, toLapackInt w lda, toLapackInt w ldb, toLapackInt w ldc, toLapackInt w ldd, toLapackInt w lde, toLapackInt w ldf, -1] [],
        Event.alloc (probeToLapackInt w (real (Q d ⟨[toLapackInt w ijob, toLapackInt w m, toLapackInt w n, toLapackInt w lda, toLapackInt w ldb, toLapackInt w ldc, toLapackInt w ldd, toLapackInt w lde, toLapackInt w ldf, -1], []⟩).2.work)),
        Event.alloc (wrap64 (m + n + 2)),
        Event.call [toLapackInt w ijob, toLapackInt w m, toLapackInt w n, toLapackInt w lda, toLapackInt w ldb, toLapackInt w ldc, toLapackInt w ldd, toLapackInt w lde, toLapackInt w ldf, (probeToLapackInt w (real (Q d ⟨[toLapackInt w ijob, toLapackInt w m, toLapackInt w n, toLapackInt w lda, toLapackInt w ldb, toLapackInt w ldc, toLapackInt w ldd, toLapackInt w lde, toLapackInt w ldf, -1], []⟩).2.work))] []] ∧
      ¬ probeToLapackInt w (real (Q d ⟨[toLapackInt w ijob, toLapackInt w m, toLapackInt w n, toLapackInt w lda, toLapackInt w ldb, toLapackInt w ldc, toLapackInt w ldd, toLapackInt w lde, toLapackInt w ldf, -1], []⟩).2.work) < 0 := by
    revert hr
    simp only [tgsyl_complex]
    split_ifs <;> intro hr <;>
      first | (refine ⟨rfl, ?_⟩; assumption) | exact absurd hr (by simp)
  rw [key.1, probeToLapackInt_of_not_neg key.2]

theorem geqp3_complex_narrow_lengths_truncated {D : Type} (p : Precision) (Q : QueryKernel D) (d : D)
    (m n lda : Int) (jpvt : List Int) (s : Int)
    (hr : (geqp3_complex .narrow p Q d m n lda jpvt).result = .ok s) :
    (geqp3_complex .narrow p Q d m n lda jpvt).events
      = [Event.readIndex n,
        Event.call [toLapackInt .narrow m, toLapackInt .narrow n, toLapackInt .narrow lda, -1] (copyIn .narrow jpvt n),
        Event.alloc (truncTowardZero (real (Q d ⟨[toLapackInt .narrow m, toLapackInt .narrow n, toLapackInt .narrow lda, -1], (copyIn .narrow jpvt n)⟩).2.work)),
        Event.alloc (wrap64 (2 * n)),
        Event.call [toLapackInt .narrow m, toLapackInt .narrow n, toLapackInt .narrow lda, (truncTowardZero (real (Q d ⟨[toLapackInt .narrow m, toLapackInt .narrow n, toLapackInt .narrow lda, -1], (copyIn .narrow jpvt n)⟩).2.work))] (Q d ⟨[toLapackInt .narrow m, toLapackInt .narrow n, toLapackInt .narrow lda, -1], (copyIn .narrow jpvt n)⟩).2.index] := by
  have key : (geqp3_complex .narrow p Q d m n lda jpvt).events
      = [Event.readIndex n,
        Event.call [toLapackInt .narrow m, toLapackInt .narrow n, toLapackInt .narrow lda, -1] (copyIn .narrow jpvt n),
        Event.alloc (probeToLapackInt .narrow (real (Q d ⟨[toLapackInt .narrow m, toLapackInt .narrow n, toLapackInt .narrow lda, -1], (copyIn .narrow jpvt n)⟩).2.work)),
        Event.alloc (wrap64 (2 * n)),
        Event.call [toLapackInt .narrow m, toLapackInt .narrow n, toLapackInt .narrow lda, (probeToLapackInt .narrow (real (Q d ⟨[toLapackInt .narrow m, toLapackInt .narrow n, toLapackInt .narrow lda, -1], (copyIn .narrow jpvt n)⟩).2.work))] (Q d ⟨[toLapackInt .narrow m, toLapackInt .narrow n, toLapackInt .narrow lda, -1], (copyIn .narrow jpvt n)⟩).2.index] ∧
      ¬ probeToLapackInt .narrow (real (Q d ⟨[toLapackInt .narrow m, toLapackInt .narrow n, toLapackInt .narrow lda, -1], (copyIn .narrow jpvt n)⟩).2.work) < 0 := by
    revert hr
    simp only [geqp3_complex]
    split_ifs <;> intro hr <;>
      first | (refine ⟨rfl, ?_⟩; assumption) | exact absurd hr (by simp)
  rw [key.1, probeToLapackInt_of_not_neg key.2]

theorem geqp3_complex_wide_lengths_truncated {D : Type} (p : Precision) (Q : QueryKernel D) (d : D)
    (m n lda : Int) (jpvt : List Int) (s : Int)
    (hr : (geqp3_complex .wide p Q d m n lda jpvt).result = .ok s) :
    (geqp3_complex .wide p Q d m n lda jpvt).events
      = [Event.call [toLapackInt .wide m, toLapackInt .wide n, toLapackInt .wide lda, -1] jpvt,
        Event.alloc (truncTowardZero (real (Q d ⟨[toLapackInt .wide m, toLapackInt .wide n, toLapackInt .wide lda, -1], jpvt⟩).2.work)),
        Event.alloc (wrap64 (2 * n)),
        Event.call [toLapackInt .wide m, toLapackInt .wide n, toLapackInt .wide lda, (truncTowardZero (real (Q d ⟨[toLapackInt .wide m, toLapackInt .wide n, toLapackInt .wide lda, -1], jpvt⟩).2.work))] (Q d ⟨[toLapackInt .wide m, toLapackInt .wide n, toLapackInt .wide lda, -1], jpvt⟩).2.index] := by
  have key : (geqp3_complex .wide p Q d m n lda jpvt).events
      = [Event.call [toLapackInt .wide m, toLapackInt .wide n, toLapackInt .wide lda, -1] jpvt,
        Event.alloc (probeToLapackInt .wide (real (Q d ⟨[toLapackInt .wide m, toLapackInt .wide n, toLapackInt .wide lda, -1], jpvt⟩).2.work)),
        Event.alloc (wrap64 (2 * n)),
        Event.call [toLapackInt .wide m, toLapackInt .wide n, toLapackInt .wide lda, (probeToLapackInt .wide (real (Q d ⟨[toLapackInt .wide m, toLapackInt .wide n, toLapackInt .wide lda, -1], jpvt⟩).2.work))] (Q d ⟨[toLapackInt .wide m, toLapackInt .wide n, toLapackInt .wide lda, -1], jpvt⟩).2.index] ∧
      ¬ probeToLapackInt .wide (real (Q d ⟨[toLapackInt .wide m, toLapackInt .wide n, toLapackInt .wide lda, -1], jpvt⟩).2.work) < 0 := by
    revert hr
    simp only [geqp3_complex]
    split_ifs <;> intro hr <;>
      first | (refine ⟨rfl, ?_⟩; assumption) | exact absurd hr (by simp)
  rw [key.1, probeToLapackInt_of_not_neg key.2]

theorem heevd_2stage_lengths_truncated {D : Type} (w : IndexWidth) (Q : QueryKernel D) (d : D)
    (n lda : Int) (s : Int)
    (hr : (heevd_2stage w Q d n lda).result = .ok s) :
    let q := Q d ⟨[toLapackInt w n, toLapackInt w lda, -1, -1, -1], []⟩
    (heevd_2stage w Q d n lda).events
      = [Event.call [toLapackInt w n, toLapackInt w lda, -1, -1, -1] [],
        Event.alloc (truncTowardZero (real q.2.work)),
        Event.alloc (truncTowardZero q.2.rwork),
        Event.alloc q.2.iwork,
        Event.call [toLapackInt w n, toLapackInt w lda, truncTowardZero (real q.2.work),
          truncTowardZero q.2.rwork, q.2.iwork] []] := by
  intro q
  have key : (heevd_2stage w Q d n lda).events
      = [Event.call [toLapackInt w n, toLapackInt w lda, -1, -1, -1] [],
        Event.alloc (probeToLapackInt w (real q.2.work)),
        Event.alloc (probeToLapackInt w q.2.rwork),
        Event.alloc q.2.iwork,
        Event.call [toLapackInt w n, toLapackInt w lda, probeToLapackInt w (real q.2.work),
          probeToLapackInt w q.2.rwork, q.2.iwork] []] ∧
      ¬ probeToLapackInt w (real q.2.work) < 0 ∧ ¬ probeToLapackInt w q.2.rwork < 0 := by
    revert hr
    simp only [heevd_2stage]
    split_ifs <;> intro hr <;>
      first | (refine ⟨rfl, ?_, ?_⟩ <;> assumption) | exact absurd hr (by simp)
  rw [key.1, probeToLapackInt_of_not_neg key.2.1, probeToLapackInt_of_not_neg key.2.2]

theorem sbgvd_lengths_truncated {D : Type} (w : IndexWidth) (Q : QueryKernel D) (d : D)
    (n ka kb ldab ldbb ldz : Int) (s : Int)
    (hr : (sbgvd w Q d n ka kb ldab ldbb ldz).result = .ok s) :
    let dims := [toLapackInt w n, toLapackInt w ka, toLapackInt w kb, toLapackInt w ldab,
      toLapackInt w ldbb, toLapackInt w ldz]
    let q := Q d ⟨dims ++ [-1, -1], []⟩
    IsLapackInt w (truncTowardZero (real q.2.work)) →
    (sbgvd w Q d n ka kb ldab ldbb ldz).events
      = [Event.call (dims ++ [-1, -1]) [],
        Event.alloc (max (truncTowardZero (real q.2.work)) (toLapackInt w (3 * toLapackInt w n))),
        Event.alloc q.2.iwork,
        Event.call (dims ++ [max (truncTowardZero (real q.2.work))
          (toLapackInt w (3 * toLapackInt w n)), q.2.iwork]) []] := by
  intro dims q hq
  rw [← probeToLapackInt_of_isLapackInt hq]
  revert hr
  simp only [sbgvd]
  split_ifs <;> intro hr <;> first | rfl | exact absurd hr (by simp)

/-- Claim C15.  In every query-based adapter, on every successful call, each
workspace length taken from a placeholder is the real component of what the kernel
left there, truncated toward zero: for the real-kind adapters syev, tgsyl, geqp3,
ormbr, sytrd_2stage and geqrfp the allocation and the execute call use the
truncation of the probe value itself, for the complex-kind adapters geqp3, ungqr,
heevd_2stage and tgsyl that of its real component (and of the real placeholder
`rwork` in heevd_2stage), and sbgvd takes the larger of that truncation and `3*n`.
`real` is the value itself for a real scalar and the real component for a complex
one; the conversion of the code is the truncation toward zero whenever the
truncated value fits in a `lapack_int`.  For the complex-kind adapters, replacing
what the kernel leaves in the typed placeholder by any scalar with the same real
component changes nothing in the outcome: the imaginary component never influences
a length. -/
theorem probe_real_part_truncated {D : Type} (w : IndexWidth) (p : Precision)
    (K : Kernel D) (Q : QueryKernel D) (QO : Op → QueryKernel D) (d : D) (f : Scalar → Scalar)
    (trans : Op) (ijob m n k ka kb lda ldb ldc ldd lde ldf ldab ldbb ldz lhous2 : Int)
    (jpvt : List Int)
    (hf : ∀ z, real (f z) = real z) :
    (∀ x, real (.real x) = x) ∧
    (∀ re im, real (.complex re im) = re) ∧
    (∀ q : Rat, IsLapackInt w (truncTowardZero q) → probeToLapackInt w q = truncTowardZero q) ∧
    (let dims := [toLapackInt w n, toLapackInt w lda]
     let t := truncTowardZero (K d ⟨dims ++ [-1], []⟩).2.probe
     ∀ s, (syev w K d n lda).result = .ok s →
      (syev w K d n lda).events
        = [Event.call (dims ++ [-1]) [], Event.alloc t, Event.call (dims ++ [t]) []]) ∧
    (let dims := [toLapackInt w ijob, toLapackInt w m, toLapackInt w n, toLapackInt w lda,
       toLapackInt w ldb, toLapackInt w ldc, toLapackInt w ldd, toLapackInt w lde,
       toLapackInt w ldf]
     let t := truncTowardZero (K d ⟨dims ++ [-1], []⟩).2.probe
     ∀ s, (tgsyl w K d ijob m n lda ldb ldc ldd lde ldf).result = .ok s →
      (tgsyl w K d ijob m n lda ldb ldc ldd lde ldf).events
        = [Event.call (dims ++ [-1]) [], Event.alloc t, Event.alloc (wrap64 (m + n + 6)),
            Event.call (dims ++ [t]) []]) ∧
    (let dims := [toLapackInt .narrow m, toLapackInt .narrow n, toLapackInt .narrow lda]
     let q := K d ⟨dims ++ [-1], copyIn .narrow jpvt n⟩
     let t := truncTowardZero q.2.probe
     ∀ s, (geqp3 .narrow K d m n lda jpvt).result = .ok s →
      (geqp3 .narrow K d m n lda jpvt).events
        = [Event.readIndex n, Event.call (dims ++ [-1]) (copyIn .narrow jpvt n), Event.alloc t,
            Event.call (dims ++ [t]) q.2.index]) ∧
    (let dims := [toLapackInt .wide m, toLapackInt .wide n, toLapackInt .wide lda]
     let q := K d ⟨dims ++ [-1], jpvt⟩
     let t := truncTowardZero q.2.probe
     ∀ s, (geqp3 .wide K d m n lda jpvt).result = .ok s →
      (geqp3 .wide K d m n lda jpvt).events
        = [Event.call (dims ++ [-1]) jpvt, Event.alloc t, Event.call (dims ++ [t]) q.2.index]) ∧
    (let dims := [toLapackInt w m, toLapackInt w n, toLapackInt w k, toLapackInt w lda,
       toLapackInt w ldc]
     let t := truncTowardZero (real
       (QO (if trans = Op.ConjTrans then Op.Trans else trans) d ⟨dims ++ [-1], []⟩).2.work)
     ∀ s, (ormbr w QO d trans m n k lda ldc).result = .ok s →
      (ormbr w QO d trans m n k lda ldc).events
        = [Event.call (dims ++ [-1]) [], Event.alloc t, Event.call (dims ++ [t]) []]) ∧
    (let dims := [toLapackInt w n, toLapackInt w lda, toLapackInt w lhous2]
     let t := truncTowardZero (real (Q d ⟨dims ++ [-1], []⟩).2.work)
     ∀ s, (sytrd_2stage w Q d n lda lhous2).result = .ok s →
      (sytrd_2stage w Q d n lda lhous2).events
        = [Event.call (dims ++ [-1]) [], Event.alloc t, Event.call (dims ++ [t]) []]) ∧
    (let dims := [toLapackInt w m, toLapackInt w n, toLapackInt w lda]
     let t := truncTowardZero (real (Q d ⟨dims ++ [-1], []⟩).2.work)
     ∀ s, (geqrfp w Q d m n lda).result = .ok s →
      (geqrfp w Q d m n lda).events
        = [Event.call (dims ++ [-1]) [], Event.alloc t, Event.call (dims ++ [t]) []]) ∧
    (let dims := [toLapackInt w n, toLapackInt w ka, toLapackInt w kb, toLapackInt w ldab,
       toLapackInt w ldbb, toLapackInt w ldz]
     let q := Q d ⟨dims ++ [-1, -1], []⟩
     let t := max (truncTowardZero (real q.2.work)) (toLapackInt w (3 * toLapackInt w n))
     ∀ s, (sbgvd w Q d n ka kb ldab ldbb ldz).result = .ok s →
      IsLapackInt w (truncTowardZero (real q.2.work)) →
      (sbgvd w Q d n ka kb ldab ldbb ldz).events
        = [Event.call (dims ++ [-1, -1]) [], Event.alloc t, Event.alloc q.2.iwork,
            Event.call (dims ++ [t, q.2.iwork]) []]) ∧
    (let dims := [toLapackInt w m, toLapackInt w n, toLapackInt w k, toLapackInt w lda]
     let t := truncTowardZero (real (Q d ⟨dims ++ [-1], []⟩).2.work)
     ∀ s, (ungqr w Q d m n k lda).result = .ok s →
      (ungqr w Q d m n k lda).events
        = [Event.call (dims ++ [-1]) [], Event.alloc t, Event.call (dims ++ [t]) []]) ∧
    (let dims := [toLapackInt w n, toLapackInt w lda]
     let q := Q d ⟨dims ++ [-1, -1, -1], []⟩
     let t := truncTowardZero (real q.2.work)
     let tr := truncTowardZero q.2.rwork
     ∀ s, (heevd_2stage w Q d n lda).result = .ok s →
      (heevd_2stage w Q d n lda).events
        = [Event.call (dims ++ [-1, -1, -1]) [], Event.alloc t, Event.alloc tr,
            Event.alloc q.2.iwork, Event.call (dims ++ [t, tr, q.2.iwork]) []]) ∧
    (let dims := [toLapackInt w ijob, toLapackInt w m, toLapackInt w n, toLapackInt w lda,
       toLapackInt w ldb, toLapackInt w ldc, toLapackInt w ldd, toLapackInt w lde,
       toLapackInt w ldf]
     let t := truncTowardZero (real (Q d ⟨dims ++ [-1], []⟩).2.work)
     ∀ s, (tgsyl_complex w Q d ijob m n lda ldb ldc ldd lde ldf).result = .ok s →
      (tgsyl_complex w Q d ijob m n lda ldb ldc ldd lde ldf).events
        = [Event.call (dims ++ [-1]) [], Event.alloc t, Event.alloc (wrap64 (m + n + 2)),
            Event.call (dims ++ [t]) []]) ∧
    (let dims := [toLapackInt .narrow m, toLapackInt .narrow n, toLapackInt .narrow lda]
     let q := Q d ⟨dims ++ [-1], copyIn .narrow jpvt n⟩
     let t := truncTowardZero (real q.2.work)
     ∀ s, (geqp3_complex .narrow p Q d m n lda jpvt).result = .ok s →
      (geqp3_complex .narrow p Q d m n lda jpvt).events
        = [Event.readIndex n, Event.call (dims ++ [-1]) (copyIn .narrow jpvt n), Event.alloc t,
            Event.alloc (wrap64 (2 * n)), Event.call (dims ++ [t]) q.2.index]) ∧
    (let dims := [toLapackInt .wide m, toLapackInt .wide n, toLapackInt .wide lda]
     let q := Q d ⟨dims ++ [-1], jpvt⟩
     let t := truncTowardZero (real q.2.work)
     ∀ s, (geqp3_complex .wide p Q d m n lda jpvt).result = .ok s →
      (geqp3_complex .wide p Q d m n lda jpvt).events
        = [Event.call (dims ++ [-1]) jpvt, Event.alloc t, Event.alloc (wrap64 (2 * n)),
            Event.call (dims ++ [t]) q.2.index]) ∧
    geqp3_complex w p (mapWork f Q) d m n lda jpvt = geqp3_complex w p Q d m n lda jpvt ∧
    ungqr w (mapWork f Q) d m n k lda = ungqr w Q d m n k lda ∧
    heevd_2stage w (mapWork f Q) d n lda = heevd_2stage w Q d n lda ∧
    tgsyl_complex w (mapWork f Q) d ijob m n lda ldb ldc ldd lde ldf
      = tgsyl_complex w Q d ijob m n lda ldb ldc ldd lde ldf :=
  ⟨fun _ => rfl, fun _ _ => rfl, fun _ h => probeToLapackInt_of_isLapackInt h,
    fun s hr => syev_lengths_truncated w K d n lda s hr,
    fun s hr => tgsyl_lengths_truncated w K d ijob m n lda ldb ldc ldd lde ldf s hr,
    fun s hr => geqp3_narrow_lengths_truncated K d m n lda jpvt s hr,
    fun s hr => geqp3_wide_lengths_truncated K d m n lda jpvt s hr,
    fun s hr => ormbr_lengths_truncated w QO d trans m n k lda ldc s hr,
    fun s hr => sytrd_2stage_lengths_truncated w Q d n lda lhous2 s hr,
    fun s hr => geqrfp_lengths_truncated w Q d m n lda s hr,
    fun s hr hq => sbgvd_lengths_truncated w Q d n ka kb ldab ldbb ldz s hr hq,
    fun s hr => ungqr_lengths_truncated w Q d m n k lda s hr,
    fun s hr => heevd_2stage_lengths_truncated w Q d n lda s hr,
    fun s hr => tgsyl_complex_lengths_truncated w Q d ijob m n lda ldb ldc ldd lde ldf s hr,
    fun s hr => geqp3_complex_narrow_lengths_truncated p Q d m n lda jpvt s hr,
    fun s hr => geqp3_complex_wide_lengths_truncated p Q d m n lda jpvt s hr,
    by cases w <;> simp only [geqp3_complex, mapWork, hf],
    by simp only [ungqr, mapWork, hf],
    by simp only [heevd_2stage, mapWork, hf],
    by simp only [tgsyl_complex, mapWork, hf]⟩

/-- Witness for claim C15: the real probe 12.75 gives syev the work length 12, the
complex probe 12.75 - 3i gives ungqr the work length 12, and swapping the
imaginary component for 99 leaves heevd_2stage with the same outcome. -/
theorem probe_real_part_truncated_witness :
    truncTowardZero probeA = 12 ∧ truncTowardZero probeB = -2 ∧
    (syev .narrow (sampleKernel 0 0 probeA id) () 4 4).events
      = [Event.call [4, 4, -1] [], Event.alloc (truncTowardZero probeA),
          Event.call [4, 4, truncTowardZero probeA] []] ∧
    (ungqr .narrow (queryKernel 0 (.complex probeA (-3)) 9 4) () 4 4 4 4).events
      = [Event.call [4, 4, 4, 4, -1] [], Event.alloc (truncTowardZero probeA),
          Event.call [4, 4, 4, 4, truncTowardZero probeA] []] ∧
    heevd_2stage .narrow
        (mapWork (fun z => .complex (real z) 99) (queryKernel 0 (.complex probeA (-3)) 9 4))
        () 4 4
      = heevd_2stage .narrow (queryKernel 0 (.complex probeA (-3)) 9 4) () 4 4 :=
  have h := probe_real_part_truncated .narrow .single (sampleKernel 0 0 probeA id)
    (queryKernel 0 (.complex probeA (-3)) 9 4)
    (fun _ => queryKernel 0 (.complex probeA (-3)) 9 4) ()
    (fun z => .complex (real z) 99) Op.NoTrans 0 4 4 4 1 1 4 4 4 4 4 4 4 4 4 4 [1, 2, 3, 4]
    (fun _ => rfl)
  ⟨by decide, by decide, h.2.2.2.1 0 (by decide), h.2.2.2.2.2.2.2.2.2.2.2.1 0 (by decide),
    h.2.2.2.2.2.2.2.2.2.2.2.2.2.2.2.2.2.2.1⟩

/-! ## The wide configuration -/

theorem checkOverflow_wide (dims : List Int) : checkOverflow .wide dims = false := by
  simp [checkOverflow, sizeofInt64, sizeofLapackInt]

/-- Claim C18.  For trtrs called with `n = 0`, `nrhs = 0` and leading dimensions
within the 32-bit range, in either configuration: the overflow check passes, the
trace consists of exactly one kernel call, with `n = 0` and `nrhs = 0` (no scratch
vector is allocated and no index array is read), and when the kernel reports the
status 0 the adapter returns 0. -/
theorem trtrs_empty_matrix {D : Type} (w : IndexWidth) (K : Kernel D) (d : D) (lda ldb : Int)
    (hlda : |lda| ≤ INT32_MAX) (hldb : |ldb| ≤ INT32_MAX)
    (hK : (K d ⟨[0, 0, lda, ldb], []⟩).2.info = 0) :
    checkOverflow w [0, 0, lda, ldb] = false ∧
    (trtrs w K d 0 0 lda ldb).events = [Event.call [0, 0, lda, ldb] []] ∧
    (trtrs w K d 0 0 lda ldb).result = .ok 0 := by
  have g : checkOverflow w [0, 0, lda, ldb] = false := by
    cases w
    · apply checkOverflow_narrow_of_abs_le
      intro v hv
      simp only [List.mem_cons, List.mem_singleton, List.not_mem_nil, or_false] at hv
      rcases hv with rfl | rfl | rfl | rfl
      · decide
      · decide
      · exact hlda
      · exact hldb
    · exact checkOverflow_wide _
  have e0 : toLapackInt w 0 = 0 := by cases w <;> decide
  have ea : toLapackInt w lda = lda := by
    cases w
    · exact wrap32_of_isInt32 (isInt32_of_abs_le hlda)
    · exact wrap64_of_isInt64 (isInt64_of_isInt32 (isInt32_of_abs_le hlda))
  have eb : toLapackInt w ldb = ldb := by
    cases w
    · exact wrap32_of_isInt32 (isInt32_of_abs_le hldb)
    · exact wrap64_of_isInt64 (isInt64_of_isInt32 (isInt32_of_abs_le hldb))
  refine ⟨g, ?_, ?_⟩
  · simp [trtrs, g, e0, ea, eb, hK]
  · simp only [trtrs, g, Bool.false_eq_true, if_false, e0, ea, eb, hK, lt_self_iff_false]
    decide

/-- Witness for claim C18: a 0-by-0 solve with `lda = ldb = 1` in the wide
configuration. -/
theorem trtrs_empty_matrix_witness :
    (trtrs .wide (statusKernel 0) () 0 0 1 1).result = .ok 0 :=
  (trtrs_empty_matrix .wide (statusKernel 0) () 1 1 (by decide) (by decide) rfl).2.2

theorem copyIn_of_length {arr : List Int} {n : Int} (hn : n = arr.length)
    (harr : ∀ x ∈ arr, IsInt32 x) : copyIn .narrow arr n = arr := by
  have ht : arr.take n.toNat = arr := by
    rw [hn, Int.toNat_ofNat, List.take_length]
  have hm : ∀ x ∈ arr, toLapackInt .narrow x = id x := fun x hx => wrap32_of_isInt32 (harr x hx)
  rw [copyIn, ht, List.map_congr_left hm, List.map_id]

theorem stdCopy_of_length {v arr : List Int} (hlen : v.length = arr.length)
    (hv : ∀ x ∈ v, IsInt32 x) : stdCopy v arr = v := by
  have hm : ∀ x ∈ v, toInt64 x = id x :=
    fun x hx => wrap64_of_isInt64 (isInt64_of_isInt32 (hv x hx))
  rw [stdCopy, hlen, List.drop_length, List.append_nil, List.map_congr_left hm, List.map_id]

/-- Claim C17.  For geqp3 called with dimensions within the 32-bit range, a `jpvt` of
`n` entries that are representable in 32 bits, and one and the same kernel in both
configurations (working within the array it is handed, leaving 32-bit values in it
and reporting a work length that fits in 32 bits): the narrow configuration (copy
in, call, copy back) and the wide configuration (in place) return the same status
or raise the same failure, and on return leave the caller's `jpvt` with equal
values. -/
theorem geqp3_narrow_wide_agree {D : Type} (K : Kernel D) (d : D) (m n lda : Int)
    (jpvt : List Int)
    (hdims : ∀ v ∈ [m, n, lda], |v| ≤ INT32_MAX)
    (hn : n = jpvt.length)
    (hj : ∀ x ∈ jpvt, IsInt32 x)
    (hKlen : ∀ d a, (K d a).2.index.length = a.index.length)
    (hKidx : ∀ d a, ∀ x ∈ (K d a).2.index, IsInt32 x)
    (hKprobe : ∀ d a, IsInt32 (Int.tdiv (K d a).2.probe.num (K d a).2.probe.den)) :
    (geqp3 .narrow K d m n lda jpvt).result = (geqp3 .wide K d m n lda jpvt).result ∧
    (∀ s, (geqp3 .narrow K d m n lda jpvt).result = .ok s →
      (geqp3 .narrow K d m n lda jpvt).index = (geqp3 .wide K d m n lda jpvt).index) := by
  have g : checkOverflow .narrow [m, n, lda] = false := checkOverflow_narrow_of_abs_le hdims
  have h32 : ∀ v ∈ [m, n, lda], IsInt32 v := fun v hv => isInt32_of_abs_le (hdims v hv)
  have n1 := wrap32_of_isInt32 (h32 m (by simp))
  have n2 := wrap32_of_isInt32 (h32 n (by simp))
  have n3 := wrap32_of_isInt32 (h32 lda (by simp))
  have w1 := wrap64_of_isInt64 (isInt64_of_isInt32 (h32 m (by simp)))
  have w2 := wrap64_of_isInt64 (isInt64_of_isInt32 (h32 n (by simp)))
  have w3 := wrap64_of_isInt64 (isInt64_of_isInt32 (h32 lda (by simp)))
  have hnn : ¬ n < 0 := by rw [hn]; exact not_lt.mpr (Int.ofNat_nonneg _)
  have hc : copyIn .narrow jpvt n = jpvt := copyIn_of_length hn hj
  have hp : ∀ q : Rat, IsInt32 (Int.tdiv q.num q.den) →
      probeToLapackInt .narrow q = probeToLapackInt .wide q := by
    intro q hq
    have h1 : IsLapackInt .narrow (Int.tdiv q.num q.den) := hq
    have h2 : IsLapackInt .wide (Int.tdiv q.num q.den) := isInt64_of_isInt32 hq
    simp only [probeToLapackInt, h1, h2, if_true]
  have hcopy : ∀ d a, a.index.length = jpvt.length →
      stdCopy (K d a).2.index jpvt = (K d a).2.index := by
    intro d a ha
    exact stdCopy_of_length ((hKlen d a).trans ha) (hKidx d a)
  have hq := hp _ (hKprobe d ⟨[m, n, lda, -1], jpvt⟩)
  have hqlen : (K d ⟨[m, n, lda, -1], jpvt⟩).2.index.length = jpvt.length := hKlen _ _
  simp only [geqp3, g, checkOverflow_wide, Bool.false_eq_true, if_false, hnn, toLapackInt, n1,
    n2, n3, w1, w2, w3, hc, hq]
  constructor
  · split_ifs <;> rfl
  · intro s
    split_ifs <;> intro hs <;> first | exact hcopy _ _ hqlen | simp at hs

/-- Witness for claim C17: a 3-column problem and a kernel that overwrites every
pivot entry with 7; both configurations return 0 and leave `jpvt = [7, 7, 7]`. -/
theorem geqp3_narrow_wide_agree_witness :
    (geqp3 .narrow (sampleKernel 0 0 5 (fun _ => 7)) () 3 3 3 [3, 1, 2]).index
      = (geqp3 .wide (sampleKernel 0 0 5 (fun _ => 7)) () 3 3 3 [3, 1, 2]).index :=
  (geqp3_narrow_wide_agree (sampleKernel 0 0 5 (fun _ => 7)) () 3 3 3 [3, 1, 2] (by decide) rfl
    (by decide) (fun _ _ => by simp [sampleKernel]) (fun _ _ => by simp [sampleKernel, IsInt32,
      INT32_MIN, INT32_MAX]) (fun _ _ => by simp [sampleKernel, IsInt32, INT32_MIN, INT32_MAX])).2
    0 (by decide)

/-! ## Scratch vectors by scalar kind -/

theorem wrap64_small_mul {n : Int} (k : Int) (hk0 : 0 ≤ k) (hk : k ≤ 3) (hn : 0 ≤ n)
    (h3 : 3 * n ≤ INT64_MAX) : wrap64 (k * n) = k * n ∧ 0 ≤ k * n := by
  unfold INT64_MAX at h3
  have h1 : 0 ≤ k * n := mul_nonneg hk0 hn
  have h2 : k * n ≤ 3 * n := by nlinarith
  refine ⟨?_, h1⟩
  unfold wrap64
  omega

theorem rfsCall_scratch {D : Type} (K : Kernel D) (d : D) (ints ipiv_ ipiv : List Int)
    (ev0 : List Event) (b1 b2 : Scratch) (h1 : 0 ≤ b1.len) (h2 : 0 ≤ b2.len) :
    (rfsCall K d ints ipiv_ ipiv ev0 b1 b2).scratch = [b1, b2] := by
  simp only [rfsCall, not_lt.mpr h1, not_lt.mpr h2, if_false]
  split_ifs <;> rfl

/-- Claim C19.  With dimensions that pass the overflow check and an order `n ≥ 0`
whose triple is an `int64_t`, in either configuration: the real overloads of gerfs
and trrfs allocate the typed `work` of length `3*n` and the integer `iwork` of
length `n`, and no `rwork`; the real overload of geqp3 allocates at most one
scratch vector; the complex overloads of gerfs, herfs and trrfs allocate the typed
`work` of length `2*n` and the real `rwork` of length `n`; and the complex overload
of geqp3, once its size query has succeeded, allocates the typed `work` of the
queried length and the real `rwork` of length `2*n`. -/
theorem auxiliary_real_buffer_by_kind {D : Type} (w : IndexWidth) (p : Precision)
    (K : Kernel D) (Q : QueryKernel D) (d : D) (m n nrhs lda ldaf ldb ldx : Int)
    (ipiv jpvt : List Int)
    (hg : checkOverflow w [m, n, nrhs, lda, ldaf, ldb, ldx] = false)
    (hn : 0 ≤ n) (h3 : 3 * n ≤ INT64_MAX)
    (hQ : ∀ d a, 0 ≤ (Q d a).2.info ∧ 0 ≤ probeToLapackInt w (real (Q d a).2.work)) :
    (gerfs w (.real p) K d n nrhs lda ldaf ipiv ldb ldx).scratch
      = [⟨.work, .real p, 3 * n⟩, ⟨.iwork, .lapackInt, n⟩] ∧
    (trrfs w (.real p) K d n nrhs lda ldb ldx).scratch
      = [⟨.work, .real p, 3 * n⟩, ⟨.iwork, .lapackInt, n⟩] ∧
    (∀ b ∈ (gerfs w (.real p) K d n nrhs lda ldaf ipiv ldb ldx).scratch, b.name ≠ .rwork) ∧
    (∀ b ∈ (trrfs w (.real p) K d n nrhs lda ldb ldx).scratch, b.name ≠ .rwork) ∧
    (geqp3 w K d m n lda jpvt).events.countP Event.isAlloc ≤ 1 ∧
    (gerfs w (.complex p) K d n nrhs lda ldaf ipiv ldb ldx).scratch
      = [⟨.work, .complex p, 2 * n⟩, ⟨.rwork, .real p, n⟩] ∧
    (herfs w p K d n nrhs lda ldaf ipiv ldb ldx).scratch
      = [⟨.work, .complex p, 2 * n⟩, ⟨.rwork, .real p, n⟩] ∧
    (trrfs w (.complex p) K d n nrhs lda ldb ldx).scratch
      = [⟨.work, .complex p, 2 * n⟩, ⟨.rwork, .real p, n⟩] ∧
    (geqp3_complex w p Q d m n lda jpvt).scratch
      = [⟨.work, .complex p, probeToLapackInt w (real (Q d ⟨[toLapackInt w m, toLapackInt w n,
          toLapackInt w lda, -1], if w = .narrow then copyIn .narrow jpvt n else jpvt⟩).2.work)⟩,
        ⟨.rwork, .real p, 2 * n⟩] := by
  have g1 : checkOverflow w [n, nrhs, lda, ldaf, ldb, ldx] = false :=
    checkOverflow_sublist hg (by simp)
  have g2 : checkOverflow w [n, nrhs, lda, ldb, ldx] = false :=
    checkOverflow_sublist hg (by simp)
  have g3 : checkOverflow w [m, n, lda] = false := checkOverflow_sublist hg (by simp)
  have hnn : ¬ n < 0 := not_lt.mpr hn
  have m3 := wrap64_small_mul 3 (by decide) (by decide) hn h3
  have m2 := wrap64_small_mul 2 (by decide) (by decide) hn h3
  have hgr : (gerfs w (.real p) K d n nrhs lda ldaf ipiv ldb ldx).scratch
      = [⟨.work, .real p, 3 * n⟩, ⟨.iwork, .lapackInt, n⟩] := by
    cases w <;>
      simp only [gerfs, g1, Bool.false_eq_true, if_false, hnn, rfsScratch, m3.1] <;>
      exact rfsCall_scratch _ _ _ _ _ _ _ _ m3.2 hn
  have htr : (trrfs w (.real p) K d n nrhs lda ldb ldx).scratch
      = [⟨.work, .real p, 3 * n⟩, ⟨.iwork, .lapackInt, n⟩] := by
    simp only [trrfs, g2, Bool.false_eq_true, if_false, rfsScratch, m3.1]
    exact rfsCall_scratch _ _ _ _ _ _ _ _ m3.2 hn
  refine ⟨hgr, htr, ?_, ?_, ?_, ?_, ?_, ?_, ?_⟩
  · rw [hgr]
    simp
  · rw [htr]
    simp
  · cases w <;> simp only [geqp3] <;> split_ifs <;> simp [Event.isAlloc]
  · cases w <;>
      simp only [gerfs, g1, Bool.false_eq_true, if_false, hnn, rfsScratch, m2.1] <;>
      exact rfsCall_scratch _ _ _ _ _ _ _ _ m2.2 hn
  · cases w <;>
      simp only [herfs, g1, Bool.false_eq_true, if_false, hnn, m2.1] <;>
      exact rfsCall_scratch _ _ _ _ _ _ _ _ m2.2 hn
  · simp only [trrfs, g2, Bool.false_eq_true, if_false, rfsScratch, m2.1]
    exact rfsCall_scratch _ _ _ _ _ _ _ _ m2.2 hn
  · have q1 : ∀ d a, ¬ (Q d a).2.info < 0 := fun d a => not_lt.mpr (hQ d a).1
    have q2 : ∀ d a, ¬ probeToLapackInt w (real (Q d a).2.work) < 0 :=
      fun d a => not_lt.mpr (hQ d a).2
    have l2 : ¬ 2 * n < 0 := not_lt.mpr m2.2
    cases w <;>
      simp only [geqp3_complex, g3, Bool.false_eq_true, if_false, hnn, q1, q2, m2.1, l2,
        if_true, reduceCtorEq]

/-- Witness for claim C19: order 5 in single precision; the complex overload of
gerfs allocates `work( 10 )` and `rwork( 5 )`, the real one `work( 15 )` and
`iwork( 5 )`. -/
theorem auxiliary_real_buffer_by_kind_witness :
    (gerfs .narrow (.complex .single) (statusKernel 0) () 5 1 5 5 [1, 2, 3, 4, 5] 5 5).scratch
      = [⟨.work, .complex .single, 10⟩, ⟨.rwork, .real .single, 5⟩] ∧
    (gerfs .narrow (.real .single) (statusKernel 0) () 5 1 5 5 [1, 2, 3, 4, 5] 5 5).scratch
      = [⟨.work, .real .single, 15⟩, ⟨.iwork, .lapackInt, 5⟩] :=
  have h := auxiliary_real_buffer_by_kind .narrow .single (statusKernel 0)
    (queryKernel 0 (.complex 12 3) 0 0) () 5 5 1 5 5 5 5 [1, 2, 3, 4, 5] [1, 2, 3, 4, 5]
    (by decide) (by decide) (by decide)
    (fun _ _ => (by decide : (0 : Int) ≤ 0 ∧
      0 ≤ probeToLapackInt IndexWidth.narrow (real (Scalar.complex 12 3))))
  ⟨h.2.2.2.2.2.1, h.1⟩

/-! ## Count and status of sbgvx -/

/-- Claim C20.  In either configuration, on every successful return of sbgvx (the
kernel's status and count being `lapack_int` values), the caller's `*m` equals the
count the kernel produced and the returned value equals the kernel's status, where
the kernel was invoked once, with the narrowed dimensions, the narrowed incoming
`*m`, and the fresh native-width list (narrow) or the caller's `ifail` (wide). -/
theorem sbgvx_returns_kernel_count_and_status {D : Type} (w : IndexWidth) (K : Job → Kernel D)
    (junk : Nat → Int) (d : D) (jobz : Job) (n ka kb ldab ldbb ldq il iu m0 ldz s : Int)
    (ifail : List Int)
    (hKi : ∀ j d a, IsLapackInt w (K j d a).2.info)
    (hKc : ∀ j d a, IsLapackInt w (K j d a).2.count)
    (hs : (sbgvx w K junk d jobz n ka kb ldab ldbb ldq il iu m0 ldz ifail).result = .ok s) :
    let r := K jobz d ⟨[toLapackInt w n, toLapackInt w ka, toLapackInt w kb,
      toLapackInt w ldab, toLapackInt w ldbb, toLapackInt w ldq, toLapackInt w il,
      toLapackInt w iu, toLapackInt w m0, toLapackInt w ldz],
      if w = .narrow then fresh junk n else ifail⟩
    (sbgvx w K junk d jobz n ka kb ldab ldbb ldq il iu m0 ldz ifail).m = r.2.count ∧
    s = r.2.info ∧
    (sbgvx w K junk d jobz n ka kb ldab ldbb ldq il iu m0 ldz ifail).events.countP Event.isCall
      = 1 := by
  intro r
  have hi : ∀ a, toInt64 (K jobz d a).2.info = (K jobz d a).2.info :=
    fun a => toInt64_of_isLapackInt (hKi jobz d a)
  have hc : ∀ a, toInt64 (K jobz d a).2.count = (K jobz d a).2.count :=
    fun a => toInt64_of_isLapackInt (hKc jobz d a)
  revert hs
  cases w <;> simp only [r, sbgvx, hi, hc, if_true, if_false, reduceCtorEq] <;> split_ifs <;>
    intro hs <;> simp [Event.isCall] at hs ⊢ <;> exact hs.symm

/-- Witness for claim C20: order 4, a kernel reporting status 1 and count 2; sbgvx
returns 1 and sets `*m = 2`. -/
theorem sbgvx_returns_kernel_count_and_status_witness :
    (sbgvx .wide (fun _ => sampleKernel 1 2 0 id) (fun _ => 0) () Job.NoVec
      4 1 1 2 2 4 1 4 0 4 [0, 0, 0, 0]).m = 2 :=
  (sbgvx_returns_kernel_count_and_status .wide (fun _ => sampleKernel 1 2 0 id) (fun _ => 0) ()
    Job.NoVec 4 1 1 2 2 4 1 4 0 4 1 [0, 0, 0, 0]
    (fun _ _ _ => (by decide : IsLapackInt .wide (1 : Int)))
    (fun _ _ _ => (by decide : IsLapackInt .wide (2 : Int))) (by decide)).1

/-! ## The seed array of larnv -/

/-- Claim C21.  In the narrow configuration, for every call of larnv that passes
the overflow check, whatever the count `n`, with a caller seed array of at least
four entries and a kernel that works within the array it is handed: the steps are
the 32-bit copy of exactly four entries followed by the kernel call on the narrowed
`iseed[0..3]`; afterwards the first four entries of the caller's `iseed` are the
values the kernel left, converted to 64 bits, and every later entry is as it was;
and a seed between 0 and 4095 is converted without loss in both directions. -/
theorem larnv_copies_four_seeds {D : Type} (K : Kernel D) (d : D) (idist n : Int)
    (iseed : List Int)
    (hg : checkOverflow .narrow [idist, n] = false)
    (hlen : 4 ≤ iseed.length)
    (hK : ∀ d a, (K d a).2.index.length = a.index.length) :
    let iseed_ := (iseed.take 4).map wrap32
    let r := K d ⟨[wrap32 idist, wrap32 n], iseed_⟩
    (larnv .narrow K d idist iseed n).events
      = [Event.readIndex 4, Event.call [wrap32 idist, wrap32 n] iseed_] ∧
    iseed_.length = 4 ∧
    (∀ i, i < 4 → ∃ x, r.2.index[i]? = some x ∧
      (larnv .narrow K d idist iseed n).index[i]? = some (toInt64 x)) ∧
    (∀ i, 4 ≤ i → (larnv .narrow K d idist iseed n).index[i]? = iseed[i]?) ∧
    (∀ x : Int, 0 ≤ x → x ≤ 4095 → toLapackInt .narrow x = x ∧ toInt64 x = x) := by
  intro iseed_ r
  have h4 : iseed_.length = 4 := by
    simp only [iseed_, List.length_map, List.length_take]
    omega
  have hr : r.2.index.length = 4 := by
    rw [hK]
    exact h4
  have hidx : (larnv .narrow K d idist iseed n).index = stdCopy r.2.index iseed := by
    simp only [larnv, hg, Bool.false_eq_true, if_false]
    rfl
  refine ⟨?_, h4, ?_, ?_, ?_⟩
  · simp only [larnv, hg, Bool.false_eq_true, if_false]
    rfl
  · intro i hi
    rw [hidx]
    exact stdCopy_getElem?_lt _ _ (by omega)
  · intro i hi
    rw [hidx]
    exact stdCopy_getElem?_ge _ _ (by omega)
  · intro x h0 h1
    have h32 : IsInt32 x := by
      unfold IsInt32 INT32_MIN INT32_MAX
      omega
    exact ⟨wrap32_of_isInt32 h32, wrap64_of_isInt64 (isInt64_of_isInt32 h32)⟩

/-- Witness for claim C21: the seeds of the testers, `0, 1, 2, 3`, followed by a
fifth entry, with a count of zero and a kernel that adds 4 to every seed. -/
theorem larnv_copies_four_seeds_witness :
    (larnv .narrow (sampleKernel 0 0 0 (fun x => x + 4)) () 1 [0, 1, 2, 3, 99] 0).events
      = [Event.readIndex 4, Event.call [1, 0] [0, 1, 2, 3]] ∧
    (larnv .narrow (sampleKernel 0 0 0 (fun x => x + 4)) () 1 [0, 1, 2, 3, 99] 0).index
      = [4, 5, 6, 7, 99] :=
  ⟨(larnv_copies_four_seeds (sampleKernel 0 0 0 (fun x => x + 4)) () 1 0 [0, 1, 2, 3, 99]
    (by decide) (by decide) (fun _ _ => by simp [sampleKernel])).1, by decide⟩

/-! ## Closed-form workspace lengths -/

theorem isInt64_add_of_abs_le {m n : Int} (k : Int) (hk0 : 0 ≤ k) (hk : k ≤ 8)
    (hm : |m| ≤ INT32_MAX) (hn : |n| ≤ INT32_MAX) : IsInt64 (m + n + k) := by
  have h1 := isInt32_of_abs_le hm
  have h2 := isInt32_of_abs_le hn
  unfold IsInt32 INT32_MIN INT32_MAX at h1 h2
  unfold IsInt64 INT64_MIN INT64_MAX
  omega

theorem tgsyl_ok_events {D : Type} (w : IndexWidth) (K : Kernel D) (d : D)
    (ijob m n lda ldb ldc ldd lde ldf s : Int)
    (hr : (tgsyl w K d ijob m n lda ldb ldc ldd lde ldf).result = .ok s) :
    let dims := [toLapackInt w ijob, toLapackInt w m, toLapackInt w n, toLapackInt w lda,
      toLapackInt w ldb, toLapackInt w ldc, toLapackInt w ldd, toLapackInt w lde,
      toLapackInt w ldf]
    let lwork_ := probeToLapackInt w (K d ⟨dims ++ [-1], []⟩).2.probe
    (tgsyl w K d ijob m n lda ldb ldc ldd lde ldf).events
      = [Event.call (dims ++ [-1]) [], Event.alloc lwork_, Event.alloc (wrap64 (m + n + 6)),
          Event.call (dims ++ [lwork_]) []] := by
  intro dims lwork_
  revert hr
  simp only [tgsyl]
  split_ifs <;> intro hr <;> first | rfl | exact absurd hr (by simp)

theorem tgsyl_complex_ok_events {D : Type} (w : IndexWidth) (Q : QueryKernel D) (d : D)
    (ijob m n lda ldb ldc ldd lde ldf s : Int)
    (hr : (tgsyl_complex w Q d ijob m n lda ldb ldc ldd lde ldf).result = .ok s) :
    let dims := [toLapackInt w ijob, toLapackInt w m, toLapackInt w n, toLapackInt w lda,
      toLapackInt w ldb, toLapackInt w ldc, toLapackInt w ldd, toLapackInt w lde,
      toLapackInt w ldf]
    let lwork_ := probeToLapackInt w (real (Q d ⟨dims ++ [-1], []⟩).2.work)
    (tgsyl_complex w Q d ijob m n lda ldb ldc ldd lde ldf).events
      = [Event.call (dims ++ [-1]) [], Event.alloc lwork_, Event.alloc (wrap64 (m + n + 2)),
          Event.call (dims ++ [lwork_]) []] := by
  intro dims lwork_
  revert hr
  simp only [tgsyl_complex]
  split_ifs <;> intro hr <;> first | rfl | exact absurd hr (by simp)

/-- Claim C22.  In either configuration, on every successful call of tgsyl: the
kernel is first called with the sentinel -1 in the single length position of
`work`, the `work` vector is then allocated with the length the query left in the
probe, and the integer vector `iwork` with the 64-bit value of `m + n + 6` for the
real kind and of `m + n + 2` for the complex kind, a length the query does not
report; the kernel is then called with the queried `work` length.  For `m` and `n`
of magnitude at most 2^31 - 1 these 64-bit values are the sums themselves. -/
theorem tgsyl_iwork_closed_form {D : Type} (w : IndexWidth) (K : Kernel D) (Q : QueryKernel D)
    (d : D) (ijob m n lda ldb ldc ldd lde ldf s t : Int)
    (hr : (tgsyl w K d ijob m n lda ldb ldc ldd lde ldf).result = .ok s)
    (hc : (tgsyl_complex w Q d ijob m n lda ldb ldc ldd lde ldf).result = .ok t) :
    let dims := [toLapackInt w ijob, toLapackInt w m, toLapackInt w n, toLapackInt w lda,
      toLapackInt w ldb, toLapackInt w ldc, toLapackInt w ldd, toLapackInt w lde,
      toLapackInt w ldf]
    let lwork_ := probeToLapackInt w (K d ⟨dims ++ [-1], []⟩).2.probe
    let lworkc_ := probeToLapackInt w (real (Q d ⟨dims ++ [-1], []⟩).2.work)
    (tgsyl w K d ijob m n lda ldb ldc ldd lde ldf).events
      = [Event.call (dims ++ [-1]) [], Event.alloc lwork_, Event.alloc (wrap64 (m + n + 6)),
          Event.call (dims ++ [lwork_]) []] ∧
    (tgsyl_complex w Q d ijob m n lda ldb ldc ldd lde ldf).events
      = [Event.call (dims ++ [-1]) [], Event.alloc lworkc_, Event.alloc (wrap64 (m + n + 2)),
          Event.call (dims ++ [lworkc_]) []] ∧
    (|m| ≤ INT32_MAX → |n| ≤ INT32_MAX →
      wrap64 (m + n + 6) = m + n + 6 ∧ wrap64 (m + n + 2) = m + n + 2) :=
  ⟨tgsyl_ok_events w K d ijob m n lda ldb ldc ldd lde ldf s hr,
    tgsyl_complex_ok_events w Q d ijob m n lda ldb ldc ldd lde ldf t hc,
    fun hm hn => ⟨wrap64_of_isInt64 (isInt64_add_of_abs_le 6 (by decide) (by decide) hm hn),
      wrap64_of_isInt64 (isInt64_add_of_abs_le 2 (by decide) (by decide) hm hn)⟩⟩

/-- Witness for claim C22: `m = 2` and `n = 3` with a queried `work` length of 10;
`iwork` gets 11 entries for the real kind and 7 for the complex kind. -/
theorem tgsyl_iwork_closed_form_witness :
    (tgsyl .narrow (sampleKernel 0 0 10 id) () 0 2 3 2 3 2 2 3 2).events
      = [Event.call [0, 2, 3, 2, 3, 2, 2, 3, 2, -1] [], Event.alloc 10, Event.alloc 11,
          Event.call [0, 2, 3, 2, 3, 2, 2, 3, 2, 10] []] ∧
    (tgsyl_complex .narrow (queryKernel 0 (.complex 10 0) 0 0) () 0 2 3 2 3 2 2 3 2).events
      = [Event.call [0, 2, 3, 2, 3, 2, 2, 3, 2, -1] [], Event.alloc 10, Event.alloc 7,
          Event.call [0, 2, 3, 2, 3, 2, 2, 3, 2, 10] []] :=
  have h := tgsyl_iwork_closed_form .narrow (sampleKernel 0 0 10 id)
    (queryKernel 0 (.complex 10 0) 0 0) () 0 2 3 2 3 2 2 3 2 0 0 (by decide) (by decide)
  ⟨h.1, h.2.1⟩

theorem wrap64_two_mul_sub {n : Int} (hn : |n| ≤ INT32_MAX) : wrap64 (2 * n - 2) = 2 * n - 2 := by
  have h1 := isInt32_of_abs_le hn
  unfold IsInt32 INT32_MIN INT32_MAX at h1
  apply wrap64_of_isInt64
  unfold IsInt64 INT64_MIN INT64_MAX
  omega

/-- Claim C23.  In either configuration, for every call that passes the overflow
check, whatever the sign of `n`: langb and lantb allocate one workspace of
`max(1, n)` elements when the norm is the infinity norm and of exactly 1 element
for every other norm, and steqr allocates one workspace of `max(1, 2*n - 2)`
elements (the 64-bit value of `2*n - 2`, which is `2*n - 2` itself for `n` of
magnitude at most 2^31 - 1); each of these lengths is at least 1, and the
allocation is followed by the kernel call. -/
theorem fixed_workspace_lengths {D : Type} (w : IndexWidth) (L : Norm → NormKernel D)
    (K : Kernel D) (d : D) (norm : Norm) (n kl ku ldab k ldz : Int)
    (hb : checkOverflow w [n, kl, ku, ldab] = false)
    (ht : checkOverflow w [n, k, ldab] = false)
    (hs : checkOverflow w [n, ldz] = false) :
    (langb w L d norm n kl ku ldab).events
      = [Event.alloc (if norm = Norm.Inf then max 1 n else 1),
          Event.call [toLapackInt w n, toLapackInt w kl, toLapackInt w ku, toLapackInt w ldab]
            []] ∧
    (lantb w L d norm n k ldab).events
      = [Event.alloc (if norm = Norm.Inf then max 1 n else 1),
          Event.call [toLapackInt w n, toLapackInt w k, toLapackInt w ldab] []] ∧
    (steqr w K d n ldz).events
      = [Event.alloc (max 1 (wrap64 (2 * n - 2))),
          Event.call [toLapackInt w n, toLapackInt w ldz] []] ∧
    (|n| ≤ INT32_MAX → wrap64 (2 * n - 2) = 2 * n - 2) ∧
    1 ≤ (if norm = Norm.Inf then max 1 n else 1) ∧
    1 ≤ max 1 (wrap64 (2 * n - 2)) := by
  refine ⟨?_, ?_, ?_, wrap64_two_mul_sub, ?_, le_max_left _ _⟩
  · simp only [langb, hb, Bool.false_eq_true, if_false]
    split_ifs <;> simp
  · simp only [lantb, ht, Bool.false_eq_true, if_false]
    split_ifs <;> simp
  · simp only [steqr, hs, Bool.false_eq_true, if_false]
    split_ifs <;> rfl
  · split_ifs
    · exact le_max_left _ _
    · exact le_refl _

/-- Witness for claim C23: the infinity norm with the negative order -4, in the
narrow configuration; each workspace has one element. -/
theorem fixed_workspace_lengths_witness :
    (langb .narrow normKernel () Norm.Inf (-4) 1 1 3).events
      = [Event.alloc 1, Event.call [-4, 1, 1, 3] []] ∧
    (lantb .narrow normKernel () Norm.Inf (-4) 1 3).events
      = [Event.alloc 1, Event.call [-4, 1, 3] []] ∧
    (steqr .narrow (statusKernel 0) () (-4) 1).events
      = [Event.alloc 1, Event.call [-4, 1] []] :=
  have h := fixed_workspace_lengths .narrow normKernel (statusKernel 0) () Norm.Inf (-4) 1 1 3 1 1
    (by decide) (by decide) (by decide)
  ⟨h.1, h.2.1, h.2.2.1⟩

/-! ## The transposition mode of ormbr -/

/-- Claim C24.  For the real adapter ormbr, in either configuration and for all
arguments: a call with the mode `ConjTrans` has the outcome of the same call with
the mode `Trans`; the kernel is consulted at the mode `NoTrans` when the caller
passes `NoTrans` and at the mode `Trans` when the caller passes `Trans` or
`ConjTrans`; and the outcome does not depend on what the kernel would do at the
mode `ConjTrans`, which it never receives. -/
theorem ormbr_maps_conjtrans {D : Type} (w : IndexWidth) (QO : Op → QueryKernel D)
    (X : QueryKernel D) (d : D) (trans : Op) (m n k lda ldc : Int) :
    ormbr w QO d Op.ConjTrans m n k lda ldc = ormbr w QO d Op.Trans m n k lda ldc ∧
    ormbr w QO d Op.NoTrans m n k lda ldc
      = ormbr w (fun _ => QO Op.NoTrans) d Op.NoTrans m n k lda ldc ∧
    ormbr w QO d Op.Trans m n k lda ldc
      = ormbr w (fun _ => QO Op.Trans) d Op.Trans m n k lda ldc ∧
    ormbr w QO d Op.ConjTrans m n k lda ldc
      = ormbr w (fun _ => QO Op.Trans) d Op.ConjTrans m n k lda ldc ∧
    ormbr w (fun t => if t = Op.ConjTrans then X else QO t) d trans m n k lda ldc
      = ormbr w QO d trans m n k lda ldc := by
  refine ⟨rfl, rfl, rfl, rfl, ?_⟩
  cases trans <;> rfl

/-! ## Integer outputs on failure -/

/-- Claim C25.  In the narrow configuration, for dimensions of magnitude at most
2^31 - 1 and an order `n ≥ 0`: when the kernel reports a negative status, the
adapter raises the failure for an illegal argument and no caller-owned integer
output has been written.  For geqp3 this holds when the status of the query call is
negative and when, the query having succeeded with a non-negative work length, the
status of the execute call is negative: `jpvt` is as the caller passed it; for hpsv
`ipiv` is as passed; for sbgvx `*m` and `ifail` are as passed. -/
theorem failure_leaves_integer_outputs {D : Type} (K : Kernel D) (KJ : Job → Kernel D)
    (junk : Nat → Int) (d : D) (jobz : Job)
    (m n lda nrhs ldb ka kb ldab ldbb ldq il iu cnt ldz : Int) (arr : List Int)
    (hdims : ∀ v ∈ [m, n, lda, nrhs, ldb, ka, kb, ldab, ldbb, ldq, il, iu, ldz],
      |v| ≤ INT32_MAX)
    (hn : 0 ≤ n) :
    let q := K d ⟨[wrap32 m, wrap32 n, wrap32 lda, -1], copyIn .narrow arr n⟩
    let lwork_ := probeToLapackInt .narrow q.2.probe
    let e := K q.1 ⟨[wrap32 m, wrap32 n, wrap32 lda, lwork_], q.2.index⟩
    let r := K d ⟨[wrap32 n, wrap32 nrhs, wrap32 ldb], fresh junk n⟩
    let x := KJ jobz d ⟨[wrap32 n, wrap32 ka, wrap32 kb, wrap32 ldab, wrap32 ldbb, wrap32 ldq,
      wrap32 il, wrap32 iu, wrap32 cnt, wrap32 ldz], fresh junk n⟩
    (q.2.info < 0 →
      (geqp3 .narrow K d m n lda arr).result = .error .illegal ∧
      (geqp3 .narrow K d m n lda arr).index = arr) ∧
    (¬ q.2.info < 0 → ¬ lwork_ < 0 → e.2.info < 0 →
      (geqp3 .narrow K d m n lda arr).result = .error .illegal ∧
      (geqp3 .narrow K d m n lda arr).index = arr) ∧
    (r.2.info < 0 →
      (hpsv .narrow K junk d n nrhs arr ldb).result = .error .illegal ∧
      (hpsv .narrow K junk d n nrhs arr ldb).index = arr) ∧
    (x.2.info < 0 →
      (sbgvx .narrow KJ junk d jobz n ka kb ldab ldbb ldq il iu cnt ldz arr).result
        = .error .illegal ∧
      (sbgvx .narrow KJ junk d jobz n ka kb ldab ldbb ldq il iu cnt ldz arr).m = cnt ∧
      (sbgvx .narrow KJ junk d jobz n ka kb ldab ldbb ldq il iu cnt ldz arr).ifail = arr) := by
  have g1 : checkOverflow .narrow [m, n, lda] = false :=
    checkOverflow_narrow_of_abs_le (fun v hv => hdims v (by simp at hv ⊢; tauto))
  have g2 : checkOverflow .narrow [n, nrhs, ldb] = false :=
    checkOverflow_narrow_of_abs_le (fun v hv => hdims v (by simp at hv ⊢; tauto))
  have g3 : checkOverflow .narrow [n, ka, kb, ldab, ldbb, ldq, il, iu, ldz] = false :=
    checkOverflow_narrow_of_abs_le (fun v hv => hdims v (by simp at hv ⊢; tauto))
  have hnn : ¬ n < 0 := not_lt.mpr hn
  have h32 : IsInt32 n := isInt32_of_abs_le (hdims n (by simp))
  have w7 := wrap64_mul_nonneg 7 (by decide) (by decide) hn h32
  have w5 := wrap64_mul_nonneg 5 (by decide) (by decide) hn h32
  have w7n : ¬ wrap64 (7 * n) < 0 := by rw [w7.1]; exact not_lt.mpr w7.2
  have w5n : ¬ wrap64 (5 * n) < 0 := by rw [w5.1]; exact not_lt.mpr w5.2
  dsimp only
  refine ⟨?_, ?_, ?_, ?_⟩
  · intro hq
    simp only [geqp3, g1, Bool.false_eq_true, if_false, hnn, toLapackInt, hq, if_true, and_self]
  · intro hq hl he
    simp only [geqp3, g1, Bool.false_eq_true, if_false, hnn, toLapackInt, hq, hl, he, if_true,
      and_self]
  · intro hr
    simp only [hpsv, g2, Bool.false_eq_true, if_false, hnn, toLapackInt, hr, if_true, and_self]
  · intro hx
    simp only [sbgvx, g3, Bool.false_eq_true, if_false, hnn, w7n, w5n, toLapackInt, hx, if_true,
      and_self]

/-- Witness for claim C25: a kernel that overwrites every pivot with 9, succeeds in
the size query and reports the status -3 in the execute call; geqp3 raises after
both calls and the caller's `jpvt` is as passed. -/
theorem failure_leaves_integer_outputs_witness :
    ((geqp3 .narrow (execFailKernel (fun _ => 9)) () 3 3 3 [5, 6, 7]).result
        = .error .illegal ∧
      (geqp3 .narrow (execFailKernel (fun _ => 9)) () 3 3 3 [5, 6, 7]).index = [5, 6, 7]) ∧
    (geqp3 .narrow (execFailKernel (fun _ => 9)) () 3 3 3 [5, 6, 7]).events
      = [Event.readIndex 3, Event.call [3, 3, 3, -1] [5, 6, 7], Event.alloc 4,
          Event.call [3, 3, 3, 4] [9, 9, 9]] :=
  ⟨(failure_leaves_integer_outputs (execFailKernel (fun _ => 9))
    (fun _ => execFailKernel (fun _ => 9)) (fun _ => 0) () Job.Vec
    3 3 3 1 3 1 1 2 2 3 1 3 77 3 [5, 6, 7] (by decide) (by decide)).2.1
      (by decide) (by decide) (by decide), by decide⟩

/-! ## Read-only pivot arrays -/

theorem copyIn_narrow (arr : List Int) (len : Int) :
    copyIn .narrow arr len = (arr.take len.toNat).map wrap32 := rfl

theorem rfsCall_readsPivots {D : Type} (K : Kernel D) (d : D) (ints ipiv_ ipiv : List Int)
    (ev0 : List Event) (b1 b2 : Scratch) (hev : ∀ e ∈ ev0, e.isCall = false) :
    (rfsCall K d ints ipiv_ ipiv ev0 b1 b2).index = ipiv ∧
    (∀ ints2 idx, Event.call ints2 idx ∈ (rfsCall K d ints ipiv_ ipiv ev0 b1 b2).events →
      idx = ipiv_) ∧
    (0 ≤ b1.len → 0 ≤ b2.len →
      (rfsCall K d ints ipiv_ ipiv ev0 b1 b2).events.filter Event.isCall
        = [Event.call ints ipiv_]) := by
  have hf : ev0.filter Event.isCall = [] := by
    rw [List.filter_eq_nil_iff]
    intro e he
    simp [hev e he]
  have hm : ∀ ints2 idx, Event.call ints2 idx ∉ ev0 := fun ints2 idx h => by
    have := hev _ h
    simp [Event.isCall] at this
  refine ⟨?_, ?_, ?_⟩
  · simp only [rfsCall]
    split_ifs <;> rfl
  · intro ints2 idx h
    simp only [rfsCall] at h
    split_ifs at h <;> simp [hm] at h <;> exact h.2
  · intro h1 h2
    simp only [rfsCall, not_lt.mpr h1, not_lt.mpr h2, if_false]
    split_ifs <;> simp [List.filter_append, hf, Event.isCall]

theorem rfsScratch_len_nonneg (k : ScalarKind) {n : Int} (h0 : 0 ≤ n) (hn : |n| ≤ INT32_MAX) :
    0 ≤ (rfsScratch k n).1.len ∧ 0 ≤ (rfsScratch k n).2.len := by
  cases k with
  | real p =>
    refine ⟨?_, h0⟩
    show 0 ≤ wrap64 (3 * n)
    rw [(wrap64_mul_nonneg 3 (by decide) (by decide) h0 (isInt32_of_abs_le hn)).1]
    omega
  | complex p =>
    refine ⟨?_, h0⟩
    show 0 ≤ wrap64 (2 * n)
    rw [(wrap64_mul_nonneg 2 (by decide) (by decide) h0 (isInt32_of_abs_le hn)).1]
    omega

theorem gerfs_readsPivots {D : Type} (k : ScalarKind) (K : Kernel D) (d : D)
    (n nrhs lda ldaf : Int) (ipiv : List Int) (ldb ldx : Int) :
    ReadsPivots [n, nrhs, lda, ldaf, ldb, ldx] n ipiv
      (gerfs .narrow k K d n nrhs lda ldaf ipiv ldb ldx).index
      (gerfs .narrow k K d n nrhs lda ldaf ipiv ldb ldx).events := by
  have h := rfsCall_readsPivots K d
    [wrap32 n, wrap32 nrhs, wrap32 lda, wrap32 ldaf, wrap32 ldb, wrap32 ldx]
    (copyIn .narrow ipiv n) ipiv [Event.readIndex n] (rfsScratch k n).1 (rfsScratch k n).2
    (by simp [Event.isCall])
  refine ⟨?_, ?_, ?_⟩
  · simp only [gerfs]
    split_ifs <;> first | rfl | exact h.1
  · intro ints idx hc
    simp only [gerfs] at hc
    split_ifs at hc
    · simp at hc
    · simp at hc
    · exact h.2.1 ints idx hc
  · intro h0 hd
    simp only [gerfs, checkOverflow_narrow_of_abs_le hd, not_lt.mpr h0, Bool.false_eq_true,
      if_false]
    exact ⟨_, h.2.2 (rfsScratch_len_nonneg k h0 (hd n (by simp))).1
      (rfsScratch_len_nonneg k h0 (hd n (by simp))).2⟩

theorem herfs_readsPivots {D : Type} (p : Precision) (K : Kernel D) (d : D)
    (n nrhs lda ldaf : Int) (ipiv : List Int) (ldb ldx : Int) :
    ReadsPivots [n, nrhs, lda, ldaf, ldb, ldx] n ipiv
      (herfs .narrow p K d n nrhs lda ldaf ipiv ldb ldx).index
      (herfs .narrow p K d n nrhs lda ldaf ipiv ldb ldx).events := by
  have h := rfsCall_readsPivots K d
    [wrap32 n, wrap32 nrhs, wrap32 lda, wrap32 ldaf, wrap32 ldb, wrap32 ldx]
    (copyIn .narrow ipiv n) ipiv [Event.readIndex n] ⟨.work, .complex p, wrap64 (2 * n)⟩
    ⟨.rwork, .real p, n⟩ (by simp [Event.isCall])
  refine ⟨?_, ?_, ?_⟩
  · simp only [herfs]
    split_ifs <;> first | rfl | exact h.1
  · intro ints idx hc
    simp only [herfs] at hc
    split_ifs at hc
    · simp at hc
    · simp at hc
    · exact h.2.1 ints idx hc
  · intro h0 hd
    simp only [herfs, checkOverflow_narrow_of_abs_le hd, not_lt.mpr h0, Bool.false_eq_true,
      if_false]
    exact ⟨_, h.2.2 (rfsScratch_len_nonneg (.complex p) h0 (hd n (by simp))).1 h0⟩

theorem gttrs_readsPivots {D : Type} (K : Kernel D) (d : D)
    (n nrhs : Int) (ipiv : List Int) (ldb : Int) :
    ReadsPivots [n, nrhs, ldb] n ipiv (gttrs .narrow K d n nrhs ipiv ldb).index
      (gttrs .narrow K d n nrhs ipiv ldb).events := by
  refine ⟨?_, ?_, ?_⟩
  · simp only [gttrs]
    split_ifs <;> rfl
  · intro ints idx hc
    simp only [gttrs] at hc
    split_ifs at hc <;> simp at hc <;> exact hc.2
  · intro h0 hd
    simp only [gttrs, checkOverflow_narrow_of_abs_le hd, not_lt.mpr h0, Bool.false_eq_true,
      if_false]
    split_ifs <;> simp [Event.isCall, copyIn_narrow]

theorem sptrs_readsPivots {D : Type} (K : Kernel D) (d : D)
    (n nrhs : Int) (ipiv : List Int) (ldb : Int) :
    ReadsPivots [n, nrhs, ldb] n ipiv (sptrs .narrow K d n nrhs ipiv ldb).index
      (sptrs .narrow K d n nrhs ipiv ldb).events := by
  refine ⟨?_, ?_, ?_⟩
  · simp only [sptrs]
    split_ifs <;> rfl
  · intro ints idx hc
    simp only [sptrs] at hc
    split_ifs at hc <;> simp at hc <;> exact hc.2
  · intro h0 hd
    simp only [sptrs, checkOverflow_narrow_of_abs_le hd, not_lt.mpr h0, Bool.false_eq_true,
      if_false]
    split_ifs <;> simp [Event.isCall, copyIn_narrow]

theorem sytrs_rook_readsPivots {D : Type} (K : Kernel D) (d : D)
    (n nrhs lda : Int) (ipiv : List Int) (ldb : Int) :
    ReadsPivots [n, nrhs, lda, ldb] n ipiv (sytrs_rook .narrow K d n nrhs lda ipiv ldb).index
      (sytrs_rook .narrow K d n nrhs lda ipiv ldb).events := by
  refine ⟨?_, ?_, ?_⟩
  · simp only [sytrs_rook]
    split_ifs <;> rfl
  · intro ints idx hc
    simp only [sytrs_rook] at hc
    split_ifs at hc <;> simp at hc <;> exact hc.2
  · intro h0 hd
    simp only [sytrs_rook, checkOverflow_narrow_of_abs_le hd, not_lt.mpr h0, Bool.false_eq_true,
      if_false]
    split_ifs <;> simp [Event.isCall, copyIn_narrow]

theorem sptri_readsPivots {D : Type} (K : Kernel D) (d : D)
    (n : Int) (ipiv : List Int) :
    ReadsPivots [n] n ipiv (sptri .narrow K d n ipiv).index
      (sptri .narrow K d n ipiv).events := by
  refine ⟨?_, ?_, ?_⟩
  · simp only [sptri]
    split_ifs <;> rfl
  · intro ints idx hc
    simp only [sptri] at hc
    split_ifs at hc <;> simp at hc <;> exact hc.2
  · intro h0 hd
    simp only [sptri, checkOverflow_narrow_of_abs_le hd, not_lt.mpr h0, Bool.false_eq_true,
      if_false]
    split_ifs <;> simp [Event.isCall, copyIn_narrow]

theorem hecon_rk_readsPivots {D : Type} (K : Kernel D) (d : D)
    (n lda : Int) (ipiv : List Int) :
    ReadsPivots [n, lda] n ipiv (hecon_rk .narrow K d n lda ipiv).index
      (hecon_rk .narrow K d n lda ipiv).events := by
  refine ⟨?_, ?_, ?_⟩
  · simp only [hecon_rk]
    split_ifs <;> rfl
  · intro ints idx hc
    simp only [hecon_rk] at hc
    split_ifs at hc <;> simp at hc <;> exact hc.2
  · intro h0 hd
    have hl : ¬ wrap64 (2 * n) < 0 := by
      rw [(wrap64_mul_nonneg 2 (by decide) (by decide) h0
        (isInt32_of_abs_le (hd n (by simp)))).1]
      omega
    simp only [hecon_rk, checkOverflow_narrow_of_abs_le hd, not_lt.mpr h0, Bool.false_eq_true,
      if_false, hl]
    split_ifs <;> simp [Event.isCall, copyIn_narrow]

/-- Claim C26.  In the narrow configuration, each of the read-only pivot adapters
gerfs, herfs, hecon_rk, sptri, sptrs, sytrs_rook and gttrs leaves the caller's
`ipiv` as it was on every path, hands every kernel call the first `n` entries of
`ipiv` narrowed to 32 bits element by element in their order, and, for `n ≥ 0` and
integer arguments of magnitude at most 2^31 - 1, calls the kernel exactly once. -/
theorem read_only_pivots_are_copied_in_only {D : Type} (k : ScalarKind) (p : Precision)
    (K : Kernel D) (d : D) (n nrhs lda ldaf ldb ldx : Int) (ipiv : List Int) :
    ReadsPivots [n, nrhs, lda, ldaf, ldb, ldx] n ipiv
      (gerfs .narrow k K d n nrhs lda ldaf ipiv ldb ldx).index
      (gerfs .narrow k K d n nrhs lda ldaf ipiv ldb ldx).events ∧
    ReadsPivots [n, nrhs, lda, ldaf, ldb, ldx] n ipiv
      (herfs .narrow p K d n nrhs lda ldaf ipiv ldb ldx).index
      (herfs .narrow p K d n nrhs lda ldaf ipiv ldb ldx).events ∧
    ReadsPivots [n, lda] n ipiv (hecon_rk .narrow K d n lda ipiv).index
      (hecon_rk .narrow K d n lda ipiv).events ∧
    ReadsPivots [n] n ipiv (sptri .narrow K d n ipiv).index
      (sptri .narrow K d n ipiv).events ∧
    ReadsPivots [n, nrhs, ldb] n ipiv (sptrs .narrow K d n nrhs ipiv ldb).index
      (sptrs .narrow K d n nrhs ipiv ldb).events ∧
    ReadsPivots [n, nrhs, lda, ldb] n ipiv (sytrs_rook .narrow K d n nrhs lda ipiv ldb).index
      (sytrs_rook .narrow K d n nrhs lda ipiv ldb).events ∧
    ReadsPivots [n, nrhs, ldb] n ipiv (gttrs .narrow K d n nrhs ipiv ldb).index
      (gttrs .narrow K d n nrhs ipiv ldb).events :=
  ⟨gerfs_readsPivots k K d n nrhs lda ldaf ipiv ldb ldx,
    herfs_readsPivots p K d n nrhs lda ldaf ipiv ldb ldx,
    hecon_rk_readsPivots K d n lda ipiv, sptri_readsPivots K d n ipiv,
    sptrs_readsPivots K d n nrhs ipiv ldb, sytrs_rook_readsPivots K d n nrhs lda ipiv ldb,
    gttrs_readsPivots K d n nrhs ipiv ldb⟩

/-- Witness for claim C26: three pivots, the second of which does not fit in 32
bits, and a kernel that overwrites what it is handed; sptrs hands the kernel the
narrowed pivots and the caller's array is as it was. -/
theorem read_only_pivots_are_copied_in_only_witness :
    (sptrs .narrow (sampleKernel 0 0 0 (fun _ => 9)) () 3 1 [1, 4294967298, 3, 8] 3).index
      = [1, 4294967298, 3, 8] ∧
    (sptrs .narrow (sampleKernel 0 0 0 (fun _ => 9)) () 3 1 [1, 4294967298, 3, 8] 3).events
      = [Event.readIndex 3, Event.call [3, 1, 3] [1, 2, 3]] :=
  ⟨(read_only_pivots_are_copied_in_only (.real .single) .single
    (sampleKernel 0 0 0 (fun _ => 9)) () 3 1 3 3 3 3 [1, 4294967298, 3, 8]).2.2.2.2.1.1,
    by decide⟩

/-! ## The workspace of upgtr -/

/-- Claim C27, evaluated at the order `n = 0`.  In either configuration and with
any kernel, upgtr called with `n = 0` and `ldq = 1` passes the overflow check and
requests a workspace of length `0 - 1 = -1`: the allocation raises a length error
and the kernel is never called.  The sibling steqr, whose workspace is requested
with `max(1, 2*n - 2)`, allocates one element at `n = 0` and calls its kernel. -/
theorem upgtr_order_zero_requests_negative_length {D : Type} (w : IndexWidth) (K : Kernel D)
    (d : D) :
    checkOverflow w [0, 1] = false ∧
    wrap64 (0 - 1) = -1 ∧
    (upgtr w K d 0 1).result = .error .lengthError ∧
    (upgtr w K d 0 1).events = [] ∧
    (steqr w K d 0 1).events = [Event.alloc 1, Event.call [0, 1] []] := by
  have hg : checkOverflow w [0, 1] = false := by cases w <;> decide
  have hl : wrap64 (0 - 1) < 0 := by decide
  refine ⟨hg, by decide, ?_, ?_, ?_⟩
  · simp only [upgtr, hg, hl, Bool.false_eq_true, if_false, if_true]
  · simp only [upgtr, hg, hl, Bool.false_eq_true, if_false, if_true]
  · simp only [steqr, hg, Bool.false_eq_true, if_false]
    cases w <;> split_ifs <;> rfl

/-! ## Closed-form lengths in the narrow configuration -/

theorem wrap64_linear_of_abs_le {m n : Int} (hm : |m| ≤ INT32_MAX) (hn : |n| ≤ INT32_MAX) :
    wrap64 (2 * n) = 2 * n ∧ wrap64 (3 * n) = 3 * n ∧ wrap64 (5 * n) = 5 * n ∧
    wrap64 (7 * n) = 7 * n ∧ wrap64 (2 * n - 2) = 2 * n - 2 ∧ wrap64 (n - 1) = n - 1 ∧
    wrap64 (m + n + 6) = m + n + 6 ∧ wrap64 (m + n + 2) = m + n + 2 := by
  have h1 := isInt32_of_abs_le hm
  have h2 := isInt32_of_abs_le hn
  unfold IsInt32 INT32_MIN INT32_MAX at h1 h2
  refine ⟨?_, ?_, ?_, ?_, ?_, ?_, ?_, ?_⟩ <;>
    (apply wrap64_of_isInt64
     unfold IsInt64 INT64_MIN INT64_MAX
     omega)

theorem sbgvx_alloc_lengths {D : Type} (KJ : Job → Kernel D) (junk : Nat → Int) (d : D)
    (jobz : Job) (n ka kb ldab ldbb ldq il iu cnt ldz : Int) (ifail : List Int)
    (hn : |n| ≤ INT32_MAX) (L : Int)
    (h : Event.alloc L
      ∈ (sbgvx .narrow KJ junk d jobz n ka kb ldab ldbb ldq il iu cnt ldz ifail).events) :
    L = n ∨ L = 7 * n ∨ L = 5 * n := by
  have hw := wrap64_linear_of_abs_le hn hn
  simp only [sbgvx, hw.2.2.1, hw.2.2.2.1] at h
  split_ifs at h <;> simp at h <;> tauto

theorem tgsyl_alloc_lengths {D : Type} (K : Kernel D) (d : D)
    (ijob m n lda ldb ldc ldd lde ldf : Int)
    (hm : |m| ≤ INT32_MAX) (hn : |n| ≤ INT32_MAX) (L : Int)
    (h : Event.alloc L ∈ (tgsyl .narrow K d ijob m n lda ldb ldc ldd lde ldf).events) :
    L = probeToLapackInt .narrow (K d ⟨[wrap32 ijob, wrap32 m, wrap32 n, wrap32 lda,
      wrap32 ldb, wrap32 ldc, wrap32 ldd, wrap32 lde, wrap32 ldf, -1], []⟩).2.probe ∨
    L = m + n + 6 := by
  have hw := wrap64_linear_of_abs_le hm hn
  simp only [tgsyl, hw.2.2.2.2.2.2.1] at h
  split_ifs at h <;> simp at h <;> first | exact Or.inl h | exact h

theorem tgsyl_complex_alloc_lengths {D : Type} (Q : QueryKernel D) (d : D)
    (ijob m n lda ldb ldc ldd lde ldf : Int)
    (hm : |m| ≤ INT32_MAX) (hn : |n| ≤ INT32_MAX) (L : Int)
    (h : Event.alloc L ∈ (tgsyl_complex .narrow Q d ijob m n lda ldb ldc ldd lde ldf).events) :
    L = probeToLapackInt .narrow (real (Q d ⟨[wrap32 ijob, wrap32 m, wrap32 n, wrap32 lda,
      wrap32 ldb, wrap32 ldc, wrap32 ldd, wrap32 lde, wrap32 ldf, -1], []⟩).2.work) ∨
    L = m + n + 2 := by
  have hw := wrap64_linear_of_abs_le hm hn
  simp only [tgsyl_complex, hw.2.2.2.2.2.2.2] at h
  split_ifs at h <;> simp at h <;> first | exact Or.inl h | exact h

theorem steqr_alloc_lengths {D : Type} (K : Kernel D) (d : D) (n ldz : Int)
    (hn : |n| ≤ INT32_MAX) (L : Int)
    (h : Event.alloc L ∈ (steqr .narrow K d n ldz).events) : L = max 1 (2 * n - 2) := by
  have hw := wrap64_linear_of_abs_le hn hn
  simp only [steqr, hw.2.2.2.2.1] at h
  split_ifs at h <;> simp at h <;> exact h

theorem upgtr_alloc_lengths {D : Type} (K : Kernel D) (d : D) (n ldq : Int)
    (hn : |n| ≤ INT32_MAX) (L : Int)
    (h : Event.alloc L ∈ (upgtr .narrow K d n ldq).events) : L = n - 1 := by
  have hw := wrap64_linear_of_abs_le hn hn
  simp only [upgtr, hw.2.2.2.2.2.1] at h
  split_ifs at h <;> simp at h <;> exact h

/-- Claim C28.  In the narrow configuration, for `m` and `n` of magnitude at most
2^31 - 1, the 64-bit values of `2*n`, `3*n`, `5*n`, `7*n`, `2*n - 2`, `n - 1`,
`m + n + 6` and `m + n + 2` are their mathematical values; accordingly every
scratch vector that sbgvx, tgsyl, steqr and upgtr allocate, and the typed `work` of
gerfs, has the mathematical length: `n`, `7*n` or `5*n` in sbgvx, the queried
length or `m + n + 6` (real kind) and `m + n + 2` (complex kind) in tgsyl,
`max(1, 2*n - 2)` in steqr, `n - 1` in upgtr, `3*n` and `2*n` in gerfs. -/
theorem closed_form_lengths_do_not_wrap {D : Type} (K : Kernel D) (KJ : Job → Kernel D)
    (Q : QueryKernel D) (junk : Nat → Int) (d : D) (jobz : Job) (p : Precision)
    (m n ka kb ldab ldbb ldq il iu cnt ldz ijob lda ldb ldc ldd lde ldf : Int)
    (ifail : List Int)
    (hm : |m| ≤ INT32_MAX) (hn : |n| ≤ INT32_MAX) :
    (wrap64 (2 * n) = 2 * n ∧ wrap64 (3 * n) = 3 * n ∧ wrap64 (5 * n) = 5 * n ∧
      wrap64 (7 * n) = 7 * n ∧ wrap64 (2 * n - 2) = 2 * n - 2 ∧ wrap64 (n - 1) = n - 1 ∧
      wrap64 (m + n + 6) = m + n + 6 ∧ wrap64 (m + n + 2) = m + n + 2) ∧
    (∀ L, Event.alloc L
        ∈ (sbgvx .narrow KJ junk d jobz n ka kb ldab ldbb ldq il iu cnt ldz ifail).events →
      L = n ∨ L = 7 * n ∨ L = 5 * n) ∧
    (∀ L, Event.alloc L ∈ (tgsyl .narrow K d ijob m n lda ldb ldc ldd lde ldf).events →
      L = probeToLapackInt .narrow (K d ⟨[wrap32 ijob, wrap32 m, wrap32 n, wrap32 lda,
        wrap32 ldb, wrap32 ldc, wrap32 ldd, wrap32 lde, wrap32 ldf, -1], []⟩).2.probe ∨
      L = m + n + 6) ∧
    (∀ L, Event.alloc L
        ∈ (tgsyl_complex .narrow Q d ijob m n lda ldb ldc ldd lde ldf).events →
      L = probeToLapackInt .narrow (real (Q d ⟨[wrap32 ijob, wrap32 m, wrap32 n, wrap32 lda,
        wrap32 ldb, wrap32 ldc, wrap32 ldd, wrap32 lde, wrap32 ldf, -1], []⟩).2.work) ∨
      L = m + n + 2) ∧
    (∀ L, Event.alloc L ∈ (steqr .narrow K d n ldz).events → L = max 1 (2 * n - 2)) ∧
    (∀ L, Event.alloc L ∈ (upgtr .narrow K d n ldq).events → L = n - 1) ∧
    (rfsScratch (.real p) n).1.len = 3 * n ∧
    (rfsScratch (.complex p) n).1.len = 2 * n :=
  ⟨wrap64_linear_of_abs_le hm hn,
    sbgvx_alloc_lengths KJ junk d jobz n ka kb ldab ldbb ldq il iu cnt ldz ifail hn,
    tgsyl_alloc_lengths K d ijob m n lda ldb ldc ldd lde ldf hm hn,
    tgsyl_complex_alloc_lengths Q d ijob m n lda ldb ldc ldd lde ldf hm hn,
    steqr_alloc_lengths K d n ldz hn, upgtr_alloc_lengths K d n ldq hn,
    (wrap64_linear_of_abs_le hm hn).2.1, (wrap64_linear_of_abs_le hm hn).1⟩

/-- Witness for claim C28: the largest dimensions the guard accepts,
`m = n = 2^31 - 1`. -/
theorem closed_form_lengths_do_not_wrap_witness :
    wrap64 (7 * 2147483647) = 7 * 2147483647 ∧
    wrap64 (2147483647 + 2147483647 + 6) = 2147483647 + 2147483647 + 6 ∧
    (rfsScratch (.real .single) 2147483647).1.len = 3 * 2147483647 :=
  have h := closed_form_lengths_do_not_wrap (statusKernel 0) (fun _ => statusKernel 0)
    (queryKernel 0 (.real 0) 0 0) (fun _ => 0) () Job.NoVec .single
    2147483647 2147483647 1 1 2 2 1 1 1 0 1 0 1 1 1 1 1 1 []
    (by decide) (by decide)
  ⟨h.1.2.2.2.1, h.1.2.2.2.2.2.2.1, h.2.2.2.2.2.2.1⟩

/-! ## Bounds of the partial copy-back in sbgvx -/

/-- Claim C29.  In the narrow configuration, on every successful return of sbgvx
with a caller array `ifail` of at least `n` entries, a kernel that works within
the list it is handed, and a count `c` left by the kernel with `0 ≤ c ≤ n`: the
native failure list handed to the kernel has `n` entries, and so has the list the
kernel leaves; the first `c` entries read from it all exist; the caller's `ifail`
afterwards consists of those `c` entries converted to 64 bits followed by the
caller's own entries from position `c` on (it is untouched when `jobz` is `NoVec`),
so it keeps its length and every entry at a position not below `c`. -/
theorem sbgvx_copy_back_within_bounds {D : Type} (K : Job → Kernel D) (junk : Nat → Int)
    (d : D) (jobz : Job) (n ka kb ldab ldbb ldq il iu m0 ldz s : Int) (ifail : List Int)
    (hKl : ∀ j d a, (K j d a).2.index.length = a.index.length)
    (hs : (sbgvx .narrow K junk d jobz n ka kb ldab ldbb ldq il iu m0 ldz ifail).result = .ok s)
    (hc0 : 0 ≤ (K jobz d ⟨[wrap32 n, wrap32 ka, wrap32 kb, wrap32 ldab, wrap32 ldbb,
      wrap32 ldq, wrap32 il, wrap32 iu, wrap32 m0, wrap32 ldz], fresh junk n⟩).2.count)
    (hcn : (K jobz d ⟨[wrap32 n, wrap32 ka, wrap32 kb, wrap32 ldab, wrap32 ldbb,
      wrap32 ldq, wrap32 il, wrap32 iu, wrap32 m0, wrap32 ldz], fresh junk n⟩).2.count ≤ n)
    (hlen : n.toNat ≤ ifail.length) :
    let ints := [wrap32 n, wrap32 ka, wrap32 kb, wrap32 ldab, wrap32 ldbb, wrap32 ldq,
      wrap32 il, wrap32 iu, wrap32 m0, wrap32 ldz]
    let r := K jobz d ⟨ints, fresh junk n⟩
    let c := r.2.count.toNat
    let out := sbgvx .narrow K junk d jobz n ka kb ldab ldbb ldq il iu m0 ldz ifail
    (c : Int) = r.2.count ∧
    Event.call ints (fresh junk n) ∈ out.events ∧
    (fresh junk n).length = n.toNat ∧
    r.2.index.length = n.toNat ∧
    (r.2.index.take c).length = c ∧
    out.ifail = (if jobz ≠ Job.NoVec then (r.2.index.take c).map toInt64 ++ ifail.drop c
      else ifail) ∧
    out.ifail.length = ifail.length ∧
    (∀ i, c ≤ i → out.ifail[i]? = ifail[i]?) := by
  intro ints r c out
  have hr : r.2.index.length = n.toNat := by
    rw [hKl]
    exact length_fresh junk n
  have hcle : c ≤ n.toNat := Int.toNat_le_toNat hcn
  have ht : (r.2.index.take c).length = c := by
    rw [List.length_take, hr]
    omega
  have hif : out.ifail = (if jobz ≠ Job.NoVec then stdCopy (r.2.index.take c) ifail
      else ifail) := by
    revert hs
    simp only [out, sbgvx]
    split_ifs <;> intro hs <;> first | rfl | exact absurd hs (by simp)
  have hev : Event.call ints (fresh junk n) ∈ out.events := by
    revert hs
    simp only [out, sbgvx]
    split_ifs <;> intro hs <;>
      first | (simp [ints, toLapackInt]; done) | exact absurd hs (by simp)
  have hsc : stdCopy (r.2.index.take c) ifail
      = (r.2.index.take c).map toInt64 ++ ifail.drop c := by
    unfold stdCopy
    rw [ht]
  refine ⟨Int.toNat_of_nonneg hc0, hev, length_fresh junk n, hr, ht, ?_, ?_, ?_⟩
  · rw [hif, hsc]
  · rw [hif]
    split_ifs
    · rw [hsc, List.length_append, List.length_map, ht, List.length_drop]
      omega
    · rfl
  · intro i hi
    rw [hif]
    split_ifs
    · exact stdCopy_getElem?_ge _ _ (by omega)
    · rfl

/-- Witness for claim C29: order 4, the kernel reports 2 failures and
overwrites its whole native list with 7; the caller's array afterwards holds the two
values followed by its own last two entries. -/
theorem sbgvx_copy_back_within_bounds_witness :
    (sbgvx .narrow (fun _ => sampleKernel 0 2 0 (fun _ => 7)) (fun _ => 0) () Job.Vec
      4 1 1 2 2 4 1 4 0 4 [10, 20, 30, 40]).ifail = [7, 7, 30, 40] :=
  (sbgvx_copy_back_within_bounds (fun _ => sampleKernel 0 2 0 (fun _ => 7)) (fun _ => 0) ()
    Job.Vec 4 1 1 2 2 4 1 4 0 4 0 [10, 20, 30, 40]
    (fun _ _ _ => by simp [sampleKernel]) (by decide) (by decide) (by decide)
    (by decide)).2.2.2.2.2.1

/-! ## The test helper roundup -/

theorem roundup_eq {x y : Int} (hx : 0 ≤ x) (hy : 1 ≤ y) (hov : x + y - 1 ≤ INT64_MAX) :
    roundup x y = (x + y - 1) / y * y := by
  unfold INT64_MAX at hov
  have h1 : wrap64 (wrap64 (x + y) - 1) = x + y - 1 := by
    unfold wrap64
    omega
  have hs0 : 0 ≤ x + y - 1 := by omega
  have hq0 : 0 ≤ (x + y - 1) / y := Int.ediv_nonneg hs0 (by omega)
  have hq1 : (x + y - 1) / y ≤ x + y - 1 := Int.ediv_le_self _ hs0
  have hp1 : (x + y - 1) / y * y ≤ x + y - 1 := Int.ediv_mul_le _ (by omega)
  have hp0 : 0 ≤ (x + y - 1) / y * y := mul_nonneg hq0 (by omega)
  unfold roundup
  rw [h1, Int.tdiv_eq_ediv hs0 (by omega)]
  generalize (x + y - 1) / y = q at hq0 hq1 hp1 hp0
  have hq : wrap64 q = q := by
    apply wrap64_of_isInt64
    unfold IsInt64 INT64_MIN INT64_MAX
    omega
  rw [hq]
  generalize q * y = r at hp1 hp0
  apply wrap64_of_isInt64
  unfold IsInt64 INT64_MIN INT64_MAX
  omega

theorem ediv_multiple_add (j : Int) {y : Int} (hy : 1 ≤ y) : (j * y + y - 1) / y = j := by
  have h : j * y + y - 1 = (y - 1) + j * y := by ring
  rw [h, Int.add_mul_ediv_right _ _ (by omega), Int.ediv_eq_zero_of_lt (by omega) (by omega)]
  simp

/-- Claim C30.  For all integers `x ≥ 0` and `y ≥ 1`, each application of roundup
being one whose `x + y - 1` does not overflow: `roundup(x, y)` is the least multiple
of `y` that is at least `x`, that is, the result `r` satisfies `r mod y = 0` and
`x ≤ r < x + y`, and no multiple of `y` that is at least `x` is below it; hence a
leading dimension `roundup(max(1, n), y)` is at least `max(1, n)`; and roundup is
idempotent in its first argument, `roundup(r, y) = r`. -/
theorem roundup_least_multiple (x y n : Int) (hx : 0 ≤ x) (hy : 1 ≤ y)
    (hov : x + y - 1 ≤ INT64_MAX) (hn : max 1 n + y - 1 ≤ INT64_MAX) :
    roundup x y % y = 0 ∧ x ≤ roundup x y ∧ roundup x y < x + y ∧
    (∀ k, k % y = 0 → x ≤ k → roundup x y ≤ k) ∧
    max 1 n ≤ roundup (max 1 n) y ∧
    (roundup x y + y - 1 ≤ INT64_MAX → roundup (roundup x y) y = roundup x y) := by
  have hlow : ∀ z : Int, 0 ≤ z → z + y - 1 ≤ INT64_MAX → z ≤ roundup z y := by
    intro z hz hzo
    rw [roundup_eq hz hy hzo]
    have h := Int.lt_ediv_add_one_mul_self (z + y - 1) (by omega : 0 < y)
    rw [add_mul, one_mul] at h
    omega
  have hle : roundup x y ≤ x + y - 1 := by
    rw [roundup_eq hx hy hov]
    exact Int.ediv_mul_le _ (by omega)
  refine ⟨?_, hlow x hx hov, by omega, ?_, hlow _ (by omega) hn, ?_⟩
  · rw [roundup_eq hx hy hov]
    exact Int.mul_emod_left _ _
  · intro k hk hxk
    rw [roundup_eq hx hy hov]
    have hkj : k = k / y * y := by
      have := Int.ediv_add_emod k y
      rw [hk, add_zero, mul_comm] at this
      exact this.symm
    have h1 : (x + y - 1) / y ≤ (k + y - 1) / y :=
      Int.ediv_le_ediv (by omega) (by omega)
    have h2 : (k + y - 1) / y = k / y := by
      conv_lhs => rw [hkj]
      exact ediv_multiple_add _ hy
    rw [h2] at h1
    calc (x + y - 1) / y * y ≤ k / y * y := mul_le_mul_of_nonneg_right h1 (by omega)
      _ = k := hkj.symm
  · intro hov2
    have hr0 : 0 ≤ roundup x y := le_trans hx (hlow x hx hov)
    rw [roundup_eq hr0 hy hov2]
    conv_lhs => rw [roundup_eq hx hy hov]
    rw [ediv_multiple_add _ hy]
    exact (roundup_eq hx hy hov).symm

/-- Witness for claim C30: `x = 5` and the alignment `y = 4`; the result is 8 and
rounding it up again gives 8. -/
theorem roundup_least_multiple_witness :
    roundup 5 4 % 4 = 0 ∧ (5 : Int) ≤ roundup 5 4 ∧ roundup 5 4 < 5 + 4 ∧
    roundup (roundup 5 4) 4 = roundup 5 4 :=
  have h := roundup_least_multiple 5 4 0 (by decide) (by decide) (by decide) (by decide)
  ⟨h.1, h.2.1, h.2.2.1, h.2.2.2.2.2 (by decide)⟩

end Lapack
